import Mathlib

/-!
# ram-tracer: the memory trace decoder (`src/decoder/memtrace.c`)

A shallow embedding of the decoder library and theorems about it.

Conventions of the embedding

* C unsigned integers are natural numbers, reduced `% 2^w` wherever the C
  arithmetic can wrap (`uint32_t`: `2^32`, `uint64_t`/`size_t`: `2^64`).
  For a power of two `m`, `x & (m - 1)` is written `x % m`, `x >> 8` is
  written `x / 256` and `x << 1` is written `(x * 2) % 2^32`.
* Arrays are functions from the index to the element.  `memory` has
  `MEM_SIZE_BYTES` elements and `fileBuf` has `fileBufSize` elements; a
  store at an index outside the array is undefined in C, and the embedding
  records it at that raw index, where it stays observable.  In C such a store
  lands on what follows `memory` in the struct (`file`, `fileBufHead`,
  `fileBufTail`, `fileBuf`, `nextAddr`), which the embedding keeps apart:
  where a statement depends on those fields after a byte store, it takes the
  store to fall inside `memory`, and the statements about a store outside
  `memory` say where the store goes and nothing about what follows it.
* `FILE *file` is the list of bytes that `fread` has not delivered yet;
  `fread` delivers the next available bytes.
* `timestamp.seconds` is a `double` computed from `timestamp.clocks`; it is
  not represented.
* `memtrace_fmt.h` (the packet layout) is not among the sources: the packet
  accessors are the fields of a `MemPacketFmt`, and theorems hold for every
  such format.
-/

namespace MemTrace

/-! ## memtrace.h -/

/-- The enum `MemOpType` of memtrace.h. -/
inductive MemOpType where
  | MEMOP_INVALID
  | MEMOP_READ
  | MEMOP_WRITE
  deriving DecidableEq, Repr

/-- The struct `MemOp` of memtrace.h: one memory operation; `addr` and
`length` are `uint32_t` byte counts. -/
structure MemOp where
  type : MemOpType
  addr : Nat
  length : Nat
  deriving DecidableEq, Repr

/-- The macro `MEM_SIZE_BYTES` of memtrace.h, `16 * 1024 * 1024`. -/
abbrev MEM_SIZE_BYTES : Nat := 16777216

/-- The number of elements of `fileBuf`, `64 * 1024`. -/
abbrev fileBufSize : Nat := 65536

/-- The struct `MemTraceState` of memtrace.h. -/
structure MemTraceState where
  /-- Field `timestamp.clocks`, `uint64_t`. -/
  clocks : Nat
  /-- Field `fileOffset`, `uint64_t`. -/
  fileOffset : Nat
  /-- Field `memory`, `uint8_t [MEM_SIZE_BYTES]`. -/
  memory : Nat → Nat
  /-- Field `file`: the bytes of the stream that `fread` has not delivered. -/
  file : List Nat
  /-- Field `fileBufHead`, `uint32_t`. -/
  fileBufHead : Nat
  /-- Field `fileBufTail`, `uint32_t`. -/
  fileBufTail : Nat
  /-- Field `fileBuf`, `uint8_t [64 * 1024]`. -/
  fileBuf : Nat → Nat
  /-- Field `nextAddr`, `uint32_t`, in words. -/
  nextAddr : Nat

/-- The enum `MemTraceResult` of memtrace.h. -/
inductive MemTraceResult where
  | MEMTR_SUCCESS
  | MEMTR_EOF
  | MEMTR_ERR_SYNC
  | MEMTR_ERR_CHECKSUM
  | MEMTR_ERR_BADBURST
  deriving DecidableEq, Repr

/-! ## memtrace_fmt.h, taken as a parameter -/

/-- What `switch (MemPacket_GetType(packet))` of `MemTrace_Next` tells apart:
its three case labels, and `MEMPKT_OTHER` for a value that matches none of
them (the switch has no default label, so such a packet runs no case). -/
inductive MemPacketType where
  | MEMPKT_ADDR
  | MEMPKT_READ
  | MEMPKT_WRITE
  | MEMPKT_OTHER
  deriving DecidableEq, Repr

/-- A packet value, as produced by `MemPacket_FromBytes`. -/
abbrev MemPacket : Type := Nat

/-- The packet layout that memtrace.c uses through memtrace_fmt.h: the
size of a packet in bytes and the accessor functions.  The values the
accessors return are converted by the code that uses them (`uint32_t
nextAddr`, `uint16_t word`, `uint64_t clocks`). -/
structure MemPacketFmt where
  /-- The value of `sizeof packet`. -/
  sizeofPacket : Nat
  MemPacket_FromBytes : List Nat → MemPacket
  MemPacket_IsAligned : MemPacket → Bool
  MemPacket_IsChecksumCorrect : MemPacket → Bool
  MemPacket_GetDuration : MemPacket → Nat
  MemPacket_GetType : MemPacket → MemPacketType
  MemPacket_GetPayload : MemPacket → Nat
  MemPacket_RW_UpperByte : MemPacket → Bool
  MemPacket_RW_LowerByte : MemPacket → Bool
  MemPacket_RW_Word : MemPacket → Nat

/-! ## memtrace.c -/

/-- The state after `MemTrace_Open` succeeds on a file with the bytes
`stream`: `memset(state, 0, sizeof *state)`, then the file is opened. -/
def MemTrace_Open (stream : List Nat) : MemTraceState :=
  { clocks := 0
    fileOffset := 0
    memory := fun _ => 0
    file := stream
    fileBufHead := 0
    fileBufTail := 0
    fileBuf := fun _ => 0
    nextAddr := 0 }

/-- The array after `memmove(buf, buf + head, n)`. -/
def memmove (buf : Nat → Nat) (head n : Nat) : Nat → Nat :=
  fun i => if i < n then buf (head + i) else buf i

/-- The array after the bytes `got` are written from index `tail` on, as
`fread(buf + tail, 1, _, file)` does with the bytes it delivers. -/
def freadInto (buf : Nat → Nat) (tail : Nat) (got : List Nat) : Nat → Nat :=
  fun i => if tail ≤ i ∧ i < tail + got.length then got.getD (i - tail) 0 else buf i

/-- The elements `buf[head], ..., buf[head + n - 1]` of an array. -/
def arraySlice (buf : Nat → Nat) (head n : Nat) : List Nat :=
  (List.range n).map (fun i => buf (head + i))

/-- The array after `a[idx] = v`. -/
def store (a : Nat → Nat) (idx v : Nat) : Nat → Nat :=
  fun i => if i = idx then v else a i

/-- The second half of `MemTraceReadBuffered`, from the second test
`size + fileBufHead > fileBufTail` on.  `none`: the closing assert fails. -/
def MemTraceReadBuffered_copy (state : MemTraceState) (size : Nat) :
    Option (Bool × MemTraceState × List Nat) :=
  if (size + state.fileBufHead) % 2 ^ 32 > state.fileBufTail then
    some (false, state, [])
  else
    let bytes := arraySlice state.fileBuf state.fileBufHead size
    let state1 : MemTraceState :=
      { state with
        fileBufHead := (state.fileBufHead + size) % 2 ^ 32
        fileOffset := (state.fileOffset + size) % 2 ^ 64 }
    if state1.fileBufHead ≤ state1.fileBufTail then some (true, state1, bytes) else none

/-- The function `MemTraceReadBuffered`.  The result is `none` when an
assert fails (the program aborts), and otherwise the returned flag, the
state after the call and the bytes copied to the caller (none on `false`,
where the caller's array is left as it was). -/
def MemTraceReadBuffered (state : MemTraceState) (size : Nat) :
    Option (Bool × MemTraceState × List Nat) :=
  if state.fileBufHead ≤ state.fileBufTail then
    if (size + state.fileBufHead) % 2 ^ 32 > state.fileBufTail then
      let tail1 := (state.fileBufTail + 2 ^ 32 - state.fileBufHead) % 2 ^ 32
      let state1 : MemTraceState :=
        { state with
          fileBufTail := tail1
          fileBuf := memmove state.fileBuf state.fileBufHead tail1
          fileBufHead := 0 }
      let count := (fileBufSize + 2 ^ 64 - tail1) % 2 ^ 64
      let got := state1.file.take count
      if got.length < 1 then
        some (false, state1, [])
      else
        MemTraceReadBuffered_copy
          { state1 with
            fileBuf := freadInto state1.fileBuf tail1 got
            file := state1.file.drop count
            fileBufTail := (tail1 + got.length) % 2 ^ 32 }
          size
    else
      MemTraceReadBuffered_copy state size
  else
    none

/-- The function `MemTraceData`: the returned flag, the state, `*op` and
`*result` after the call. -/
def MemTraceData (F : MemPacketFmt) (state : MemTraceState) (op : MemOp)
    (packet : MemPacket) (result : MemTraceResult) :
    Bool × MemTraceState × MemOp × MemTraceResult :=
  let ub := F.MemPacket_RW_UpperByte packet
  let lb := F.MemPacket_RW_LowerByte packet
  let word := F.MemPacket_RW_Word packet % 2 ^ 16
  let byteWide := !(ub && lb)
  let op1 : MemOp := if op.length = 0 then { op with addr := (state.nextAddr * 2) % 2 ^ 32 } else op
  let state1 : MemTraceState := { state with nextAddr := (state.nextAddr + 1) % 2 ^ 32 }
  if byteWide && op1.length != 0 then
    (true, state1, op1, MemTraceResult.MEMTR_ERR_BADBURST)
  else if byteWide then
    if lb then
      (true,
       { state1 with memory := store state1.memory ((op1.addr + op1.length) % 2 ^ 32) (word % 256) },
       { op1 with length := (op1.length + 1) % 2 ^ 32 },
       result)
    else
      let op2 : MemOp := { op1 with addr := (op1.addr + 1) % 2 ^ 32 }
      (true,
       { state1 with memory := store state1.memory ((op2.addr + op2.length) % 2 ^ 32) (word / 256) },
       { op2 with length := (op2.length + 1) % 2 ^ 32 },
       result)
  else
    let mem1 := store state1.memory (((op1.addr + op1.length) % 2 ^ 32) % MEM_SIZE_BYTES) (word % 256)
    let op2 : MemOp := { op1 with length := (op1.length + 1) % 2 ^ 32 }
    let mem2 := store mem1 (((op2.addr + op2.length) % 2 ^ 32) % MEM_SIZE_BYTES) (word / 256)
    let op3 : MemOp := { op2 with length := (op2.length + 1) % 2 ^ 32 }
    (false, { state1 with memory := mem2 }, op3, result)

/-- The variables of `MemTrace_Next` that live across iterations of its
loop: `state`, `op` and `result`, and the packets the call has read so far
(`packets` is a record of the run, no C variable). -/
structure NextVars where
  state : MemTraceState
  op : MemOp
  result : MemTraceResult
  packets : List MemPacket

/-- How one iteration of the loop of `MemTrace_Next` ends. -/
inductive NextStep where
  /-- The loop goes on (`done` is false). -/
  | again (v : NextVars)
  /-- The loop is left, by `break` or with `done` true. -/
  | leave (v : NextVars)
  /-- A `return` inside the loop. -/
  | ret (r : MemTraceResult) (v : NextVars)
  /-- An assert of `MemTraceReadBuffered` fails. -/
  | abort (v : NextVars)

open MemTraceResult MemOpType MemPacketType

/-- The `MEMPKT_READ` and `MEMPKT_WRITE` cases of the switch, which differ
in `other` (the opposite operation type) and `mine` only. -/
def MemTrace_NextData (F : MemPacketFmt) (v : NextVars) (state : MemTraceState)
    (packet : MemPacket) (other mine : MemOpType) : NextStep :=
  if v.op.type = other then
    NextStep.ret MEMTR_ERR_BADBURST { v with state := state }
  else
    let r := MemTraceData F state { v.op with type := mine } packet v.result
    let v1 : NextVars := { v with state := r.2.1, op := r.2.2.1, result := r.2.2.2 }
    if r.1 then NextStep.leave v1 else NextStep.again v1

/-- The part of the loop body of `MemTrace_Next` that follows the alignment
and checksum tests: the update of `timestamp.clocks` and the switch on the
packet type. -/
def MemTrace_NextSwitch (F : MemPacketFmt) (v : NextVars) (packet : MemPacket) : NextStep :=
  let state1 : MemTraceState :=
    { v.state with clocks := (v.state.clocks + F.MemPacket_GetDuration packet) % 2 ^ 64 }
  match F.MemPacket_GetType packet with
  | MEMPKT_ADDR =>
    let state2 : MemTraceState :=
      { state1 with nextAddr := F.MemPacket_GetPayload packet % 2 ^ 32 }
    if v.op.length ≠ 0 then NextStep.leave { v with state := state2 }
    else NextStep.again { v with state := state2 }
  | MEMPKT_READ => MemTrace_NextData F v state1 packet MEMOP_WRITE MEMOP_READ
  | MEMPKT_WRITE => MemTrace_NextData F v state1 packet MEMOP_READ MEMOP_WRITE
  | MEMPKT_OTHER => NextStep.again { v with state := state1 }

/-- One iteration of the `while (!done)` loop of `MemTrace_Next`. -/
def MemTrace_NextBody (F : MemPacketFmt) (v : NextVars) : NextStep :=
  match MemTraceReadBuffered v.state F.sizeofPacket with
  | none => NextStep.abort v
  | some rd =>
    if rd.1 = false then
      if v.op.length ≠ 0 then NextStep.leave { v with state := rd.2.1 }
      else NextStep.ret MEMTR_EOF { v with state := rd.2.1 }
    else
      let packet := F.MemPacket_FromBytes rd.2.2
      let v1 : NextVars := { v with state := rd.2.1, packets := v.packets ++ [packet] }
      if F.MemPacket_IsAligned packet = false then
        match MemTraceReadBuffered v1.state 1 with
        | none => NextStep.abort v1
        | some rd1 =>
          if rd1.1 = false then NextStep.ret MEMTR_EOF { v1 with state := rd1.2.1 }
          else NextStep.ret MEMTR_ERR_SYNC { v1 with state := rd1.2.1 }
      else if F.MemPacket_IsChecksumCorrect packet = false then
        NextStep.ret MEMTR_ERR_CHECKSUM v1
      else
        MemTrace_NextSwitch F v1 packet

/-- The loop of `MemTrace_Next`, run for at most `n` iterations; the result
is `again` when the loop is still running after them. -/
def MemTrace_NextLoop (F : MemPacketFmt) : Nat → NextVars → NextStep
  | 0, v => NextStep.again v
  | n + 1, v =>
    match MemTrace_NextBody F v with
    | NextStep.again v1 => MemTrace_NextLoop F n v1
    | s => s

/-- How a call of `MemTrace_Next` ends. -/
inductive NextStatus where
  /-- The call returns this result. -/
  | returned (r : MemTraceResult)
  /-- An assert fails and the program aborts. -/
  | assertFailed
  /-- The loop is still running after the iterations allowed to it. -/
  | running
  deriving DecidableEq, Repr

/-- What a call of `MemTrace_Next` leaves behind: how it ended, the state,
the contents of `*nextOp` (`none` for a NULL pointer), and the packets the
call read, in order. -/
structure NextOut where
  status : NextStatus
  state : MemTraceState
  nextOp : Option MemOp
  packets : List MemPacket

/-- The variables at the start of a call of `MemTrace_Next`: `op.length = 0`,
`op.type = MEMOP_INVALID`, `result = MEMTR_SUCCESS`, no packet read.  The
field `op.addr` is not initialised in C and is assigned by `MemTraceData`
before it is read; here it starts as 0. -/
def MemTrace_NextInit (state : MemTraceState) : NextVars :=
  { state := state
    op := { type := MEMOP_INVALID, addr := 0, length := 0 }
    result := MEMTR_SUCCESS
    packets := [] }

/-- The number of bytes of the stream not handed out yet: those waiting in
`fileBuf` and those still in the file. -/
def unreadCount (state : MemTraceState) : Nat :=
  state.fileBufTail - state.fileBufHead + state.file.length

/-- The end of `MemTrace_Next`, for each way its loop can end: after the
loop, `if (nextOp) *nextOp = op; return result;`; a `return` inside the loop
leaves `*nextOp` as it was. -/
def MemTrace_NextEnd (nextOp : Option MemOp) : NextStep → NextOut
  | NextStep.again v => ⟨NextStatus.running, v.state, nextOp, v.packets⟩
  | NextStep.abort v => ⟨NextStatus.assertFailed, v.state, nextOp, v.packets⟩
  | NextStep.ret r v => ⟨NextStatus.returned r, v.state, nextOp, v.packets⟩
  | NextStep.leave v =>
    ⟨NextStatus.returned v.result, v.state, nextOp.map (fun _ => v.op), v.packets⟩

/-- The function `MemTrace_Next`.  `nextOp` is the contents of `*nextOp`
before the call, `none` for a NULL pointer.  Every iteration that does not
end the loop takes one packet from the stream, so the loop is given one
iteration per unread byte, and one more. -/
def MemTrace_Next (F : MemPacketFmt) (state : MemTraceState) (nextOp : Option MemOp) : NextOut :=
  MemTrace_NextEnd nextOp
    (MemTrace_NextLoop F (unreadCount state + 1) (MemTrace_NextInit state))

/-! ## A sample packet layout, for running the decoder on concrete streams -/

/-- Modelled from the spec: memtrace_fmt.h is missing and the spec leaves
the bit layout to the capture hardware (sections 4.2 and 6), so this is one
layout with the fields section 3 lists, used only to evaluate the decoder on
concrete streams.  A packet is four bytes, most significant first:
bit 31 the alignment marker, bits 28-30 the type (0 address, 1 read,
2 write), bit 27 the upper lane, bit 26 the lower lane, bits 24-25 the
duration, bits 8-23 the payload (word address or data word), bits 0-7 the
sum of the first three bytes modulo 256. -/
def sampleFmt : MemPacketFmt where
  sizeofPacket := 4
  MemPacket_FromBytes := fun b =>
    b.getD 0 0 * 16777216 + b.getD 1 0 * 65536 + b.getD 2 0 * 256 + b.getD 3 0
  MemPacket_IsAligned := fun p => p / 2147483648 % 2 == 1
  MemPacket_IsChecksumCorrect := fun p =>
    p % 256 == (p / 16777216 % 256 + p / 65536 % 256 + p / 256 % 256) % 256
  MemPacket_GetDuration := fun p => p / 16777216 % 4
  MemPacket_GetType := fun p =>
    if p / 268435456 % 8 = 0 then MEMPKT_ADDR
    else if p / 268435456 % 8 = 1 then MEMPKT_READ
    else if p / 268435456 % 8 = 2 then MEMPKT_WRITE
    else MEMPKT_OTHER
  MemPacket_GetPayload := fun p => p / 256 % 65536
  MemPacket_RW_UpperByte := fun p => p / 134217728 % 2 == 1
  MemPacket_RW_LowerByte := fun p => p / 67108864 % 2 == 1
  MemPacket_RW_Word := fun p => p / 256 % 65536

/-- The four bytes of the `sampleFmt` packet with first byte `b0` and
payload `payload`, with a correct checksum. -/
def samplePacket (b0 payload : Nat) : List Nat :=
  [b0, payload / 256 % 256, payload % 256, (b0 + payload / 256 % 256 + payload % 256) % 256]

/-! ## Vocabulary of the statements -/

/-- The unread part of the stream: the bytes waiting in `fileBuf` between
`fileBufHead` and `fileBufTail`, then the bytes still in the file. -/
def unread (state : MemTraceState) : List Nat :=
  arraySlice state.fileBuf state.fileBufHead (state.fileBufTail - state.fileBufHead) ++ state.file

/-- The bounds on the buffer indices: `fileBufHead <= fileBufTail`, the
condition of the asserts, and `fileBufTail` within the buffer. -/
def BufOK (state : MemTraceState) : Prop :=
  state.fileBufHead ≤ state.fileBufTail ∧ state.fileBufTail ≤ fileBufSize

instance (state : MemTraceState) : Decidable (BufOK state) := by
  unfold BufOK; infer_instance

/-- The packet width is usable: at least one byte, and a packet fits in
`fileBuf`. -/
def FmtOK (F : MemPacketFmt) : Prop :=
  0 < F.sizeofPacket ∧ F.sizeofPacket ≤ fileBufSize

instance (F : MemPacketFmt) : Decidable (FmtOK F) := by
  unfold FmtOK; infer_instance

/-- A successful read of `n` bytes: the state after it. -/
def Advances (s s1 : MemTraceState) (n : Nat) : Prop :=
  BufOK s1 ∧ unread s1 = (unread s).drop n ∧ s1.fileOffset = (s.fileOffset + n) % 2 ^ 64 ∧
  s1.clocks = s.clocks ∧ s1.memory = s.memory ∧ s1.nextAddr = s.nextAddr

/-- A failed read: the state after it. -/
def SameStream (s s1 : MemTraceState) : Prop :=
  BufOK s1 ∧ unread s1 = unread s ∧ s1.fileOffset = s.fileOffset ∧
  s1.clocks = s.clocks ∧ s1.memory = s.memory ∧ s1.nextAddr = s.nextAddr

/-- The state after the buffer was compacted and refilled from the file. -/
def refilled (s : MemTraceState) : MemTraceState :=
  { s with
    fileBufHead := 0
    fileBuf := freadInto (memmove s.fileBuf s.fileBufHead (s.fileBufTail - s.fileBufHead))
      (s.fileBufTail - s.fileBufHead)
      (s.file.take (fileBufSize - (s.fileBufTail - s.fileBufHead)))
    file := s.file.drop (fileBufSize - (s.fileBufTail - s.fileBufHead))
    fileBufTail := s.fileBufTail - s.fileBufHead +
      (s.file.take (fileBufSize - (s.fileBufTail - s.fileBufHead))).length }

/-- The state after the buffer was compacted. -/
def compacted (s : MemTraceState) : MemTraceState :=
  { s with
    fileBufTail := s.fileBufTail - s.fileBufHead
    fileBuf := memmove s.fileBuf s.fileBufHead (s.fileBufTail - s.fileBufHead)
    fileBufHead := 0 }

/-- The variables a loop step ends with. -/
def NextStep.vars : NextStep → NextVars
  | NextStep.again v => v
  | NextStep.leave v => v
  | NextStep.ret _ v => v
  | NextStep.abort v => v

/-- The fields of the state that belong to the buffered reader are equal. -/
def SameReader (s s1 : MemTraceState) : Prop :=
  s1.fileOffset = s.fileOffset ∧ s1.file = s.file ∧ s1.fileBufHead = s.fileBufHead ∧
  s1.fileBufTail = s.fileBufTail ∧ s1.fileBuf = s.fileBuf

/-- The packet is a READ or a WRITE packet. -/
def isRW (F : MemPacketFmt) (p : MemPacket) : Bool :=
  F.MemPacket_GetType p == MEMPKT_READ || F.MemPacket_GetType p == MEMPKT_WRITE

/-- The packet passes the alignment test and the checksum test. -/
def isValid (F : MemPacketFmt) (p : MemPacket) : Bool :=
  F.MemPacket_IsAligned p && F.MemPacket_IsChecksumCorrect p

/-- Both byte lanes of the packet are enabled: a word access. -/
def isWordWide (F : MemPacketFmt) (p : MemPacket) : Bool :=
  F.MemPacket_RW_UpperByte p && F.MemPacket_RW_LowerByte p

/-- The operation type that a READ or WRITE packet gives to its burst. -/
def opTypeOf : MemPacketType → MemOpType
  | MEMPKT_READ => MEMOP_READ
  | MEMPKT_WRITE => MEMOP_WRITE
  | _ => MEMOP_INVALID

/-- What holds of the variables of `MemTrace_Next` at the start of every
iteration of its loop, in a call started in state `s0`: every packet read so
far passed both tests, `result` is still `MEMTR_SUCCESS`, the READ/WRITE
packets read so far are word accesses of the type of `op`, `op.length` counts
two bytes for each of them, and without any of them `op` and the shadow
memory are as at the start of the call. -/
structure LoopInv (F : MemPacketFmt) (s0 : MemTraceState) (v : NextVars) : Prop where
  valid : ∀ p ∈ v.packets, isValid F p = true
  result : v.result = MEMTR_SUCCESS
  types : ∀ p ∈ v.packets, isRW F p = true → v.op.type = opTypeOf (F.MemPacket_GetType p)
  wide : ∀ p ∈ v.packets, isRW F p = true → isWordWide F p = true
  length : v.op.length = (2 * (v.packets.filter (isRW F)).length) % 2 ^ 32
  fresh : (∀ p ∈ v.packets, isRW F p = false) →
    v.op.type = MEMOP_INVALID ∧ v.state.memory = s0.memory

/-- The ways in which the iteration that starts with the variables `v` can
end the loop, with what each leaves behind. -/
inductive ExitCase (F : MemPacketFmt) (v : NextVars) : NextStep → Prop
  /-- The entry assert of the packet read fails. -/
  | assertFirst : ExitCase F v (NextStep.abort v)
  /-- No packet left and no burst accumulated: `return MEMTR_EOF`. -/
  | eof (s1 : MemTraceState) : s1.memory = v.state.memory → v.op.length = 0 →
      ExitCase F v (NextStep.ret MEMTR_EOF { v with state := s1 })
  /-- No packet left and a burst accumulated: `break`. -/
  | flush (s1 : MemTraceState) : s1.memory = v.state.memory → v.op.length ≠ 0 →
      ExitCase F v (NextStep.leave { v with state := s1 })
  /-- A misaligned packet `p`: the read of the extra byte aborts, fails
  (`MEMTR_EOF`) or succeeds (`MEMTR_ERR_SYNC`). -/
  | misaligned (s1 : MemTraceState) (p : MemPacket) (st : NextStep) :
      s1.memory = v.state.memory → F.MemPacket_IsAligned p = false →
      (st = NextStep.abort { v with state := s1, packets := v.packets ++ [p] } ∨
       st = NextStep.ret MEMTR_EOF { v with state := s1, packets := v.packets ++ [p] } ∨
       st = NextStep.ret MEMTR_ERR_SYNC { v with state := s1, packets := v.packets ++ [p] }) →
      ExitCase F v st
  /-- An aligned packet `p` with a wrong checksum. -/
  | checksum (s1 : MemTraceState) (p : MemPacket) :
      s1.memory = v.state.memory → F.MemPacket_IsAligned p = true →
      F.MemPacket_IsChecksumCorrect p = false →
      ExitCase F v
        (NextStep.ret MEMTR_ERR_CHECKSUM { v with state := s1, packets := v.packets ++ [p] })
  /-- An ADDRESS packet `p` that ends the accumulated burst. -/
  | addr (s1 : MemTraceState) (p : MemPacket) :
      s1.memory = v.state.memory → isValid F p = true →
      F.MemPacket_GetType p = MEMPKT_ADDR → v.op.length ≠ 0 →
      ExitCase F v (NextStep.leave { v with state := s1, packets := v.packets ++ [p] })
  /-- A READ packet in a WRITE burst or a WRITE packet in a READ burst. -/
  | mismatch (s1 : MemTraceState) (p : MemPacket) :
      s1.memory = v.state.memory → isValid F p = true → isRW F p = true →
      v.op.type ≠ MEMOP_INVALID → v.op.type ≠ opTypeOf (F.MemPacket_GetType p) →
      ExitCase F v
        (NextStep.ret MEMTR_ERR_BADBURST { v with state := s1, packets := v.packets ++ [p] })
  /-- A byte access `p` after the burst has data: `MemTraceData` sets
  `result` to `MEMTR_ERR_BADBURST` and ends the loop. -/
  | byteLater (s1 : MemTraceState) (p : MemPacket) :
      s1.memory = v.state.memory → isValid F p = true → isRW F p = true →
      isWordWide F p = false → v.op.length ≠ 0 →
      (v.op.type = MEMOP_INVALID ∨ v.op.type = opTypeOf (F.MemPacket_GetType p)) →
      ExitCase F v
        (NextStep.leave
          { state := s1
            op := { v.op with type := opTypeOf (F.MemPacket_GetType p) }
            result := MEMTR_ERR_BADBURST
            packets := v.packets ++ [p] })
  /-- A byte access `p` that starts the burst, and ends it. -/
  | byteFirst (s1 : MemTraceState) (p : MemPacket) (addr : Nat) :
      isValid F p = true → isRW F p = true →
      isWordWide F p = false → v.op.length = 0 →
      (v.op.type = MEMOP_INVALID ∨ v.op.type = opTypeOf (F.MemPacket_GetType p)) →
      ExitCase F v
        (NextStep.leave
          { state := s1
            op := { type := opTypeOf (F.MemPacket_GetType p), addr := addr, length := 1 }
            result := v.result
            packets := v.packets ++ [p] })

/-- The bytes `c` are one ADDRESS packet that passes both tests. -/
def isAddrPacket (F : MemPacketFmt) (c : List Nat) : Bool :=
  c.length == F.sizeofPacket && isValid F (F.MemPacket_FromBytes c) &&
    F.MemPacket_GetType (F.MemPacket_FromBytes c) == MEMPKT_ADDR

/-- The bytes `c` are one READ (`t = MEMOP_READ`) or WRITE (`t = MEMOP_WRITE`)
packet that passes both tests. -/
def isDataPacket (F : MemPacketFmt) (t : MemOpType) (c : List Nat) : Bool :=
  c.length == F.sizeofPacket && isValid F (F.MemPacket_FromBytes c) &&
    isRW F (F.MemPacket_FromBytes c) &&
    opTypeOf (F.MemPacket_GetType (F.MemPacket_FromBytes c)) == t

/-- The bytes `c` are one valid READ or WRITE packet of type `t` with both
byte lanes enabled. -/
def isWordPacket (F : MemPacketFmt) (t : MemOpType) (c : List Nat) : Bool :=
  isDataPacket F t c && isWordWide F (F.MemPacket_FromBytes c)

/-- The bytes `c` are one valid READ or WRITE packet of type `t` with fewer
than two byte lanes enabled. -/
def isBytePacket (F : MemPacketFmt) (t : MemOpType) (c : List Nat) : Bool :=
  isDataPacket F t c && !isWordWide F (F.MemPacket_FromBytes c)

/-- The 16-bit data word of the packet with bytes `c`, as `MemTraceData`
reads it into `uint16_t word`. -/
def wordOf (F : MemPacketFmt) (c : List Nat) : Nat :=
  F.MemPacket_RW_Word (F.MemPacket_FromBytes c) % 2 ^ 16

/-- The shadow memory after the words `ws` are stored, low byte first, from
offset `len` of the burst at byte address `addr`, every index reduced
modulo `MEM_SIZE_BYTES`. -/
def storeWords (mem : Nat → Nat) (addr : Nat) : Nat → List Nat → Nat → Nat
  | _, [] => mem
  | len, w :: ws =>
    storeWords
      (store (store mem ((addr + len) % MEM_SIZE_BYTES) (w % 256))
        ((addr + len + 1) % MEM_SIZE_BYTES) (w / 256))
      addr (len + 2) ws

/-- The predicted word address after the ADDRESS packets `pre` were read, in
order, starting from `nextAddr`: the payload of the last of them. -/
def addrAfter (F : MemPacketFmt) (nextAddr : Nat) (pre : List (List Nat)) : Nat :=
  pre.foldl (fun _ c => F.MemPacket_GetPayload (F.MemPacket_FromBytes c) % 2 ^ 32) nextAddr

/-- What holds of the buffered reader at the start of every iteration of the
loop of `MemTrace_Next`, in a call started in state `s0`: the buffer indices
are in bounds, the call has taken exactly one packet width of bytes from the
unread stream for each packet read so far, and the packets read so far are
the successive chunks of one packet width of the stream, each through
`MemPacket_FromBytes`. -/
structure StreamInv (F : MemPacketFmt) (s0 : MemTraceState) (v : NextVars) : Prop where
  bufOK : BufOK v.state
  taken : F.sizeofPacket * v.packets.length ≤ (unread s0).length
  unread : unread v.state = (unread s0).drop (F.sizeofPacket * v.packets.length)
  offset : v.state.fileOffset % 2 ^ 64 =
    (s0.fileOffset + F.sizeofPacket * v.packets.length) % 2 ^ 64
  chunks : ∃ cs : List (List Nat), (∀ c ∈ cs, c.length = F.sizeofPacket) ∧
    v.packets = cs.map F.MemPacket_FromBytes ∧
    (MemTrace.unread s0).take (F.sizeofPacket * v.packets.length) = cs.flatten

/-! ## Sample packets and streams in the layout `sampleFmt` -/

/-- An aligned ADDRESS packet with payload `a` and duration 0. -/
def sampleAddr (a : Nat) : List Nat := samplePacket 0x80 a

/-- An aligned READ packet with both lanes enabled, carrying `w`. -/
def sampleRead (w : Nat) : List Nat := samplePacket 0x9C w

/-- An aligned READ packet with only the lower lane enabled. -/
def sampleReadLower (w : Nat) : List Nat := samplePacket 0x94 w

/-- An aligned WRITE packet with both lanes enabled, carrying `w`. -/
def sampleWrite (w : Nat) : List Nat := samplePacket 0xAC w

/-- An aligned WRITE packet with only the lower lane enabled. -/
def sampleWriteLower (w : Nat) : List Nat := samplePacket 0xA4 w

/-- An aligned WRITE packet with only the upper lane enabled. -/
def sampleWriteUpper (w : Nat) : List Nat := samplePacket 0xA8 w

/-- An aligned WRITE packet whose checksum byte is wrong. -/
def sampleBadChecksum : List Nat := [0xAC, 0x56, 0x78, 0x00]

/-- Four bytes without the alignment marker. -/
def sampleMisaligned : List Nat := [0x00, 0x01, 0x02, 0x03]

/-- The contents of `*nextOp` before a call, in the examples. -/
def sampleOp : MemOp := { type := MEMOP_INVALID, addr := 0, length := 0 }

/-- The scenario of the spec: ADDRESS(0x100), WRITE(0x1234), WRITE(0x5678),
ADDRESS(0x102). -/
def traceWriteBurst : MemTraceState :=
  MemTrace_Open (sampleAddr 0x100 ++ sampleWrite 0x1234 ++ sampleWrite 0x5678 ++ sampleAddr 0x102)

/-- Two byte-wide READ packets with no ADDRESS packet between them. -/
def traceTwoByteReads : MemTraceState :=
  MemTrace_Open (sampleReadLower 0xBEEF ++ sampleReadLower 0x1234)

/-- A state whose predicted word address is 2^31. -/
def stateHighAddr : MemTraceState :=
  { MemTrace_Open [] with nextAddr := 2147483648 }

/-- A state whose predicted word address is 2^23, one past the last word of
the shadow memory. -/
def stateTopAddr : MemTraceState :=
  { MemTrace_Open [] with nextAddr := 8388608 }

/-- A state whose predicted word address is 0x100. -/
def stateAddr100 : MemTraceState :=
  { MemTrace_Open [] with nextAddr := 0x100 }

/-- A word-wide WRITE packet, then a packet with a wrong checksum. -/
def traceWriteThenBad : MemTraceState :=
  MemTrace_Open (sampleWrite 0x1234 ++ sampleBadChecksum)

/-- An ADDRESS packet, then a packet with a wrong checksum. -/
def traceAddrThenBad : MemTraceState :=
  MemTrace_Open (sampleAddr 0x100 ++ sampleBadChecksum)

/-- A burst cut off in the middle of its third packet. -/
def traceTruncated : MemTraceState :=
  MemTrace_Open (sampleAddr 0x100 ++ sampleWrite 0x1234 ++ sampleWrite 0x5678 ++ [0xAC, 0x12])

/-- A stream that is one misaligned packet and nothing else. -/
def traceMisalignedOnly : MemTraceState :=
  MemTrace_Open sampleMisaligned

/-- A misaligned packet with an ADDRESS packet after it. -/
def traceMisalignedThenAddr : MemTraceState :=
  MemTrace_Open (sampleMisaligned ++ sampleAddr 0x100)

/-- A word-wide WRITE packet, then a byte-wide WRITE packet. -/
def traceWordThenByte : MemTraceState :=
  MemTrace_Open (sampleWrite 0x1234 ++ sampleWriteLower 0x0056)

/-- A word-wide WRITE packet, then a word-wide READ packet. -/
def traceWriteThenRead : MemTraceState :=
  MemTrace_Open (sampleWrite 0x1234 ++ sampleRead 0x5678)

/-- The value of each enumerator of `MemTraceResult` (memtrace.h: the first
is `= 0`, the others follow). -/
def MemTraceResult.code : MemTraceResult → Int
  | MEMTR_SUCCESS => 0
  | MEMTR_EOF => 1
  | MEMTR_ERR_SYNC => 2
  | MEMTR_ERR_CHECKSUM => 3
  | MEMTR_ERR_BADBURST => 4

/-- The static table `strings` of `MemTrace_ErrorString`. -/
def MemTrace_ErrorString_strings : List String :=
  ["Success",
   "End of file",
   "Packet synchronization error",
   "Packet checksum error",
   "Malformed read/write burst"]

/-- The function `MemTrace_ErrorString`, on the integer value of `result`.
The guard is `result < 0 || result > sizeof strings / sizeof strings[0]`, and
`sizeof strings / sizeof strings[0]` is the number of table entries, 5.  The
result is `none` when `strings[result]` indexes the table out of range. -/
def MemTrace_ErrorString (result : Int) : Option String :=
  if result < 0 ∨ result > (MemTrace_ErrorString_strings.length : Int) then
    some "(Unknown error)"
  else
    MemTrace_ErrorString_strings[result.toNat]?

/-! ## decoder.c: the main loop -/

/-- The main loop of decoder.c,
`while ((result = MemTrace_Next(&state, &op)) != MEMTR_EOF)`, with no time
limit given on the command line, run for at most `n` calls: the number of
calls of `MemTrace_Next` made when the loop ends; `none` when the loop has not
ended after `n` calls, or a call does not return. -/
def mainLoop (F : MemPacketFmt) : Nat → MemTraceState → MemOp → Option Nat
  | 0, _, _ => none
  | n + 1, state, op =>
    match (MemTrace_Next F state (some op)).status with
    | NextStatus.returned r =>
      if r = MEMTR_EOF then some 1
      else
        (mainLoop F n (MemTrace_Next F state (some op)).state
          ((MemTrace_Next F state (some op)).nextOp.getD op)).map (fun k => k + 1)
    | _ => none

/-! ## Vocabulary of the statements about whole sessions -/

/-- The state after `n` calls of `MemTrace_Next`, one after the other. -/
def MemTrace_NextTimes (F : MemPacketFmt) : Nat → MemTraceState → MemTraceState
  | 0, state => state
  | n + 1, state => MemTrace_NextTimes F n (MemTrace_Next F state none).state

/-- The calls `MemTraceReadBuffered(state, _, size)` for the sizes of the
list, one after the other: the state after the last call and the bytes of the
successful calls, concatenated; `none` when an assert fails. -/
def readMany : MemTraceState → List Nat → Option (MemTraceState × List Nat)
  | state, [] => some (state, [])
  | state, size :: sizes =>
    match MemTraceReadBuffered state size with
    | none => none
    | some rd =>
      match readMany rd.2.1 sizes with
      | none => none
      | some r => some (r.1, rd.2.2 ++ r.2)

/-- The reader of a session on the stream `stream`: the buffer indices are in
bounds, and the unread bytes are the stream from position `fileOffset` on. -/
def ReadInv (stream : List Nat) (state : MemTraceState) : Prop :=
  BufOK state ∧ state.fileOffset ≤ stream.length ∧ unread state = stream.drop state.fileOffset

/-- The sum of the durations of the packets of the list that pass the
alignment test and the checksum test. -/
def durationSum (F : MemPacketFmt) (ps : List MemPacket) : Nat :=
  ((ps.filter (isValid F)).map F.MemPacket_GetDuration).sum

/-- The predicted word address by the account of the packets read: from
`nextAddr`, every valid ADDRESS packet sets it to its payload and every
valid READ or WRITE packet adds one, modulo 2^32. -/
def nextAddrCount (F : MemPacketFmt) (nextAddr : Nat) (ps : List MemPacket) : Nat :=
  ps.foldl
    (fun n p =>
      if isValid F p = true then
        match F.MemPacket_GetType p with
        | MEMPKT_ADDR => F.MemPacket_GetPayload p % 2 ^ 32
        | MEMPKT_READ => (n + 1) % 2 ^ 32
        | MEMPKT_WRITE => (n + 1) % 2 ^ 32
        | MEMPKT_OTHER => n
      else n)
    nextAddr

/-- The predicted word address after the switch of `MemTrace_Next` handled
the packet `p`, when it was `n` before and `op.type` was `t`. -/
def nextAddrStep (F : MemPacketFmt) (t : MemOpType) (n : Nat) (p : MemPacket) : Nat :=
  match F.MemPacket_GetType p with
  | MEMPKT_ADDR => F.MemPacket_GetPayload p % 2 ^ 32
  | MEMPKT_READ => if t = MEMOP_WRITE then n else (n + 1) % 2 ^ 32
  | MEMPKT_WRITE => if t = MEMOP_READ then n else (n + 1) % 2 ^ 32
  | MEMPKT_OTHER => n

/-- The list has a valid READ packet and a valid WRITE packet. -/
def mixesReadWrite (F : MemPacketFmt) (ps : List MemPacket) : Bool :=
  ps.any (fun p => isValid F p && F.MemPacket_GetType p == MEMPKT_READ) &&
  ps.any (fun p => isValid F p && F.MemPacket_GetType p == MEMPKT_WRITE)

/-! ## More sample states in the layout `sampleFmt` -/

/-- A state whose predicted word address is 0x7FFFFF, the last word of the
shadow memory, with two word-wide WRITE packets to read. -/
def traceLastWord : MemTraceState :=
  { MemTrace_Open (sampleWrite 0x1234 ++ sampleWrite 0x5678) with nextAddr := 0x7FFFFF }

/-- Three packets with durations 1, 2 and 3: an ADDRESS packet, a word-wide
WRITE packet, and a packet with a wrong checksum. -/
def traceDurations : MemTraceState :=
  MemTrace_Open (samplePacket 0x81 0x100 ++ samplePacket 0xAE 0x1234 ++ [0xAF, 0x56, 0x78, 0x00])

/-! ## A sample packet layout with a 32-bit payload -/

/-- Modelled from the spec: memtrace_fmt.h is missing and the spec leaves
the bit layout to the capture hardware (sections 4.2 and 6), so this is a
second layout with the fields section 3 lists, used only to evaluate the
decoder on streams whose ADDRESS packets carry word addresses of up to 32
bits.  A packet is eight bytes, most significant first: byte 0 as in
`sampleFmt` (bit 7 the alignment marker, bits 4-6 the type, bit 3 the upper
lane, bit 2 the lower lane, bits 0-1 the duration), bytes 1-4 the payload
(word address, or the data word in its low 16 bits), bytes 5-6 unused,
byte 7 the sum of the first seven bytes modulo 256. -/
def wideFmt : MemPacketFmt where
  sizeofPacket := 8
  MemPacket_FromBytes := fun b =>
    b.getD 0 0 * 72057594037927936 + b.getD 1 0 * 281474976710656 +
      b.getD 2 0 * 1099511627776 + b.getD 3 0 * 4294967296 + b.getD 4 0 * 16777216 +
      b.getD 5 0 * 65536 + b.getD 6 0 * 256 + b.getD 7 0
  MemPacket_IsAligned := fun p => p / 9223372036854775808 % 2 == 1
  MemPacket_IsChecksumCorrect := fun p =>
    p % 256 ==
      (p / 72057594037927936 % 256 + p / 281474976710656 % 256 + p / 1099511627776 % 256 +
        p / 4294967296 % 256 + p / 16777216 % 256 + p / 65536 % 256 + p / 256 % 256) % 256
  MemPacket_GetDuration := fun p => p / 72057594037927936 % 4
  MemPacket_GetType := fun p =>
    if p / 1152921504606846976 % 8 = 0 then MEMPKT_ADDR
    else if p / 1152921504606846976 % 8 = 1 then MEMPKT_READ
    else if p / 1152921504606846976 % 8 = 2 then MEMPKT_WRITE
    else MEMPKT_OTHER
  MemPacket_GetPayload := fun p => p / 16777216 % 4294967296
  MemPacket_RW_UpperByte := fun p => p / 576460752303423488 % 2 == 1
  MemPacket_RW_LowerByte := fun p => p / 288230376151711744 % 2 == 1
  MemPacket_RW_Word := fun p => p / 16777216 % 65536

/-- The eight bytes of the `wideFmt` packet with first byte `b0` and payload
`payload`, with a correct checksum. -/
def widePacket (b0 payload : Nat) : List Nat :=
  [b0, payload / 16777216 % 256, payload / 65536 % 256, payload / 256 % 256, payload % 256, 0, 0,
    (b0 + payload / 16777216 % 256 + payload / 65536 % 256 + payload / 256 % 256 +
      payload % 256) % 256]

/-- In `wideFmt`: ADDRESS(2^31), two word-wide WRITE packets (0x1234, 0x5678),
ADDRESS(0x102). -/
def traceAddrWraps : MemTraceState :=
  MemTrace_Open (widePacket 0x80 2147483648 ++ widePacket 0xAC 0x1234 ++ widePacket 0xAC 0x5678 ++
    widePacket 0x80 0x102)

/-- In `sampleFmt`: a stream of `k` word-wide WRITE packets (0x1234) and
nothing else. -/
def traceLongBurst (k : Nat) : MemTraceState :=
  MemTrace_Open (List.replicate k (sampleWrite 0x1234)).flatten

/-- In `wideFmt`: ADDRESS(0x800004), a WRITE packet with only the lower lane
(0x00FF), ADDRESS(0). -/
def streamByteAtHead : List Nat :=
  widePacket 0x80 0x800004 ++ widePacket 0xA4 0x00FF ++ widePacket 0x80 0

/-- In `wideFmt`: ADDRESS(0x800000), a WRITE packet with only the lower lane
(0x00FF). -/
def streamByteAtFile : List Nat :=
  widePacket 0x80 0x800000 ++ widePacket 0xA4 0x00FF

/-! ## The buffered reader hands out the stream in order -/

theorem arraySlice_length (buf : Nat → Nat) (h n : Nat) : (arraySlice buf h n).length = n := by
  simp [arraySlice]

theorem arraySlice_add (buf : Nat → Nat) (h a b : Nat) :
    arraySlice buf h (a + b) = arraySlice buf h a ++ arraySlice buf (h + a) b := by
  simp [arraySlice, List.range_add, List.map_append, List.map_map, Function.comp_def, Nat.add_assoc]

theorem arraySlice_congr (f g : Nat → Nat) (h n : Nat)
    (hfg : ∀ i, i < n → f (h + i) = g (h + i)) : arraySlice f h n = arraySlice g h n := by
  unfold arraySlice
  apply List.map_congr_left
  intro i hi
  exact hfg i (List.mem_range.mp hi)

theorem arraySlice_take (buf : Nat → Nat) (h n a : Nat) (ha : a ≤ n) :
    (arraySlice buf h n).take a = arraySlice buf h a := by
  obtain ⟨b, rfl⟩ := Nat.exists_eq_add_of_le ha
  rw [arraySlice_add, List.take_append_of_le_length (by simp [arraySlice_length])]
  rw [List.take_of_length_le (by simp [arraySlice_length])]

theorem arraySlice_drop (buf : Nat → Nat) (h n a : Nat) (ha : a ≤ n) :
    (arraySlice buf h n).drop a = arraySlice buf (h + a) (n - a) := by
  obtain ⟨b, rfl⟩ := Nat.exists_eq_add_of_le ha
  rw [arraySlice_add, List.drop_append_of_le_length (by simp [arraySlice_length])]
  rw [List.drop_of_length_le (by simp [arraySlice_length])]
  simp

theorem arraySlice_memmove (buf : Nat → Nat) (h n : Nat) :
    arraySlice (memmove buf h n) 0 n = arraySlice buf h n := by
  unfold arraySlice
  apply List.map_congr_left
  intro i hi
  have := List.mem_range.mp hi
  simp [memmove, this]

theorem arraySlice_freadInto_old (buf : Nat → Nat) (t : Nat) (got : List Nat) :
    arraySlice (freadInto buf t got) 0 t = arraySlice buf 0 t := by
  apply arraySlice_congr
  intro i hi
  simp only [freadInto, Nat.zero_add]
  rw [if_neg (by omega)]

theorem arraySlice_freadInto_new (buf : Nat → Nat) (t : Nat) (got : List Nat) :
    arraySlice (freadInto buf t got) t got.length = got := by
  apply List.ext_getElem
  · simp [arraySlice_length]
  · intro i h1 h2
    simp only [arraySlice, List.getElem_map, List.getElem_range, freadInto]
    rw [if_pos (by omega)]
    simp [List.getD_eq_getElem?_getD, List.getElem?_eq_getElem h2]

theorem unread_length (s : MemTraceState) :
    (unread s).length = s.fileBufTail - s.fileBufHead + s.file.length := by
  simp [unread, arraySlice_length]

theorem copy_ok (s : MemTraceState) (size : Nat) (hs : BufOK s)
    (h : size + s.fileBufHead ≤ s.fileBufTail) :
    ∃ s1, MemTraceReadBuffered_copy s size = some (true, s1, (unread s).take size) ∧
      Advances s s1 size := by
  obtain ⟨h1, h2⟩ := hs
  simp only [fileBufSize] at h2
  have e1 : (size + s.fileBufHead) % 2 ^ 32 = size + s.fileBufHead := by omega
  have e2 : (s.fileBufHead + size) % 2 ^ 32 = s.fileBufHead + size := by omega
  refine ⟨{ s with fileBufHead := s.fileBufHead + size,
                      fileOffset := (s.fileOffset + size) % 2 ^ 64 }, ?_, ?_⟩
  · unfold MemTraceReadBuffered_copy
    simp only [e1, e2]
    rw [if_neg (by omega), if_pos (by omega)]
    simp only [unread]
    rw [List.take_append_of_le_length (by rw [arraySlice_length]; omega),
      arraySlice_take _ _ _ _ (by omega)]
  · refine ⟨⟨by simp only []; omega, by simpa [fileBufSize] using h2⟩, ?_, rfl, rfl, rfl, rfl⟩
    simp only [unread]
    rw [List.drop_append_of_le_length (by rw [arraySlice_length]; omega),
      arraySlice_drop _ _ _ _ (by omega)]
    congr 2
    omega

theorem copy_eof (s : MemTraceState) (size : Nat) (hs : BufOK s) (hsize : size ≤ fileBufSize)
    (h : s.fileBufTail < size + s.fileBufHead) :
    MemTraceReadBuffered_copy s size = some (false, s, []) := by
  obtain ⟨h1, h2⟩ := hs
  simp only [fileBufSize] at h2 hsize
  unfold MemTraceReadBuffered_copy
  rw [if_pos (by omega)]

theorem refilled_unread (s : MemTraceState) : unread (refilled s) = unread s := by
  simp only [unread, refilled, Nat.sub_zero]
  rw [arraySlice_add, arraySlice_freadInto_old, arraySlice_memmove, Nat.zero_add,
    arraySlice_freadInto_new, List.append_assoc, List.take_append_drop]

theorem compacted_unread (s : MemTraceState) : unread (compacted s) = unread s := by
  simp only [unread, compacted, Nat.sub_zero]
  rw [arraySlice_memmove]

theorem refilled_tail (s : MemTraceState) (hs : BufOK s) :
    (refilled s).fileBufTail = min fileBufSize (unread s).length := by
  obtain ⟨h1, h2⟩ := hs
  simp only [refilled, unread_length, List.length_take, fileBufSize] at *
  omega

theorem refilled_BufOK (s : MemTraceState) (hs : BufOK s) : BufOK (refilled s) :=
  ⟨Nat.zero_le _, by rw [refilled_tail s hs]; exact Nat.min_le_left _ _⟩

theorem MemTraceReadBuffered_refill (s : MemTraceState) (size : Nat) (hs : BufOK s)
    (hsize : size ≤ fileBufSize) (hc : s.fileBufTail < size + s.fileBufHead) :
    MemTraceReadBuffered s size =
      if (s.file.take (fileBufSize - (s.fileBufTail - s.fileBufHead))).length < 1 then
        some (false, compacted s, [])
      else MemTraceReadBuffered_copy (refilled s) size := by
  obtain ⟨h1, h2⟩ := hs
  simp only [fileBufSize] at h2 hsize
  have e1 : (s.fileBufTail + 2 ^ 32 - s.fileBufHead) % 2 ^ 32 = s.fileBufTail - s.fileBufHead := by
    omega
  have e2 : (fileBufSize + 2 ^ 64 - (s.fileBufTail - s.fileBufHead)) % 2 ^ 64 =
      fileBufSize - (s.fileBufTail - s.fileBufHead) := by
    simp only [fileBufSize]; omega
  have hlen : (s.file.take (fileBufSize - (s.fileBufTail - s.fileBufHead))).length =
      min (fileBufSize - (s.fileBufTail - s.fileBufHead)) s.file.length := List.length_take ..
  simp only [fileBufSize] at hlen
  have e3 : (s.fileBufTail - s.fileBufHead +
      (s.file.take (fileBufSize - (s.fileBufTail - s.fileBufHead))).length) % 2 ^ 32 =
      s.fileBufTail - s.fileBufHead +
      (s.file.take (fileBufSize - (s.fileBufTail - s.fileBufHead))).length := by
    simp only [fileBufSize]; omega
  unfold MemTraceReadBuffered
  rw [if_pos h1, if_pos (by omega)]
  simp only [e1, e2, e3]
  rfl

theorem MemTraceReadBuffered_ok (s : MemTraceState) (size : Nat) (hs : BufOK s)
    (hsize : size ≤ fileBufSize) (h : size ≤ (unread s).length) :
    ∃ s1, MemTraceReadBuffered s size = some (true, s1, (unread s).take size) ∧
      Advances s s1 size := by
  by_cases hc : size + s.fileBufHead ≤ s.fileBufTail
  · have : MemTraceReadBuffered s size = MemTraceReadBuffered_copy s size := by
      unfold MemTraceReadBuffered
      rw [if_pos hs.1, if_neg (by omega)]
    rw [this]
    exact copy_ok s size hs hc
  · rw [MemTraceReadBuffered_refill s size hs hsize (by omega)]
    have hu := refilled_unread s
    have ht := refilled_tail s hs
    have hlen := unread_length s
    have hl2 : (s.file.take (fileBufSize - (s.fileBufTail - s.fileBufHead))).length =
      min (fileBufSize - (s.fileBufTail - s.fileBufHead)) s.file.length := List.length_take ..
    rw [if_neg (by have := hs.1; have := hs.2; simp only [fileBufSize] at *; omega)]
    obtain ⟨s1, hs1, a1, a2, a3, a4, a5, a6⟩ := copy_ok (refilled s) size (refilled_BufOK s hs)
      (by rw [ht]; simp only [refilled, fileBufSize] at *; omega)
    rw [hu] at hs1 a2
    exact ⟨s1, hs1, a1, a2, a3, a4, a5, a6⟩

theorem MemTraceReadBuffered_eof (s : MemTraceState) (size : Nat) (hs : BufOK s)
    (hsize : size ≤ fileBufSize) (h : (unread s).length < size) :
    ∃ s1, MemTraceReadBuffered s size = some (false, s1, []) ∧ SameStream s s1 := by
  have hlen := unread_length s
  rw [MemTraceReadBuffered_refill s size hs hsize (by have := hs.1; omega)]
  by_cases hg : (s.file.take (fileBufSize - (s.fileBufTail - s.fileBufHead))).length < 1
  · rw [if_pos hg]
    exact ⟨_, rfl, ⟨Nat.zero_le _, by have := hs.2; simp only [compacted]; omega⟩,
      compacted_unread s, rfl, rfl, rfl, rfl⟩
  · rw [if_neg hg]
    refine ⟨refilled s, ?_, refilled_BufOK s hs, refilled_unread s, rfl, rfl, rfl, rfl⟩
    exact copy_eof _ size (refilled_BufOK s hs) hsize
      (by rw [refilled_tail s hs]; simp only [refilled, fileBufSize] at *; omega)

/-! ## One iteration of the loop, in terms of the unread stream -/

theorem SameReader.unread {s s1 : MemTraceState} (h : SameReader s s1) : unread s1 = unread s := by
  obtain ⟨_, h2, h3, h4, h5⟩ := h
  simp only [MemTrace.unread, h2, h3, h4, h5]

theorem SameReader.bufOK {s s1 : MemTraceState} (h : SameReader s s1) (hb : BufOK s) : BufOK s1 := by
  obtain ⟨_, _, h3, h4, _⟩ := h
  simpa only [BufOK, h3, h4] using hb

theorem MemTraceData_sameReader (F : MemPacketFmt) (s : MemTraceState) (op : MemOp)
    (p : MemPacket) (r : MemTraceResult) : SameReader s (MemTraceData F s op p r).2.1 := by
  unfold MemTraceData
  simp only []
  split_ifs <;> exact ⟨rfl, rfl, rfl, rfl, rfl⟩

theorem MemTrace_NextData_sameReader (F : MemPacketFmt) (v : NextVars) (s : MemTraceState)
    (p : MemPacket) (a b : MemOpType) :
    SameReader s (MemTrace_NextData F v s p a b).vars.state := by
  unfold MemTrace_NextData
  simp only []
  split_ifs
  · exact ⟨rfl, rfl, rfl, rfl, rfl⟩
  · exact MemTraceData_sameReader ..
  · exact MemTraceData_sameReader ..

theorem MemTrace_NextSwitch_sameReader (F : MemPacketFmt) (v : NextVars) (p : MemPacket) :
    SameReader v.state (MemTrace_NextSwitch F v p).vars.state := by
  unfold MemTrace_NextSwitch
  simp only []
  split
  · split_ifs <;> exact ⟨rfl, rfl, rfl, rfl, rfl⟩
  · exact MemTrace_NextData_sameReader ..
  · exact MemTrace_NextData_sameReader ..
  · exact ⟨rfl, rfl, rfl, rfl, rfl⟩

theorem body_eof (F : MemPacketFmt) (v : NextVars) (hb : BufOK v.state) (hF : FmtOK F)
    (h : (unread v.state).length < F.sizeofPacket) :
    ∃ s1, SameStream v.state s1 ∧
      MemTrace_NextBody F v =
        if v.op.length ≠ 0 then NextStep.leave { v with state := s1 }
        else NextStep.ret MEMTR_EOF { v with state := s1 } := by
  obtain ⟨s1, hrb, hs1⟩ := MemTraceReadBuffered_eof v.state F.sizeofPacket hb hF.2 h
  refine ⟨s1, hs1, ?_⟩
  unfold MemTrace_NextBody
  rw [hrb]
  rfl

theorem body_packet (F : MemPacketFmt) (v : NextVars) (hb : BufOK v.state) (hF : FmtOK F)
    (h : F.sizeofPacket ≤ (unread v.state).length) :
    ∃ s1, Advances v.state s1 F.sizeofPacket ∧
      MemTrace_NextBody F v =
        if F.MemPacket_IsAligned
            (F.MemPacket_FromBytes ((unread v.state).take F.sizeofPacket)) = false then
          match MemTraceReadBuffered s1 1 with
          | none => NextStep.abort { v with state := s1, packets := v.packets ++
              [F.MemPacket_FromBytes ((unread v.state).take F.sizeofPacket)] }
          | some rd1 =>
            if rd1.1 = false then NextStep.ret MEMTR_EOF { v with state := rd1.2.1, packets :=
              v.packets ++ [F.MemPacket_FromBytes ((unread v.state).take F.sizeofPacket)] }
            else NextStep.ret MEMTR_ERR_SYNC { v with state := rd1.2.1, packets :=
              v.packets ++ [F.MemPacket_FromBytes ((unread v.state).take F.sizeofPacket)] }
        else if F.MemPacket_IsChecksumCorrect
            (F.MemPacket_FromBytes ((unread v.state).take F.sizeofPacket)) = false then
          NextStep.ret MEMTR_ERR_CHECKSUM { v with state := s1, packets := v.packets ++
            [F.MemPacket_FromBytes ((unread v.state).take F.sizeofPacket)] }
        else
          MemTrace_NextSwitch F { v with state := s1, packets := v.packets ++
            [F.MemPacket_FromBytes ((unread v.state).take F.sizeofPacket)] }
            (F.MemPacket_FromBytes ((unread v.state).take F.sizeofPacket)) := by
  obtain ⟨s1, hrb, hs1⟩ := MemTraceReadBuffered_ok v.state F.sizeofPacket hb hF.2 h
  refine ⟨s1, hs1, ?_⟩
  unfold MemTrace_NextBody
  rw [hrb]
  rfl

/-- A misaligned packet with at least one byte after it: the byte is taken
from the stream and the iteration returns `MEMTR_ERR_SYNC`. -/
theorem body_sync (F : MemPacketFmt) (v : NextVars) (hb : BufOK v.state) (hF : FmtOK F)
    (h : F.sizeofPacket + 1 ≤ (unread v.state).length)
    (hal : F.MemPacket_IsAligned
      (F.MemPacket_FromBytes ((unread v.state).take F.sizeofPacket)) = false) :
    ∃ s2, Advances v.state s2 (F.sizeofPacket + 1) ∧
      MemTrace_NextBody F v = NextStep.ret MEMTR_ERR_SYNC { v with state := s2, packets :=
        v.packets ++ [F.MemPacket_FromBytes ((unread v.state).take F.sizeofPacket)] } := by
  obtain ⟨s1, ⟨a1, a2, a3, a4, a5, a6⟩, hbody⟩ := body_packet F v hb hF (by omega)
  obtain ⟨s2, hrb, b1, b2, b3, b4, b5, b6⟩ := MemTraceReadBuffered_ok s1 1 a1
    (by simp [fileBufSize]) (by rw [a2, List.length_drop]; omega)
  refine ⟨s2, ⟨b1, ?_, ?_, by rw [b4, a4], by rw [b5, a5], by rw [b6, a6]⟩, ?_⟩
  · rw [b2, a2, List.drop_drop]
  · rw [b3, a3]; omega
  · rw [hbody, if_pos hal, hrb]
    rfl

/-- A misaligned packet at the very end of the stream: nothing more is
taken and the iteration returns `MEMTR_EOF`. -/
theorem body_sync_eof (F : MemPacketFmt) (v : NextVars) (hb : BufOK v.state) (hF : FmtOK F)
    (h : F.sizeofPacket = (unread v.state).length)
    (hal : F.MemPacket_IsAligned
      (F.MemPacket_FromBytes ((unread v.state).take F.sizeofPacket)) = false) :
    ∃ s2, Advances v.state s2 F.sizeofPacket ∧
      MemTrace_NextBody F v = NextStep.ret MEMTR_EOF { v with state := s2, packets :=
        v.packets ++ [F.MemPacket_FromBytes ((unread v.state).take F.sizeofPacket)] } := by
  obtain ⟨s1, ⟨a1, a2, a3, a4, a5, a6⟩, hbody⟩ := body_packet F v hb hF (by omega)
  obtain ⟨s2, hrb, b1, b2, b3, b4, b5, b6⟩ := MemTraceReadBuffered_eof s1 1 a1
    (by simp [fileBufSize]) (by rw [a2, List.length_drop]; omega)
  refine ⟨s2, ⟨b1, by rw [b2, a2], by rw [b3, a3], by rw [b4, a4], by rw [b5, a5],
    by rw [b6, a6]⟩, ?_⟩
  rw [hbody, if_pos hal, hrb]
  rfl

/-- An aligned packet: the iteration is decided by the checksum test and
the switch. -/
theorem body_aligned (F : MemPacketFmt) (v : NextVars) (hb : BufOK v.state) (hF : FmtOK F)
    (h : F.sizeofPacket ≤ (unread v.state).length)
    (hal : F.MemPacket_IsAligned
      (F.MemPacket_FromBytes ((unread v.state).take F.sizeofPacket)) = true) :
    ∃ s1, Advances v.state s1 F.sizeofPacket ∧
      MemTrace_NextBody F v =
        if F.MemPacket_IsChecksumCorrect
            (F.MemPacket_FromBytes ((unread v.state).take F.sizeofPacket)) = false then
          NextStep.ret MEMTR_ERR_CHECKSUM { v with state := s1, packets := v.packets ++
            [F.MemPacket_FromBytes ((unread v.state).take F.sizeofPacket)] }
        else
          MemTrace_NextSwitch F { v with state := s1, packets := v.packets ++
            [F.MemPacket_FromBytes ((unread v.state).take F.sizeofPacket)] }
            (F.MemPacket_FromBytes ((unread v.state).take F.sizeofPacket)) := by
  obtain ⟨s1, hadv, hbody⟩ := body_packet F v hb hF h
  refine ⟨s1, hadv, ?_⟩
  rw [hbody, if_neg (by simp [hal])]

/-! ## The loop: what holds at every iteration -/

theorem MemTraceReadBuffered_copy_data (s : MemTraceState) (size : Nat)
    (rd : Bool × MemTraceState × List Nat) (h : MemTraceReadBuffered_copy s size = some rd) :
    rd.2.1.memory = s.memory ∧ rd.2.1.clocks = s.clocks ∧ rd.2.1.nextAddr = s.nextAddr := by
  unfold MemTraceReadBuffered_copy at h
  simp only [] at h
  split_ifs at h <;> simp only [Option.some.injEq] at h <;> subst h <;> exact ⟨rfl, rfl, rfl⟩

/-- The buffered reader changes neither the shadow memory, nor the clock,
nor the predicted address. -/
theorem MemTraceReadBuffered_data (s : MemTraceState) (size : Nat)
    (rd : Bool × MemTraceState × List Nat) (h : MemTraceReadBuffered s size = some rd) :
    rd.2.1.memory = s.memory ∧ rd.2.1.clocks = s.clocks ∧ rd.2.1.nextAddr = s.nextAddr := by
  unfold MemTraceReadBuffered at h
  simp only [] at h
  split_ifs at h
  · simp only [Option.some.injEq] at h; subst h; exact ⟨rfl, rfl, rfl⟩
  · have := MemTraceReadBuffered_copy_data _ _ _ h
    exact this
  · exact MemTraceReadBuffered_copy_data _ _ _ h

/-- The ways one iteration can go, whatever the state of the buffer. -/
theorem body_cases (F : MemPacketFmt) (v : NextVars) :
    MemTrace_NextBody F v = NextStep.abort v ∨
    (∃ s1, s1.memory = v.state.memory ∧ MemTrace_NextBody F v =
      if v.op.length ≠ 0 then NextStep.leave { v with state := s1 }
      else NextStep.ret MEMTR_EOF { v with state := s1 }) ∨
    (∃ s1 p, s1.memory = v.state.memory ∧ F.MemPacket_IsAligned p = false ∧
      (MemTrace_NextBody F v =
          NextStep.abort { v with state := s1, packets := v.packets ++ [p] } ∨
        MemTrace_NextBody F v =
          NextStep.ret MEMTR_EOF { v with state := s1, packets := v.packets ++ [p] } ∨
        MemTrace_NextBody F v =
          NextStep.ret MEMTR_ERR_SYNC { v with state := s1, packets := v.packets ++ [p] })) ∨
    (∃ s1 p, s1.memory = v.state.memory ∧ F.MemPacket_IsAligned p = true ∧
      F.MemPacket_IsChecksumCorrect p = false ∧ MemTrace_NextBody F v =
        NextStep.ret MEMTR_ERR_CHECKSUM { v with state := s1, packets := v.packets ++ [p] }) ∨
    (∃ s1 p, s1.memory = v.state.memory ∧ isValid F p = true ∧ MemTrace_NextBody F v =
        MemTrace_NextSwitch F { v with state := s1, packets := v.packets ++ [p] } p) := by
  unfold MemTrace_NextBody
  cases hrd : MemTraceReadBuffered v.state F.sizeofPacket with
  | none => exact Or.inl rfl
  | some rd =>
    have hd := (MemTraceReadBuffered_data _ _ _ hrd).1
    simp only []
    by_cases h1 : rd.1 = false
    · exact Or.inr (Or.inl ⟨rd.2.1, hd, by rw [if_pos h1]⟩)
    · rw [if_neg h1]
      by_cases h2 : F.MemPacket_IsAligned (F.MemPacket_FromBytes rd.2.2) = false
      · rw [if_pos h2]
        refine Or.inr (Or.inr (Or.inl ?_))
        cases hrd1 : MemTraceReadBuffered rd.2.1 1 with
        | none => exact ⟨rd.2.1, _, hd, h2, Or.inl rfl⟩
        | some rd1 =>
          have hd1 := (MemTraceReadBuffered_data _ _ _ hrd1).1
          simp only []
          by_cases h3 : rd1.1 = false
          · rw [if_pos h3]
            exact ⟨rd1.2.1, _, by rw [hd1, hd], h2, Or.inr (Or.inl rfl)⟩
          · rw [if_neg h3]
            exact ⟨rd1.2.1, _, by rw [hd1, hd], h2, Or.inr (Or.inr rfl)⟩
      · rw [if_neg h2]
        simp only [Bool.not_eq_false] at h2
        by_cases h3 : F.MemPacket_IsChecksumCorrect (F.MemPacket_FromBytes rd.2.2) = false
        · rw [if_pos h3]
          exact Or.inr (Or.inr (Or.inr (Or.inl ⟨rd.2.1, _, hd, h2, h3, rfl⟩)))
        · rw [if_neg h3]
          simp only [Bool.not_eq_false] at h3
          exact Or.inr (Or.inr (Or.inr (Or.inr ⟨rd.2.1, _, hd, by simp [isValid, h2, h3], rfl⟩)))

/-! ## The READ and WRITE cases of the switch, one equation per path -/

theorem MemTrace_NextData_mismatch (F : MemPacketFmt) (v : NextVars) (s : MemTraceState)
    (p : MemPacket) (other mine : MemOpType) (h : v.op.type = other) :
    MemTrace_NextData F v s p other mine =
      NextStep.ret MEMTR_ERR_BADBURST { v with state := s } := by
  unfold MemTrace_NextData
  rw [if_pos h]

theorem MemTrace_NextData_wide (F : MemPacketFmt) (v : NextVars) (s : MemTraceState)
    (p : MemPacket) (other mine : MemOpType) (h : v.op.type ≠ other)
    (hw : isWordWide F p = true) :
    MemTrace_NextData F v s p other mine =
      NextStep.again
        { v with
          state :=
            { s with
              nextAddr := (s.nextAddr + 1) % 2 ^ 32
              memory :=
                store
                  (store s.memory
                    ((((if v.op.length = 0 then (s.nextAddr * 2) % 2 ^ 32 else v.op.addr) +
                      v.op.length) % 2 ^ 32) % MEM_SIZE_BYTES)
                    (F.MemPacket_RW_Word p % 2 ^ 16 % 256))
                  ((((if v.op.length = 0 then (s.nextAddr * 2) % 2 ^ 32 else v.op.addr) +
                    (v.op.length + 1) % 2 ^ 32) % 2 ^ 32) % MEM_SIZE_BYTES)
                  (F.MemPacket_RW_Word p % 2 ^ 16 / 256) }
          op :=
            { type := mine
              addr := if v.op.length = 0 then (s.nextAddr * 2) % 2 ^ 32 else v.op.addr
              length := ((v.op.length + 1) % 2 ^ 32 + 1) % 2 ^ 32 } } := by
  unfold MemTrace_NextData
  rw [if_neg h]
  simp only [isWordWide] at hw
  unfold MemTraceData
  simp only [hw]
  by_cases hl : v.op.length = 0 <;> simp [hl]

theorem MemTrace_NextData_byte_later (F : MemPacketFmt) (v : NextVars) (s : MemTraceState)
    (p : MemPacket) (other mine : MemOpType) (h : v.op.type ≠ other)
    (hw : isWordWide F p = false) (hl : v.op.length ≠ 0) :
    MemTrace_NextData F v s p other mine =
      NextStep.leave
        { v with
          state := { s with nextAddr := (s.nextAddr + 1) % 2 ^ 32 }
          op := { v.op with type := mine }
          result := MEMTR_ERR_BADBURST } := by
  unfold MemTrace_NextData
  rw [if_neg h]
  simp only [isWordWide] at hw
  unfold MemTraceData
  simp [hw, hl]

theorem MemTrace_NextData_byte_first (F : MemPacketFmt) (v : NextVars) (s : MemTraceState)
    (p : MemPacket) (other mine : MemOpType) (h : v.op.type ≠ other)
    (hw : isWordWide F p = false) (hl : v.op.length = 0) :
    MemTrace_NextData F v s p other mine =
      NextStep.leave
        { v with
          state :=
            { s with
              nextAddr := (s.nextAddr + 1) % 2 ^ 32
              memory :=
                if F.MemPacket_RW_LowerByte p = true then
                  store s.memory ((s.nextAddr * 2) % 2 ^ 32) (F.MemPacket_RW_Word p % 2 ^ 16 % 256)
                else
                  store s.memory (((s.nextAddr * 2) % 2 ^ 32 + 1) % 2 ^ 32)
                    (F.MemPacket_RW_Word p % 2 ^ 16 / 256) }
          op :=
            { type := mine
              addr :=
                if F.MemPacket_RW_LowerByte p = true then (s.nextAddr * 2) % 2 ^ 32
                else ((s.nextAddr * 2) % 2 ^ 32 + 1) % 2 ^ 32
              length := 1 } } := by
  unfold MemTrace_NextData
  rw [if_neg h]
  simp only [isWordWide] at hw
  unfold MemTraceData
  cases hub : F.MemPacket_RW_UpperByte p <;> cases hlb : F.MemPacket_RW_LowerByte p <;>
    simp [hub, hlb] at hw <;> simp [hl]

theorem opType_cases (t : MemOpType) (h : t ≠ MEMOP_WRITE) : t = MEMOP_INVALID ∨ t = MEMOP_READ := by
  cases t <;> simp at h ⊢

theorem opType_cases_w (t : MemOpType) (h : t ≠ MEMOP_READ) : t = MEMOP_INVALID ∨ t = MEMOP_WRITE := by
  cases t <;> simp at h ⊢

/-- When the READ/WRITE case lets the loop go on, the packet was a word
access merged into the burst. -/
theorem MemTrace_NextData_again (F : MemPacketFmt) (v : NextVars) (s : MemTraceState)
    (p : MemPacket) (other mine : MemOpType) (v1 : NextVars)
    (h : MemTrace_NextData F v s p other mine = NextStep.again v1) :
    v1.packets = v.packets ∧ v1.result = v.result ∧ isWordWide F p = true ∧
      v.op.type ≠ other ∧ v1.op.type = mine ∧
      v1.op.length = ((v.op.length + 1) % 2 ^ 32 + 1) % 2 ^ 32 := by
  by_cases hm : v.op.type = other
  · rw [MemTrace_NextData_mismatch F v s p other mine hm] at h
    exact absurd h (by simp)
  · cases hw : isWordWide F p
    · by_cases hl : v.op.length = 0
      · rw [MemTrace_NextData_byte_first F v s p other mine hm hw hl] at h
        exact absurd h (by simp)
      · rw [MemTrace_NextData_byte_later F v s p other mine hm hw hl] at h
        exact absurd h (by simp)
    · rw [MemTrace_NextData_wide F v s p other mine hm hw] at h
      simp only [NextStep.again.injEq] at h
      subst h
      exact ⟨rfl, rfl, rfl, hm, rfl, rfl⟩

/-- When the switch lets the loop go on: either the packet is no READ/WRITE
packet and `op` and the memory are as before, or it is a word access of the
type of the burst and `op.length` grew by two. -/
theorem MemTrace_NextSwitch_again (F : MemPacketFmt) (v : NextVars) (p : MemPacket)
    (v1 : NextVars) (h : MemTrace_NextSwitch F v p = NextStep.again v1) :
    v1.packets = v.packets ∧ v1.result = v.result ∧
    ((isRW F p = false ∧ v1.op = v.op ∧ v1.state.memory = v.state.memory) ∨
     (isRW F p = true ∧ isWordWide F p = true ∧
      (v.op.type = MEMOP_INVALID ∨ v.op.type = opTypeOf (F.MemPacket_GetType p)) ∧
      v1.op.type = opTypeOf (F.MemPacket_GetType p) ∧
      v1.op.length = ((v.op.length + 1) % 2 ^ 32 + 1) % 2 ^ 32)) := by
  unfold MemTrace_NextSwitch at h
  cases hty : F.MemPacket_GetType p <;> simp only [hty] at h
  · split_ifs at h
    simp only [NextStep.again.injEq] at h
    subst h
    exact ⟨rfl, rfl, Or.inl ⟨by simp [isRW, hty], rfl, rfl⟩⟩
  · obtain ⟨h1, h2, h3, h4, h5, h6⟩ := MemTrace_NextData_again _ _ _ _ _ _ _ h
    exact ⟨h1, h2, Or.inr ⟨by simp [isRW, hty], h3, opType_cases _ h4, h5, h6⟩⟩
  · obtain ⟨h1, h2, h3, h4, h5, h6⟩ := MemTrace_NextData_again _ _ _ _ _ _ _ h
    exact ⟨h1, h2, Or.inr ⟨by simp [isRW, hty], h3, opType_cases_w _ h4, h5, h6⟩⟩
  · simp only [NextStep.again.injEq] at h
    subst h
    exact ⟨rfl, rfl, Or.inl ⟨by simp [isRW, hty], rfl, rfl⟩⟩

/-- When an iteration lets the loop go on, it read a packet that passed
both tests and went through the switch. -/
theorem body_again (F : MemPacketFmt) (v v1 : NextVars)
    (h : MemTrace_NextBody F v = NextStep.again v1) :
    ∃ s1 p, s1.memory = v.state.memory ∧ isValid F p = true ∧
      MemTrace_NextSwitch F { v with state := s1, packets := v.packets ++ [p] } p =
        NextStep.again v1 := by
  rcases body_cases F v with h1 | ⟨s1, _, h1⟩ | ⟨s1, p, _, _, h1 | h1 | h1⟩ | ⟨s1, p, _, _, _, h1⟩ |
    ⟨s1, p, hm, hv, h1⟩
  · rw [h1] at h; exact absurd h (by simp)
  · rw [h1] at h; split_ifs at h
  · rw [h1] at h; exact absurd h (by simp)
  · rw [h1] at h; exact absurd h (by simp)
  · rw [h1] at h; exact absurd h (by simp)
  · rw [h1] at h; exact absurd h (by simp)
  · exact ⟨s1, p, hm, hv, by rw [← h1]; exact h⟩

theorem opTypeOf_ne_invalid (F : MemPacketFmt) (p : MemPacket) (h : isRW F p = true) :
    opTypeOf (F.MemPacket_GetType p) ≠ MEMOP_INVALID := by
  unfold isRW at h
  cases hty : F.MemPacket_GetType p <;> simp [hty, opTypeOf] at h ⊢

theorem LoopInv_init (F : MemPacketFmt) (s0 : MemTraceState) :
    LoopInv F s0 (MemTrace_NextInit s0) where
  valid := by simp [MemTrace_NextInit]
  result := rfl
  types := by simp [MemTrace_NextInit]
  wide := by simp [MemTrace_NextInit]
  length := by simp [MemTrace_NextInit]
  fresh := fun _ => ⟨rfl, rfl⟩

theorem LoopInv_step (F : MemPacketFmt) (s0 : MemTraceState) (v v1 : NextVars)
    (hi : LoopInv F s0 v) (h : MemTrace_NextBody F v = NextStep.again v1) :
    LoopInv F s0 v1 := by
  obtain ⟨s1, p, hm, hv, hsw⟩ := body_again F v v1 h
  obtain ⟨hp, hr, hcase⟩ := MemTrace_NextSwitch_again F _ p v1 hsw
  simp only [] at hp hr hcase
  rcases hcase with ⟨hrw, hop, hmem⟩ | ⟨hrw, hww, hty, hty1, hlen⟩
  · refine ⟨?_, ?_, ?_, ?_, ?_, ?_⟩
    · intro q hq
      rw [hp, List.mem_append, List.mem_singleton] at hq
      rcases hq with hq | rfl
      · exact hi.valid q hq
      · exact hv
    · rw [hr]; exact hi.result
    · intro q hq hqrw
      rw [hp, List.mem_append, List.mem_singleton] at hq
      rcases hq with hq | rfl
      · rw [hop]; exact hi.types q hq hqrw
      · rw [hrw] at hqrw; exact absurd hqrw (by simp)
    · intro q hq hqrw
      rw [hp, List.mem_append, List.mem_singleton] at hq
      rcases hq with hq | rfl
      · exact hi.wide q hq hqrw
      · rw [hrw] at hqrw; exact absurd hqrw (by simp)
    · rw [hop, hp, List.filter_append, hi.length]
      simp [List.filter_cons, hrw]
    · intro hall
      have hall0 : ∀ q ∈ v.packets, isRW F q = false := fun q hq =>
        hall q (by rw [hp]; exact List.mem_append_left _ hq)
      rw [hop, hmem, hm]
      exact hi.fresh hall0
  · refine ⟨?_, ?_, ?_, ?_, ?_, ?_⟩
    · intro q hq
      rw [hp, List.mem_append, List.mem_singleton] at hq
      rcases hq with hq | rfl
      · exact hi.valid q hq
      · exact hv
    · rw [hr]; exact hi.result
    · intro q hq hqrw
      rw [hp, List.mem_append, List.mem_singleton] at hq
      rcases hq with hq | rfl
      · have h1 := hi.types q hq hqrw
        rcases hty with h2 | h2
        · rw [h2] at h1
          exact absurd h1.symm (opTypeOf_ne_invalid F q hqrw)
        · rw [hty1, ← h2, h1]
      · exact hty1
    · intro q hq hqrw
      rw [hp, List.mem_append, List.mem_singleton] at hq
      rcases hq with hq | rfl
      · exact hi.wide q hq hqrw
      · exact hww
    · rw [hlen, hp, List.filter_append, hi.length]
      simp only [List.filter_cons, hrw, if_true, List.filter_nil, List.length_append,
        List.length_singleton]
      omega
    · intro hall
      have := hall p (by rw [hp]; simp)
      rw [hrw] at this
      exact absurd this (by simp)

/-- The loop ends where some iteration ends: for a property `Inv` that
iterations keep, the loop either is still running with `Inv`, or it ended
as the iteration from some variables with `Inv` ended. -/
theorem loop_rule (F : MemPacketFmt) (Inv : NextVars → Prop)
    (hstep : ∀ v v1, Inv v → MemTrace_NextBody F v = NextStep.again v1 → Inv v1) :
    ∀ n v, Inv v →
      (∃ v1, Inv v1 ∧ MemTrace_NextLoop F n v = NextStep.again v1) ∨
      (∃ v1, Inv v1 ∧ MemTrace_NextLoop F n v = MemTrace_NextBody F v1 ∧
        ∀ v2, MemTrace_NextBody F v1 ≠ NextStep.again v2) := by
  intro n
  induction n with
  | zero => intro v hv; exact Or.inl ⟨v, hv, rfl⟩
  | succ n ih =>
    intro v hv
    cases hb : MemTrace_NextBody F v with
    | again v1 =>
      have : MemTrace_NextLoop F (n + 1) v = MemTrace_NextLoop F n v1 := by
        simp only [MemTrace_NextLoop, hb]
      rw [this]
      exact ih v1 (hstep v v1 hv hb)
    | leave v1 =>
      refine Or.inr ⟨v, hv, ?_, fun v2 => by rw [hb]; simp⟩
      simp only [MemTrace_NextLoop, hb]
    | ret r v1 =>
      refine Or.inr ⟨v, hv, ?_, fun v2 => by rw [hb]; simp⟩
      simp only [MemTrace_NextLoop, hb]
    | abort v1 =>
      refine Or.inr ⟨v, hv, ?_, fun v2 => by rw [hb]; simp⟩
      simp only [MemTrace_NextLoop, hb]

/-- The READ/WRITE case, when it ends the loop. -/
theorem MemTrace_NextData_exit (F : MemPacketFmt) (v0 v : NextVars) (s : MemTraceState)
    (p : MemPacket) (other mine : MemOpType) (hmine : mine = opTypeOf (F.MemPacket_GetType p))
    (hother : ∀ t : MemOpType, t ≠ other → t = MEMOP_INVALID ∨ t = mine)
    (hom : other ≠ mine) (hoi : other ≠ MEMOP_INVALID)
    (hv : v = { v0 with state := v.state, packets := v0.packets ++ [p] })
    (hmem : s.memory = v0.state.memory) (hval : isValid F p = true) (hrw : isRW F p = true)
    (hne : ∀ v2, MemTrace_NextData F v s p other mine ≠ NextStep.again v2) :
    ExitCase F v0 (MemTrace_NextData F v s p other mine) := by
  have hop : v.op = v0.op := by rw [hv]
  have hres : v.result = v0.result := by rw [hv]
  have hpk : v.packets = v0.packets ++ [p] := by rw [hv]
  by_cases hm : v.op.type = other
  · rw [MemTrace_NextData_mismatch F v s p other mine hm]
    have := ExitCase.mismatch (v := v0) s p hmem hval hrw (by rw [← hop, hm]; exact hoi)
      (by rw [← hop, hm, ← hmine]; exact hom)
    convert this using 2
    rw [hv]
  · cases hw : isWordWide F p
    · by_cases hl : v.op.length = 0
      · rw [MemTrace_NextData_byte_first F v s p other mine hm hw hl]
        have := ExitCase.byteFirst (v := v0)
          { s with
            nextAddr := (s.nextAddr + 1) % 2 ^ 32
            memory :=
              if F.MemPacket_RW_LowerByte p = true then
                store s.memory ((s.nextAddr * 2) % 2 ^ 32) (F.MemPacket_RW_Word p % 2 ^ 16 % 256)
              else
                store s.memory (((s.nextAddr * 2) % 2 ^ 32 + 1) % 2 ^ 32)
                  (F.MemPacket_RW_Word p % 2 ^ 16 / 256) }
          p
          (if F.MemPacket_RW_LowerByte p = true then (s.nextAddr * 2) % 2 ^ 32
            else ((s.nextAddr * 2) % 2 ^ 32 + 1) % 2 ^ 32)
          hval hrw hw (by rw [← hop]; exact hl)
          (by rw [← hop, ← hmine]; exact hother _ hm)
        rw [← hmine, ← hres, ← hpk] at this
        exact this
      · rw [MemTrace_NextData_byte_later F v s p other mine hm hw hl]
        have := ExitCase.byteLater (v := v0) { s with nextAddr := (s.nextAddr + 1) % 2 ^ 32 } p
          hmem hval hrw hw (by rw [← hop]; exact hl)
          (by rw [← hop, ← hmine]; exact hother _ hm)
        rw [← hmine, ← hop, ← hpk] at this
        exact this
    · exact absurd (MemTrace_NextData_wide F v s p other mine hm hw) (hne _)

/-- Every way an iteration ends the loop is one of the cases of `ExitCase`. -/
theorem body_exit (F : MemPacketFmt) (v : NextVars)
    (hne : ∀ v2, MemTrace_NextBody F v ≠ NextStep.again v2) :
    ExitCase F v (MemTrace_NextBody F v) := by
  rcases body_cases F v with h1 | ⟨s1, hm, h1⟩ | ⟨s1, p, hm, hal, h1⟩ | ⟨s1, p, hm, hal, hck, h1⟩ |
    ⟨s1, p, hm, hv, h1⟩
  · rw [h1]; exact ExitCase.assertFirst
  · rw [h1]
    by_cases hl : v.op.length = 0
    · rw [if_neg (by simp [hl])]; exact ExitCase.eof s1 hm hl
    · rw [if_pos hl]; exact ExitCase.flush s1 hm hl
  · exact ExitCase.misaligned s1 p _ hm hal h1
  · rw [h1]; exact ExitCase.checksum s1 p hm hal hck
  · rw [h1] at hne ⊢
    unfold MemTrace_NextSwitch at hne ⊢
    cases hty : F.MemPacket_GetType p <;> simp only [hty] at hne ⊢
    · by_cases hl : v.op.length = 0
      · rw [if_neg (by simp [hl])] at hne
        exact absurd rfl (hne _)
      · rw [if_pos hl]
        exact ExitCase.addr (v := v) _ p hm hv hty hl
    · exact MemTrace_NextData_exit F v _ _ p _ _ (by rw [hty]; rfl)
        (fun t ht => by cases t <;> simp at ht ⊢) (by simp) (by simp) rfl hm hv
        (by simp [isRW, hty]) hne
    · exact MemTrace_NextData_exit F v _ _ p _ _ (by rw [hty]; rfl)
        (fun t ht => by cases t <;> simp at ht ⊢) (by simp) (by simp) rfl hm hv
        (by simp [isRW, hty]) hne
    · exact absurd rfl (hne _)

/-- How a call of `MemTrace_Next` ends: still running after the iterations
given to it, with the loop invariant; or as an iteration, started from
variables with the loop invariant, ended the loop. -/
theorem MemTrace_Next_cases (F : MemPacketFmt) (s : MemTraceState) (nextOp : Option MemOp) :
    (∃ v, LoopInv F s v ∧
      MemTrace_Next F s nextOp = MemTrace_NextEnd nextOp (NextStep.again v)) ∨
    (∃ v st, LoopInv F s v ∧ ExitCase F v st ∧
      MemTrace_Next F s nextOp = MemTrace_NextEnd nextOp st) := by
  rcases loop_rule F (LoopInv F s) (fun v v1 => LoopInv_step F s v v1) (unreadCount s + 1)
    (MemTrace_NextInit s) (LoopInv_init F s) with ⟨v, hv, h⟩ | ⟨v, hv, h, hne⟩
  · exact Or.inl ⟨v, hv, by unfold MemTrace_Next; rw [h]⟩
  · exact Or.inr ⟨v, _, hv, body_exit F v hne, by unfold MemTrace_Next; rw [h]⟩

/-! ## Reading off the result of a call -/

theorem MemTrace_NextEnd_packets (nextOp : Option MemOp) (st : NextStep) :
    (MemTrace_NextEnd nextOp st).packets = st.vars.packets := by
  cases st <;> rfl

theorem MemTrace_NextEnd_state (nextOp : Option MemOp) (st : NextStep) :
    (MemTrace_NextEnd nextOp st).state = st.vars.state := by
  cases st <;> rfl

theorem LoopInv.no_mix {F : MemPacketFmt} {s0 : MemTraceState} {v : NextVars}
    (hi : LoopInv F s0 v) {p q : MemPacket} (hp : p ∈ v.packets) (hq : q ∈ v.packets)
    (hpr : F.MemPacket_GetType p = MEMPKT_READ) (hqw : F.MemPacket_GetType q = MEMPKT_WRITE) :
    False := by
  have h1 := hi.types p hp (by simp [isRW, hpr])
  have h2 := hi.types q hq (by simp [isRW, hqw])
  rw [hpr] at h1
  rw [hqw, h1] at h2
  exact absurd h2 (by simp [opTypeOf])

theorem LoopInv.types_of_compatible {F : MemPacketFmt} {s0 : MemTraceState} {v : NextVars}
    (hi : LoopInv F s0 v) {t : MemOpType}
    (hc : v.op.type = MEMOP_INVALID ∨ v.op.type = t) {q : MemPacket} (hq : q ∈ v.packets)
    (hrw : isRW F q = true) : opTypeOf (F.MemPacket_GetType q) = t := by
  have h1 := hi.types q hq hrw
  rcases hc with h2 | h2
  · rw [h2] at h1
    exact absurd h1.symm (opTypeOf_ne_invalid F q hrw)
  · rw [← h2, h1]

theorem isValid_false_of_misaligned {F : MemPacketFmt} {p : MemPacket}
    (h : F.MemPacket_IsAligned p = false) : isValid F p = false := by
  simp [isValid, h]

theorem isValid_false_of_checksum {F : MemPacketFmt} {p : MemPacket}
    (h : F.MemPacket_IsChecksumCorrect p = false) : isValid F p = false := by
  simp [isValid, h]

theorem isRW_false_of_addr {F : MemPacketFmt} {p : MemPacket}
    (h : F.MemPacket_GetType p = MEMPKT_ADDR) : isRW F p = false := by
  simp [isRW, h]

/-! ## Runs of packets at the head of the unread stream -/

theorem take_packet (c rest : List Nat) (n : Nat) (h : c.length = n) :
    (c ++ rest).take n = c := by
  subst h; simp

theorem drop_packet (c rest : List Nat) (n : Nat) (h : c.length = n) :
    (c ++ rest).drop n = rest := by
  subst h; simp

/-- The iteration that reads a valid packet from the head of the stream goes
through the switch with the reader advanced by one packet. -/
theorem body_valid (F : MemPacketFmt) (v : NextVars) (c rest : List Nat) (hF : FmtOK F)
    (hb : BufOK v.state) (hu : unread v.state = c ++ rest) (hlen : c.length = F.sizeofPacket)
    (hval : isValid F (F.MemPacket_FromBytes c) = true) :
    ∃ s1, BufOK s1 ∧ unread s1 = rest ∧
      s1.fileOffset = (v.state.fileOffset + F.sizeofPacket) % 2 ^ 64 ∧
      s1.clocks = v.state.clocks ∧ s1.memory = v.state.memory ∧
      s1.nextAddr = v.state.nextAddr ∧
      MemTrace_NextBody F v =
        MemTrace_NextSwitch F
          { v with state := s1, packets := v.packets ++ [F.MemPacket_FromBytes c] }
          (F.MemPacket_FromBytes c) := by
  have htake := take_packet c rest _ hlen
  have hdrop := drop_packet c rest _ hlen
  simp only [isValid, Bool.and_eq_true] at hval
  obtain ⟨s1, ⟨a1, a2, a3, a4, a5, a6⟩, hbody⟩ := body_aligned F v hb hF
    (by rw [hu, List.length_append]; omega) (by rw [hu, htake]; exact hval.1)
  rw [hu, htake] at hbody
  rw [hu, hdrop] at a2
  refine ⟨s1, a1, a2, a3, a4, a5, a6, ?_⟩
  rw [hbody, if_neg (by simp [hval.2])]

theorem MemTrace_NextSwitch_addr (F : MemPacketFmt) (v : NextVars) (p : MemPacket)
    (hty : F.MemPacket_GetType p = MEMPKT_ADDR) :
    MemTrace_NextSwitch F v p =
      if v.op.length ≠ 0 then
        NextStep.leave
          { v with
            state :=
              { v.state with
                clocks := (v.state.clocks + F.MemPacket_GetDuration p) % 2 ^ 64
                nextAddr := F.MemPacket_GetPayload p % 2 ^ 32 } }
      else
        NextStep.again
          { v with
            state :=
              { v.state with
                clocks := (v.state.clocks + F.MemPacket_GetDuration p) % 2 ^ 64
                nextAddr := F.MemPacket_GetPayload p % 2 ^ 32 } } := by
  unfold MemTrace_NextSwitch
  simp only [hty]

/-- The switch on a valid READ or WRITE packet of type `t` when the burst has
type `t` or none yet: the call of `MemTraceData`. -/
theorem MemTrace_NextSwitch_data (F : MemPacketFmt) (v : NextVars) (p : MemPacket)
    (t : MemOpType) (hrw : isRW F p = true) (ht : opTypeOf (F.MemPacket_GetType p) = t)
    (hc : v.op.type = MEMOP_INVALID ∨ v.op.type = t) :
    ∃ other, v.op.type ≠ other ∧ MemTrace_NextSwitch F v p =
      MemTrace_NextData F v
        { v.state with clocks := (v.state.clocks + F.MemPacket_GetDuration p) % 2 ^ 64 }
        p other t := by
  unfold MemTrace_NextSwitch
  unfold isRW at hrw
  cases hty : F.MemPacket_GetType p <;> simp [hty, opTypeOf] at hrw ht ⊢
  · subst ht
    exact ⟨MEMOP_WRITE, by rcases hc with h | h <;> rw [h] <;> simp, rfl⟩
  · subst ht
    exact ⟨MEMOP_READ, by rcases hc with h | h <;> rw [h] <;> simp, rfl⟩

theorem isDataPacket_spec {F : MemPacketFmt} {t : MemOpType} {c : List Nat}
    (h : isDataPacket F t c = true) :
    c.length = F.sizeofPacket ∧ isValid F (F.MemPacket_FromBytes c) = true ∧
      isRW F (F.MemPacket_FromBytes c) = true ∧
      opTypeOf (F.MemPacket_GetType (F.MemPacket_FromBytes c)) = t := by
  simpa [isDataPacket, and_assoc] using h

theorem isWordPacket_spec {F : MemPacketFmt} {t : MemOpType} {c : List Nat}
    (h : isWordPacket F t c = true) :
    isDataPacket F t c = true ∧ isWordWide F (F.MemPacket_FromBytes c) = true := by
  simpa [isWordPacket] using h

theorem isBytePacket_spec {F : MemPacketFmt} {t : MemOpType} {c : List Nat}
    (h : isBytePacket F t c = true) :
    isDataPacket F t c = true ∧ isWordWide F (F.MemPacket_FromBytes c) = false := by
  simpa [isBytePacket] using h

theorem isAddrPacket_spec {F : MemPacketFmt} {c : List Nat} (h : isAddrPacket F c = true) :
    c.length = F.sizeofPacket ∧ isValid F (F.MemPacket_FromBytes c) = true ∧
      F.MemPacket_GetType (F.MemPacket_FromBytes c) = MEMPKT_ADDR := by
  simpa [isAddrPacket, and_assoc] using h

/-- One ADDRESS packet at the head of the stream. -/
theorem step_addr (F : MemPacketFmt) (v : NextVars) (c rest : List Nat) (hF : FmtOK F)
    (hb : BufOK v.state) (hu : unread v.state = c ++ rest) (hc : isAddrPacket F c = true) :
    ∃ s1, BufOK s1 ∧ unread s1 = rest ∧
      s1.fileOffset = (v.state.fileOffset + F.sizeofPacket) % 2 ^ 64 ∧
      s1.clocks = (v.state.clocks + F.MemPacket_GetDuration (F.MemPacket_FromBytes c)) % 2 ^ 64 ∧
      s1.memory = v.state.memory ∧
      s1.nextAddr = F.MemPacket_GetPayload (F.MemPacket_FromBytes c) % 2 ^ 32 ∧
      MemTrace_NextBody F v =
        if v.op.length ≠ 0 then
          NextStep.leave
            { v with state := s1, packets := v.packets ++ [F.MemPacket_FromBytes c] }
        else
          NextStep.again
            { v with state := s1, packets := v.packets ++ [F.MemPacket_FromBytes c] } := by
  obtain ⟨hlen, hval, hty⟩ := isAddrPacket_spec hc
  obtain ⟨s1, a1, a2, a3, a4, a5, a6, hbody⟩ := body_valid F v c rest hF hb hu hlen hval
  refine ⟨{ s1 with
      clocks := (s1.clocks + F.MemPacket_GetDuration (F.MemPacket_FromBytes c)) % 2 ^ 64
      nextAddr := F.MemPacket_GetPayload (F.MemPacket_FromBytes c) % 2 ^ 32 },
    a1, a2, a3, by rw [← a4], a5, rfl, ?_⟩
  rw [hbody, MemTrace_NextSwitch_addr _ _ _ hty]

/-- One word access at the head of the stream, merged into the burst. -/
theorem step_word (F : MemPacketFmt) (v : NextVars) (c rest : List Nat) (t : MemOpType)
    (hF : FmtOK F) (hb : BufOK v.state) (hu : unread v.state = c ++ rest)
    (hc : isWordPacket F t c = true)
    (hty : v.op.type = MEMOP_INVALID ∨ v.op.type = t) (hl : v.op.length + 2 < 2 ^ 32) :
    ∃ s1, BufOK s1 ∧ unread s1 = rest ∧
      s1.fileOffset = (v.state.fileOffset + F.sizeofPacket) % 2 ^ 64 ∧
      s1.clocks = (v.state.clocks + F.MemPacket_GetDuration (F.MemPacket_FromBytes c)) % 2 ^ 64 ∧
      s1.memory = storeWords v.state.memory
        (if v.op.length = 0 then (v.state.nextAddr * 2) % 2 ^ 32 else v.op.addr)
        v.op.length [wordOf F c] ∧
      s1.nextAddr = (v.state.nextAddr + 1) % 2 ^ 32 ∧
      MemTrace_NextBody F v =
        NextStep.again
          { state := s1
            op :=
              { type := t
                addr := if v.op.length = 0 then (v.state.nextAddr * 2) % 2 ^ 32 else v.op.addr
                length := v.op.length + 2 }
            result := v.result
            packets := v.packets ++ [F.MemPacket_FromBytes c] } := by
  obtain ⟨hd, hw⟩ := isWordPacket_spec hc
  obtain ⟨hlen, hval, hrw, ht⟩ := isDataPacket_spec hd
  obtain ⟨s1, a1, a2, a3, a4, a5, a6, hbody⟩ := body_valid F v c rest hF hb hu hlen hval
  obtain ⟨other, hne, hsw⟩ := MemTrace_NextSwitch_data F
    { v with state := s1, packets := v.packets ++ [F.MemPacket_FromBytes c] }
    (F.MemPacket_FromBytes c) t hrw ht hty
  have e1 : ((v.op.length + 1) % 2 ^ 32 + 1) % 2 ^ 32 = v.op.length + 2 := by omega
  have e2 : ∀ a : Nat, ((a + v.op.length) % 2 ^ 32) % MEM_SIZE_BYTES =
      (a + v.op.length) % MEM_SIZE_BYTES := by
    intro a; simp only [MEM_SIZE_BYTES]; omega
  have e3 : ∀ a : Nat, ((a + (v.op.length + 1) % 2 ^ 32) % 2 ^ 32) % MEM_SIZE_BYTES =
      (a + v.op.length + 1) % MEM_SIZE_BYTES := by
    intro a; simp only [MEM_SIZE_BYTES]; omega
  refine ⟨{ s1 with
      clocks := (s1.clocks + F.MemPacket_GetDuration (F.MemPacket_FromBytes c)) % 2 ^ 64
      nextAddr := (s1.nextAddr + 1) % 2 ^ 32
      memory := storeWords s1.memory
        (if v.op.length = 0 then (s1.nextAddr * 2) % 2 ^ 32 else v.op.addr)
        v.op.length [wordOf F c] },
    a1, a2, a3, by simp only [a4], by simp only [a5, a6], by simp only [a6], ?_⟩
  rw [hbody, hsw, MemTrace_NextData_wide _ _ _ _ _ _ hne hw]
  simp only [e1, e2, e3, storeWords, wordOf, a6]

theorem MemTrace_NextLoop_again (F : MemPacketFmt) (n : Nat) (v v1 : NextVars)
    (h : MemTrace_NextBody F v = NextStep.again v1) :
    MemTrace_NextLoop F (n + 1) v = MemTrace_NextLoop F n v1 := by
  simp only [MemTrace_NextLoop, h]

theorem MemTrace_NextLoop_leave (F : MemPacketFmt) (n : Nat) (v v1 : NextVars)
    (h : MemTrace_NextBody F v = NextStep.leave v1) :
    MemTrace_NextLoop F (n + 1) v = NextStep.leave v1 := by
  simp only [MemTrace_NextLoop, h]

theorem MemTrace_NextLoop_ret (F : MemPacketFmt) (n : Nat) (v v1 : NextVars) (r : MemTraceResult)
    (h : MemTrace_NextBody F v = NextStep.ret r v1) :
    MemTrace_NextLoop F (n + 1) v = NextStep.ret r v1 := by
  simp only [MemTrace_NextLoop, h]

/-- A run of ADDRESS packets while no burst is accumulated: the loop reads
them all and goes on. -/
theorem run_addrs (F : MemPacketFmt) (hF : FmtOK F) :
    ∀ (pre : List (List Nat)) (v : NextVars) (n : Nat) (rest : List Nat),
      BufOK v.state → unread v.state = pre.flatten ++ rest →
      (∀ c ∈ pre, isAddrPacket F c = true) → v.op.length = 0 →
      ∃ s1, BufOK s1 ∧ unread s1 = rest ∧
        s1.memory = v.state.memory ∧
        s1.nextAddr = addrAfter F v.state.nextAddr pre ∧
        MemTrace_NextLoop F (pre.length + n) v =
          MemTrace_NextLoop F n
            { v with state := s1, packets := v.packets ++ pre.map F.MemPacket_FromBytes } := by
  intro pre
  induction pre with
  | nil =>
    intro v n rest hb hu _ _
    exact ⟨v.state, hb, by simpa using hu, rfl, rfl, by simp⟩
  | cons c pre ih =>
    intro v n rest hb hu hall hl
    have hc := hall c (List.mem_cons_self _ _)
    rw [List.flatten_cons, List.append_assoc] at hu
    obtain ⟨s1, a1, a2, _, _, a5, a6, hbody⟩ := step_addr F v c _ hF hb hu hc
    rw [if_neg (by simp [hl])] at hbody
    obtain ⟨s2, b1, b2, b5, b6, hloop⟩ := ih
      { v with state := s1, packets := v.packets ++ [F.MemPacket_FromBytes c] } n rest a1 a2
      (fun c' hc' => hall c' (List.mem_cons_of_mem _ hc')) hl
    refine ⟨s2, b1, b2, by rw [b5, a5], ?_, ?_⟩
    · rw [b6]; simp only [a6, addrAfter, List.foldl_cons]
    · have : (c :: pre).length + n = (pre.length + n) + 1 := by simp only [List.length_cons]; omega
      rw [this, MemTrace_NextLoop_again F _ _ _ hbody, hloop]
      simp only [List.map_cons, List.append_assoc, List.singleton_append]

/-- A run of word accesses of type `t` while the burst has type `t` or no
type yet: the loop merges them all and goes on. -/
theorem run_words (F : MemPacketFmt) (hF : FmtOK F) (t : MemOpType) :
    ∀ (cs : List (List Nat)) (v : NextVars) (n : Nat) (rest : List Nat),
      BufOK v.state → unread v.state = cs.flatten ++ rest →
      (∀ c ∈ cs, isWordPacket F t c = true) →
      (v.op.type = MEMOP_INVALID ∨ v.op.type = t) → v.op.length + 2 * cs.length < 2 ^ 32 →
      cs ≠ [] →
      ∃ s1, BufOK s1 ∧ unread s1 = rest ∧
        s1.memory = storeWords v.state.memory
          (if v.op.length = 0 then (v.state.nextAddr * 2) % 2 ^ 32 else v.op.addr)
          v.op.length (cs.map (wordOf F)) ∧
        s1.nextAddr = (v.state.nextAddr + cs.length) % 2 ^ 32 ∧
        MemTrace_NextLoop F (cs.length + n) v =
          MemTrace_NextLoop F n
            { state := s1
              op :=
                { type := t
                  addr := if v.op.length = 0 then (v.state.nextAddr * 2) % 2 ^ 32 else v.op.addr
                  length := v.op.length + 2 * cs.length }
              result := v.result
              packets := v.packets ++ cs.map F.MemPacket_FromBytes } := by
  intro cs
  induction cs with
  | nil => intro v n rest _ _ _ _ _ h; exact absurd rfl h
  | cons c cs ih =>
    intro v n rest hb hu hall hty hl _
    have hc := hall c (List.mem_cons_self _ _)
    rw [List.flatten_cons, List.append_assoc] at hu
    simp only [List.length_cons] at hl
    obtain ⟨s1, a1, a2, _, _, a5, a6, hbody⟩ := step_word F v c _ t hF hb hu hc hty (by omega)
    have hfuel : (c :: cs).length + n = (cs.length + n) + 1 := by
      simp only [List.length_cons]; omega
    rw [hfuel, MemTrace_NextLoop_again F _ _ _ hbody]
    by_cases hcs : cs = []
    · subst hcs
      refine ⟨s1, a1, by simpa using a2, by simpa using a5, by simpa using a6, ?_⟩
      simp
    · obtain ⟨s2, b1, b2, b5, b6, hloop⟩ := ih
        { state := s1
          op :=
            { type := t
              addr := if v.op.length = 0 then (v.state.nextAddr * 2) % 2 ^ 32 else v.op.addr
              length := v.op.length + 2 }
          result := v.result
          packets := v.packets ++ [F.MemPacket_FromBytes c] }
        n rest a1 a2
        (fun c' hc' => hall c' (List.mem_cons_of_mem _ hc')) (Or.inr rfl)
        (by simp only []; omega) hcs
      simp only [] at b5 b6 hloop
      have hne : v.op.length + 2 ≠ 0 := by omega
      rw [if_neg hne] at b5 hloop
      refine ⟨s2, b1, b2, ?_, ?_, ?_⟩
      · rw [b5, a5]; simp only [List.map_cons, storeWords]
      · rw [b6, a6]; simp only [List.length_cons]; omega
      · rw [hloop]
        simp only [List.map_cons, List.append_assoc, List.singleton_append, List.length_cons]
        congr 3
        omega

theorem flatten_length_of_forall (cs : List (List Nat)) (n : Nat)
    (h : ∀ c ∈ cs, c.length = n) : cs.flatten.length = n * cs.length := by
  induction cs with
  | nil => simp
  | cons c cs ih =>
    rw [List.flatten_cons, List.length_append, h c (List.mem_cons_self _ _),
      ih (fun c' hc' => h c' (List.mem_cons_of_mem _ hc')), List.length_cons, Nat.mul_succ]
    omega

theorem unreadCount_eq (s : MemTraceState) : unreadCount s = (unread s).length := by
  rw [unread_length]; rfl

/-- Bytes outside the range of the burst are not touched by `storeWords`. -/
theorem storeWords_frame (addr : Nat) :
    ∀ (ws : List Nat) (mem : Nat → Nat) (len x : Nat),
      (∀ j, j < 2 * ws.length → x ≠ (addr + len + j) % MEM_SIZE_BYTES) →
      storeWords mem addr len ws x = mem x := by
  intro ws
  induction ws with
  | nil => intro mem len x _; rfl
  | cons w ws ih =>
    intro mem len x h
    simp only [List.length_cons] at h
    rw [storeWords, ih _ _ _ (fun j hj => by
      have := h (j + 2) (by omega)
      rwa [show addr + len + (j + 2) = addr + (len + 2) + j by omega] at this)]
    have h0 := h 0 (by omega)
    have h1 := h 1 (by omega)
    simp only [store]
    rw [if_neg h1, if_neg (by simpa using h0)]

/-- After `storeWords`, the bytes of word `i` are at offsets `2 i` and
`2 i + 1` of the burst, when the burst is no longer than the memory. -/
theorem storeWords_get (addr : Nat) :
    ∀ (ws : List Nat) (mem : Nat → Nat) (len : Nat), 2 * ws.length ≤ MEM_SIZE_BYTES →
      ∀ (i : Nat) (h : i < ws.length),
        storeWords mem addr len ws ((addr + len + 2 * i) % MEM_SIZE_BYTES) = ws[i] % 256 ∧
        storeWords mem addr len ws ((addr + len + 2 * i + 1) % MEM_SIZE_BYTES) = ws[i] / 256 := by
  intro ws
  induction ws with
  | nil => intro mem len _ i h; exact absurd h (by simp)
  | cons w ws ih =>
    intro mem len hk i h
    simp only [List.length_cons] at hk h
    cases i with
    | zero =>
      simp only [Nat.mul_zero, Nat.add_zero, List.getElem_cons_zero, storeWords]
      constructor
      · rw [storeWords_frame addr ws _ _ _ (fun j hj => by
          simp only [MEM_SIZE_BYTES] at hk ⊢; omega)]
        have hne : (addr + len) % MEM_SIZE_BYTES ≠ (addr + len + 1) % MEM_SIZE_BYTES := by
          simp only [MEM_SIZE_BYTES]; omega
        simp [store, hne]
      · rw [storeWords_frame addr ws _ _ _ (fun j hj => by
          simp only [MEM_SIZE_BYTES] at hk ⊢; omega)]
        simp [store]
    | succ i =>
      have := ih (store (store mem ((addr + len) % MEM_SIZE_BYTES) (w % 256))
        ((addr + len + 1) % MEM_SIZE_BYTES) (w / 256)) (len + 2) (by omega) i (by omega)
      simp only [List.getElem_cons_succ, storeWords]
      rw [show addr + len + 2 * (i + 1) = addr + (len + 2) + 2 * i by omega]
      exact this

/-- The loop over a burst at the head of the stream: ADDRESS packets `pre`,
then word accesses `cs` of one type. -/
theorem burst_run (F : MemPacketFmt) (hF : FmtOK F) (t : MemOpType) (s : MemTraceState)
    (pre cs : List (List Nat)) (rest : List Nat) (n : Nat) (hb : BufOK s)
    (hpre : ∀ c ∈ pre, isAddrPacket F c = true) (hcs : ∀ c ∈ cs, isWordPacket F t c = true)
    (hne : cs ≠ []) (hk : 2 * cs.length < 2 ^ 32)
    (hu : unread s = pre.flatten ++ cs.flatten ++ rest) :
    ∃ s2, BufOK s2 ∧ unread s2 = rest ∧
      s2.memory = storeWords s.memory ((addrAfter F s.nextAddr pre * 2) % 2 ^ 32) 0
        (cs.map (wordOf F)) ∧
      s2.nextAddr = (addrAfter F s.nextAddr pre + cs.length) % 2 ^ 32 ∧
      MemTrace_NextLoop F (pre.length + (cs.length + n)) (MemTrace_NextInit s) =
        MemTrace_NextLoop F n
          { state := s2
            op :=
              { type := t
                addr := (addrAfter F s.nextAddr pre * 2) % 2 ^ 32
                length := 2 * cs.length }
            result := MEMTR_SUCCESS
            packets := pre.map F.MemPacket_FromBytes ++ cs.map F.MemPacket_FromBytes } := by
  rw [List.append_assoc] at hu
  obtain ⟨s1, a1, a2, a5, a6, hl1⟩ := run_addrs F hF pre (MemTrace_NextInit s) (cs.length + n) _
    hb hu hpre rfl
  obtain ⟨s2, b1, b2, b5, b6, hl2⟩ := run_words F hF t cs
    { MemTrace_NextInit s with state := s1, packets := [] ++ pre.map F.MemPacket_FromBytes }
    n rest a1 a2 hcs (Or.inl rfl) (by simp only [MemTrace_NextInit]; omega) hne
  simp only [MemTrace_NextInit, if_true, Nat.zero_add, List.nil_append] at b5 b6 hl2 a5 a6
  refine ⟨s2, b1, b2, by rw [b5, a5, a6], by rw [b6, a6], ?_⟩
  rw [hl1]
  simp only [MemTrace_NextInit, List.nil_append]
  rw [hl2, a6]

/-- A call with less than one packet left to read returns `MEMTR_EOF`
without reading a packet. -/
theorem MemTrace_Next_eof (F : MemPacketFmt) (hF : FmtOK F) (s : MemTraceState)
    (nextOp : Option MemOp) (hb : BufOK s) (h : (unread s).length < F.sizeofPacket) :
    ∃ s1, SameStream s s1 ∧
      MemTrace_Next F s nextOp = ⟨NextStatus.returned MEMTR_EOF, s1, nextOp, []⟩ := by
  obtain ⟨s1, hs1, hbody⟩ := body_eof F (MemTrace_NextInit s) hb hF h
  rw [if_neg (by simp [MemTrace_NextInit])] at hbody
  refine ⟨s1, hs1, ?_⟩
  unfold MemTrace_Next
  rw [MemTrace_NextLoop_ret F _ _ _ _ hbody]
  rfl

/-- The fuel of a call covers a burst at the head of the stream and one
more iteration. -/
theorem fuel_split (F : MemPacketFmt) (hF : FmtOK F) (t : MemOpType) (s : MemTraceState)
    (pre cs : List (List Nat)) (rest : List Nat)
    (hpre : ∀ c ∈ pre, isAddrPacket F c = true) (hcs : ∀ c ∈ cs, isWordPacket F t c = true)
    (hu : unread s = pre.flatten ++ cs.flatten ++ rest) :
    ∃ m, unreadCount s + 1 = pre.length + (cs.length + (m + 1)) := by
  have h1 := flatten_length_of_forall pre F.sizeofPacket
    (fun c hc => (isAddrPacket_spec (hpre c hc)).1)
  have h2 := flatten_length_of_forall cs F.sizeofPacket
    (fun c hc => (isDataPacket_spec (isWordPacket_spec (hcs c hc)).1).1)
  have h3 : unreadCount s = F.sizeofPacket * pre.length + F.sizeofPacket * cs.length +
      rest.length := by
    rw [unreadCount_eq, hu, List.length_append, List.length_append, h1, h2]
  have h4 : pre.length ≤ F.sizeofPacket * pre.length := Nat.le_mul_of_pos_left _ hF.1
  have h5 : cs.length ≤ F.sizeofPacket * cs.length := Nat.le_mul_of_pos_left _ hF.1
  exact ⟨unreadCount s - pre.length - cs.length, by omega⟩

/-- A burst of word accesses that an ADDRESS packet ends. -/
theorem burst_then_addr (F : MemPacketFmt) (hF : FmtOK F) (t : MemOpType) (s : MemTraceState)
    (nextOp : Option MemOp) (pre cs : List (List Nat)) (cE rest : List Nat) (hb : BufOK s)
    (hpre : ∀ c ∈ pre, isAddrPacket F c = true) (hcs : ∀ c ∈ cs, isWordPacket F t c = true)
    (hne : cs ≠ []) (hk : 2 * cs.length < 2 ^ 32) (hE : isAddrPacket F cE = true)
    (hu : unread s = pre.flatten ++ cs.flatten ++ (cE ++ rest)) :
    (MemTrace_Next F s nextOp).status = NextStatus.returned MEMTR_SUCCESS ∧
    (MemTrace_Next F s nextOp).nextOp = nextOp.map (fun _ =>
      { type := t, addr := (addrAfter F s.nextAddr pre * 2) % 2 ^ 32, length := 2 * cs.length }) ∧
    (MemTrace_Next F s nextOp).state.memory =
      storeWords s.memory ((addrAfter F s.nextAddr pre * 2) % 2 ^ 32) 0 (cs.map (wordOf F)) ∧
    BufOK (MemTrace_Next F s nextOp).state ∧ unread (MemTrace_Next F s nextOp).state = rest := by
  obtain ⟨m, hm⟩ := fuel_split F hF t s pre cs _ hpre hcs hu
  obtain ⟨s2, b1, b2, b5, _, hloop⟩ := burst_run F hF t s pre cs _ (m + 1) hb hpre hcs hne hk hu
  obtain ⟨s3, c1, c2, _, _, c5, _, hbody⟩ := step_addr F
    { state := s2
      op := { type := t, addr := (addrAfter F s.nextAddr pre * 2) % 2 ^ 32, length := 2 * cs.length }
      result := MEMTR_SUCCESS
      packets := pre.map F.MemPacket_FromBytes ++ cs.map F.MemPacket_FromBytes }
    cE rest hF b1 b2 hE
  have hlen : cs.length ≠ 0 := fun h => hne (List.length_eq_zero.mp h)
  rw [if_pos (by simp only []; omega)] at hbody
  unfold MemTrace_Next
  rw [hm, hloop, MemTrace_NextLoop_leave F _ _ _ hbody]
  exact ⟨rfl, rfl, by simp only [MemTrace_NextEnd]; rw [c5, b5], c1, c2⟩

/-- A burst of word accesses that the end of the stream ends. -/
theorem burst_then_eof (F : MemPacketFmt) (hF : FmtOK F) (t : MemOpType) (s : MemTraceState)
    (nextOp : Option MemOp) (pre cs : List (List Nat)) (rest : List Nat) (hb : BufOK s)
    (hpre : ∀ c ∈ pre, isAddrPacket F c = true) (hcs : ∀ c ∈ cs, isWordPacket F t c = true)
    (hne : cs ≠ []) (hk : 2 * cs.length < 2 ^ 32) (hrest : rest.length < F.sizeofPacket)
    (hu : unread s = pre.flatten ++ cs.flatten ++ rest) :
    (MemTrace_Next F s nextOp).status = NextStatus.returned MEMTR_SUCCESS ∧
    (MemTrace_Next F s nextOp).nextOp = nextOp.map (fun _ =>
      { type := t, addr := (addrAfter F s.nextAddr pre * 2) % 2 ^ 32, length := 2 * cs.length }) ∧
    (MemTrace_Next F s nextOp).state.memory =
      storeWords s.memory ((addrAfter F s.nextAddr pre * 2) % 2 ^ 32) 0 (cs.map (wordOf F)) ∧
    BufOK (MemTrace_Next F s nextOp).state ∧ unread (MemTrace_Next F s nextOp).state = rest := by
  obtain ⟨m, hm⟩ := fuel_split F hF t s pre cs _ hpre hcs hu
  obtain ⟨s2, b1, b2, b5, _, hloop⟩ := burst_run F hF t s pre cs _ (m + 1) hb hpre hcs hne hk hu
  obtain ⟨s3, ⟨c1, c2, _, _, c5, _⟩, hbody⟩ := body_eof F
    { state := s2
      op := { type := t, addr := (addrAfter F s.nextAddr pre * 2) % 2 ^ 32, length := 2 * cs.length }
      result := MEMTR_SUCCESS
      packets := pre.map F.MemPacket_FromBytes ++ cs.map F.MemPacket_FromBytes }
    b1 hF (by rw [b2]; exact hrest)
  have hlen : cs.length ≠ 0 := fun h => hne (List.length_eq_zero.mp h)
  rw [if_pos (by simp only []; omega)] at hbody
  unfold MemTrace_Next
  rw [hm, hloop, MemTrace_NextLoop_leave F _ _ _ hbody]
  simp only [] at c2 c5
  exact ⟨rfl, rfl, by simp only [MemTrace_NextEnd]; rw [c5, b5], c1, by
    simp only [MemTrace_NextEnd]; rw [c2, b2]⟩

/-- A byte access after ADDRESS packets `pre`, when the call starts: the call
returns it as an operation of one byte.  The reader fields after the call are
those of the embedding; in C they need the byte inside `memory`. -/
theorem burst_byte (F : MemPacketFmt) (hF : FmtOK F) (t : MemOpType) (s : MemTraceState)
    (nextOp : Option MemOp) (pre : List (List Nat)) (c rest : List Nat) (hb : BufOK s)
    (hpre : ∀ c ∈ pre, isAddrPacket F c = true) (hc : isBytePacket F t c = true)
    (hu : unread s = pre.flatten ++ (c ++ rest)) :
    (MemTrace_Next F s nextOp).status = NextStatus.returned MEMTR_SUCCESS ∧
    (∃ addr, (MemTrace_Next F s nextOp).nextOp =
      nextOp.map (fun _ => { type := t, addr := addr, length := 1 })) ∧
    BufOK (MemTrace_Next F s nextOp).state ∧ unread (MemTrace_Next F s nextOp).state = rest := by
  obtain ⟨hd, hw⟩ := isBytePacket_spec hc
  obtain ⟨hlen, hval, hrw, ht⟩ := isDataPacket_spec hd
  have hfuel : ∃ m, unreadCount s + 1 = pre.length + (m + 1) := by
    have h1 := flatten_length_of_forall pre F.sizeofPacket
      (fun c hc => (isAddrPacket_spec (hpre c hc)).1)
    have h3 : unreadCount s = F.sizeofPacket * pre.length + (c ++ rest).length := by
      rw [unreadCount_eq, hu, List.length_append, h1]
    have h4 : pre.length ≤ F.sizeofPacket * pre.length := Nat.le_mul_of_pos_left _ hF.1
    exact ⟨unreadCount s - pre.length, by omega⟩
  obtain ⟨m, hm⟩ := hfuel
  obtain ⟨s1, a1, a2, _, _, hloop⟩ := run_addrs F hF pre (MemTrace_NextInit s) (m + 1) _
    hb hu hpre rfl
  obtain ⟨s2, b1, b2, _, _, _, _, hbody⟩ := body_valid F
    { state := s1
      op := (MemTrace_NextInit s).op
      result := (MemTrace_NextInit s).result
      packets := (MemTrace_NextInit s).packets ++ pre.map F.MemPacket_FromBytes }
    c rest hF a1 a2 hlen hval
  obtain ⟨other, hne, hsw⟩ := MemTrace_NextSwitch_data F
    { state := s2
      op := (MemTrace_NextInit s).op
      result := (MemTrace_NextInit s).result
      packets := (MemTrace_NextInit s).packets ++ pre.map F.MemPacket_FromBytes ++
        [F.MemPacket_FromBytes c] }
    (F.MemPacket_FromBytes c) t hrw ht (Or.inl rfl)
  rw [hsw, MemTrace_NextData_byte_first _ _ _ _ _ _ hne hw rfl] at hbody
  unfold MemTrace_Next
  rw [hm, hloop, MemTrace_NextLoop_leave F _ _ _ hbody]
  exact ⟨rfl, ⟨_, rfl⟩, b1, b2⟩

/-! ## The reader during a call -/

theorem MemTrace_NextData_packets (F : MemPacketFmt) (v : NextVars) (s : MemTraceState)
    (p : MemPacket) (a b : MemOpType) :
    (MemTrace_NextData F v s p a b).vars.packets = v.packets := by
  unfold MemTrace_NextData
  simp only []
  split_ifs <;> rfl

theorem MemTrace_NextSwitch_packets (F : MemPacketFmt) (v : NextVars) (p : MemPacket) :
    (MemTrace_NextSwitch F v p).vars.packets = v.packets := by
  unfold MemTrace_NextSwitch
  simp only []
  split
  · split_ifs <;> rfl
  · exact MemTrace_NextData_packets ..
  · exact MemTrace_NextData_packets ..
  · rfl

theorem StreamInv_init (F : MemPacketFmt) (s0 : MemTraceState) (hb : BufOK s0) :
    StreamInv F s0 (MemTrace_NextInit s0) where
  bufOK := hb
  taken := by simp [MemTrace_NextInit]
  unread := by simp [MemTrace_NextInit]
  offset := by simp [MemTrace_NextInit]
  chunks := ⟨[], by simp, by simp [MemTrace_NextInit], by simp [MemTrace_NextInit]⟩

/-- The reader after one more packet was taken. -/
theorem StreamInv_advance (F : MemPacketFmt) (s0 : MemTraceState) (v v1 : NextVars)
    (s1 : MemTraceState) (hi : StreamInv F s0 v)
    (h : F.sizeofPacket ≤ (unread v.state).length)
    (hadv : Advances v.state s1 F.sizeofPacket) (hsr : SameReader s1 v1.state)
    (hpk : v1.packets = v.packets ++
      [F.MemPacket_FromBytes ((unread v.state).take F.sizeofPacket)]) :
    StreamInv F s0 v1 := by
  obtain ⟨a1, a2, a3, _, _, _⟩ := hadv
  have hlen : (unread v.state).length =
      (unread s0).length - F.sizeofPacket * v.packets.length := by
    rw [hi.unread, List.length_drop]
  have hmul : F.sizeofPacket * (v.packets ++
      [F.MemPacket_FromBytes ((unread v.state).take F.sizeofPacket)]).length =
      F.sizeofPacket * v.packets.length + F.sizeofPacket := by
    rw [List.length_append, List.length_singleton, Nat.mul_succ]
  have := hi.taken
  have hoff := hi.offset
  obtain ⟨cs, hcs1, hcs2, hcs3⟩ := hi.chunks
  refine ⟨hsr.bufOK a1, ?_, ?_, ?_, ?_⟩
  · rw [hpk, hmul]; omega
  · rw [hsr.unread, a2, hi.unread, List.drop_drop, hpk, hmul, Nat.add_comm]
  · rw [hsr.1, a3, hpk, hmul]; omega
  · refine ⟨cs ++ [(unread v.state).take F.sizeofPacket], ?_, ?_, ?_⟩
    · intro c hc
      rw [List.mem_append, List.mem_singleton] at hc
      rcases hc with hc | rfl
      · exact hcs1 c hc
      · rw [List.length_take]; omega
    · rw [hpk, hcs2, List.map_append, List.map_singleton]
    · rw [hpk, hmul, List.take_add, hcs3, hi.unread, List.flatten_append]
      simp

theorem StreamInv_step (F : MemPacketFmt) (hF : FmtOK F) (s0 : MemTraceState) (v v1 : NextVars)
    (hi : StreamInv F s0 v) (h : MemTrace_NextBody F v = NextStep.again v1) :
    StreamInv F s0 v1 := by
  by_cases hlt : (unread v.state).length < F.sizeofPacket
  · obtain ⟨s1, _, hbody⟩ := body_eof F v hi.bufOK hF hlt
    rw [hbody] at h
    split_ifs at h
  · obtain ⟨s1, hadv, hbody⟩ := body_packet F v hi.bufOK hF (by omega)
    rw [hbody] at h
    split_ifs at h with h1 h2
    · split at h
      · exact absurd h (by simp)
      · split_ifs at h
    · have hsr := MemTrace_NextSwitch_sameReader F
        { v with state := s1, packets := v.packets ++
          [F.MemPacket_FromBytes ((unread v.state).take F.sizeofPacket)] }
        (F.MemPacket_FromBytes ((unread v.state).take F.sizeofPacket))
      have hpk := MemTrace_NextSwitch_packets F
        { v with state := s1, packets := v.packets ++
          [F.MemPacket_FromBytes ((unread v.state).take F.sizeofPacket)] }
        (F.MemPacket_FromBytes ((unread v.state).take F.sizeofPacket))
      rw [h] at hsr hpk
      exact StreamInv_advance F s0 v v1 s1 hi (by omega) hadv hsr hpk

/-- How a call of `MemTrace_Next` on a state with the buffer indices in
bounds ends: as `MemTrace_Next_cases`, with the reader invariant as well. -/
theorem MemTrace_Next_cases_stream (F : MemPacketFmt) (hF : FmtOK F) (s : MemTraceState)
    (hb : BufOK s) (nextOp : Option MemOp) :
    (∃ v, LoopInv F s v ∧ StreamInv F s v ∧
      MemTrace_Next F s nextOp = MemTrace_NextEnd nextOp (NextStep.again v)) ∨
    (∃ v, LoopInv F s v ∧ StreamInv F s v ∧
      (∀ v2, MemTrace_NextBody F v ≠ NextStep.again v2) ∧
      MemTrace_Next F s nextOp = MemTrace_NextEnd nextOp (MemTrace_NextBody F v)) := by
  rcases loop_rule F (fun v => LoopInv F s v ∧ StreamInv F s v)
    (fun v v1 hv hbody => ⟨LoopInv_step F s v v1 hv.1 hbody, StreamInv_step F hF s v v1 hv.2 hbody⟩)
    (unreadCount s + 1) (MemTrace_NextInit s) ⟨LoopInv_init F s, StreamInv_init F s hb⟩ with
    ⟨v, hv, h⟩ | ⟨v, hv, h, hne⟩
  · exact Or.inl ⟨v, hv.1, hv.2, by unfold MemTrace_Next; rw [h]⟩
  · exact Or.inr ⟨v, hv.1, hv.2, hne, by unfold MemTrace_Next; rw [h]⟩

theorem MemTrace_NextData_no_abort (F : MemPacketFmt) (v : NextVars) (s : MemTraceState)
    (p : MemPacket) (a b : MemOpType) (v1 : NextVars) :
    MemTrace_NextData F v s p a b ≠ NextStep.abort v1 := by
  unfold MemTrace_NextData
  simp only []
  split_ifs <;> simp

theorem MemTrace_NextSwitch_no_abort (F : MemPacketFmt) (v : NextVars) (p : MemPacket)
    (v1 : NextVars) : MemTrace_NextSwitch F v p ≠ NextStep.abort v1 := by
  unfold MemTrace_NextSwitch
  simp only []
  split
  · split_ifs <;> simp
  · exact MemTrace_NextData_no_abort _ _ _ _ _ _ _
  · exact MemTrace_NextData_no_abort _ _ _ _ _ _ _
  · simp

/-- With the buffer indices in bounds no assert fails in an iteration, and
the iteration reads either no packet (less than one packet is unread) or the
packet made of the next bytes of the stream. -/
theorem body_stream (F : MemPacketFmt) (hF : FmtOK F) (v : NextVars) (hb : BufOK v.state) :
    (∀ v1, MemTrace_NextBody F v ≠ NextStep.abort v1) ∧
    (((unread v.state).length < F.sizeofPacket ∧
        (MemTrace_NextBody F v).vars.packets = v.packets) ∨
      (F.sizeofPacket ≤ (unread v.state).length ∧
        (MemTrace_NextBody F v).vars.packets = v.packets ++
          [F.MemPacket_FromBytes ((unread v.state).take F.sizeofPacket)])) := by
  by_cases hlt : (unread v.state).length < F.sizeofPacket
  · obtain ⟨s1, _, hbody⟩ := body_eof F v hb hF hlt
    rw [hbody]
    refine ⟨fun v1 => by split_ifs <;> simp, Or.inl ⟨hlt, ?_⟩⟩
    split_ifs <;> rfl
  · by_cases ha : F.MemPacket_IsAligned
        (F.MemPacket_FromBytes ((unread v.state).take F.sizeofPacket)) = true
    · obtain ⟨s1, _, hbody⟩ := body_aligned F v hb hF (by omega) ha
      rw [hbody]
      refine ⟨fun v1 => ?_, Or.inr ⟨by omega, ?_⟩⟩
      · split_ifs
        · simp
        · exact MemTrace_NextSwitch_no_abort _ _ _ _
      · split_ifs
        · rfl
        · rw [MemTrace_NextSwitch_packets]
    · simp only [Bool.not_eq_true] at ha
      by_cases hmore : F.sizeofPacket + 1 ≤ (unread v.state).length
      · obtain ⟨s2, _, hbody⟩ := body_sync F v hb hF hmore ha
        rw [hbody]
        exact ⟨fun v1 => by simp, Or.inr ⟨by omega, rfl⟩⟩
      · obtain ⟨s2, _, hbody⟩ := body_sync_eof F v hb hF (by omega) ha
        rw [hbody]
        exact ⟨fun v1 => by simp, Or.inr ⟨by omega, rfl⟩⟩

/-- The loop ends within one iteration per unread byte, and one more. -/
theorem loop_not_running (F : MemPacketFmt) (hF : FmtOK F) (s0 : MemTraceState) :
    ∀ (n : Nat) (v : NextVars), StreamInv F s0 v → (unread v.state).length < n →
      ∀ v1, MemTrace_NextLoop F n v ≠ NextStep.again v1 := by
  intro n
  induction n with
  | zero => intro v _ h; exact absurd h (by omega)
  | succ n ih =>
    intro v hi hlen v1
    cases hbody : MemTrace_NextBody F v with
    | again v2 =>
      rw [MemTrace_NextLoop_again F n v v2 hbody]
      have hi2 := StreamInv_step F hF s0 v v2 hi hbody
      have hpk := (body_stream F hF v hi.bufOK).2
      rw [hbody] at hpk
      rcases hpk with ⟨hlt, _⟩ | ⟨hge, hpk⟩
      · obtain ⟨s1, _, hb⟩ := body_eof F v hi.bufOK hF hlt
        rw [hb] at hbody
        split_ifs at hbody
      · refine ih v2 hi2 ?_ v1
        have h1 := hi.unread
        have h2 := hi2.unread
        have h3 : (unread v2.state).length =
            (unread s0).length - F.sizeofPacket * v2.packets.length := by
          rw [h2, List.length_drop]
        have h4 : (unread v.state).length =
            (unread s0).length - F.sizeofPacket * v.packets.length := by
          rw [h1, List.length_drop]
        have h5 : F.sizeofPacket * v2.packets.length =
            F.sizeofPacket * v.packets.length + F.sizeofPacket := by
          simp only [NextStep.vars] at hpk
          rw [hpk, List.length_append, List.length_singleton, Nat.mul_succ]
        have := hi2.taken
        have := hF.1
        omega
    | leave v2 => rw [MemTrace_NextLoop_leave F n v v2 hbody]; simp
    | ret r v2 => rw [MemTrace_NextLoop_ret F n v v2 r hbody]; simp
    | abort v2 => exact absurd hbody ((body_stream F hF v hi.bufOK).1 v2)

/-- A call on a state with the buffer indices in bounds returns: no assert
fails and the loop ends within the iterations given to it. -/
theorem MemTrace_Next_returns (F : MemPacketFmt) (hF : FmtOK F) (s : MemTraceState)
    (hb : BufOK s) (nextOp : Option MemOp) :
    ∃ r, (MemTrace_Next F s nextOp).status = NextStatus.returned r := by
  rcases MemTrace_Next_cases_stream F hF s hb nextOp with ⟨v, _, _, hn⟩ | ⟨v, _, hs, hne, hn⟩
  · have := loop_not_running F hF s (unreadCount s + 1) (MemTrace_NextInit s)
      (StreamInv_init F s hb) (by rw [unreadCount_eq]; exact Nat.lt_succ_self _)
    unfold MemTrace_Next at hn
    cases hl : MemTrace_NextLoop F (unreadCount s + 1) (MemTrace_NextInit s) with
    | again v1 => exact absurd hl (this v1)
    | leave v1 => unfold MemTrace_Next; rw [hl]; exact ⟨_, rfl⟩
    | ret r v1 => unfold MemTrace_Next; rw [hl]; exact ⟨_, rfl⟩
    | abort v1 => rw [hl] at hn; exact absurd hn (by simp [MemTrace_NextEnd])
  · rw [hn]
    cases hbody : MemTrace_NextBody F v with
    | again v1 => exact absurd hbody (hne v1)
    | leave v1 => exact ⟨_, rfl⟩
    | ret r v1 => exact ⟨_, rfl⟩
    | abort v1 => exact absurd hbody ((body_stream F hF v hs.bufOK).1 v1)

/-- The packets a call reads are the successive chunks of one packet width at
the head of the unread stream, each through `MemPacket_FromBytes`. -/
theorem MemTrace_Next_packets_from_stream (F : MemPacketFmt) (hF : FmtOK F) (s : MemTraceState)
    (hb : BufOK s) (nextOp : Option MemOp) :
    ∃ cs : List (List Nat), (∀ c ∈ cs, c.length = F.sizeofPacket) ∧
      (MemTrace_Next F s nextOp).packets = cs.map F.MemPacket_FromBytes ∧
      (unread s).take (F.sizeofPacket * cs.length) = cs.flatten := by
  rcases MemTrace_Next_cases_stream F hF s hb nextOp with ⟨v, _, hs, hn⟩ | ⟨v, _, hs, hne, hn⟩
  · obtain ⟨cs, h1, h2, h3⟩ := hs.chunks
    refine ⟨cs, h1, by rw [hn]; exact h2, ?_⟩
    rw [h2, List.length_map] at h3
    exact h3
  · obtain ⟨cs, h1, h2, h3⟩ := hs.chunks
    rw [hn, MemTrace_NextEnd_packets]
    rcases (body_stream F hF v hs.bufOK).2 with ⟨_, hpk⟩ | ⟨hge, hpk⟩
    · refine ⟨cs, h1, by rw [hpk]; exact h2, ?_⟩
      rw [h2, List.length_map] at h3
      exact h3
    · refine ⟨cs ++ [(unread v.state).take F.sizeofPacket], ?_, ?_, ?_⟩
      · intro c hc
        rw [List.mem_append, List.mem_singleton] at hc
        rcases hc with hc | rfl
        · exact h1 c hc
        · rw [List.length_take]; omega
      · rw [hpk, h2, List.map_append, List.map_singleton]
      · rw [h2, List.length_map] at h3
        rw [List.length_append, List.length_singleton, Nat.mul_succ, List.take_add, h3,
          List.flatten_append, hs.unread, h2, List.length_map]
        simp

/-! ## The clock and the predicted address during a call -/

theorem MemTraceData_clocks (F : MemPacketFmt) (s : MemTraceState) (op : MemOp)
    (p : MemPacket) (r : MemTraceResult) : (MemTraceData F s op p r).2.1.clocks = s.clocks := by
  unfold MemTraceData
  simp only []
  split_ifs <;> rfl

theorem MemTraceData_nextAddr (F : MemPacketFmt) (s : MemTraceState) (op : MemOp)
    (p : MemPacket) (r : MemTraceResult) :
    (MemTraceData F s op p r).2.1.nextAddr = (s.nextAddr + 1) % 2 ^ 32 := by
  unfold MemTraceData
  simp only []
  split_ifs <;> rfl

theorem MemTrace_NextData_clocks (F : MemPacketFmt) (v : NextVars) (s : MemTraceState)
    (p : MemPacket) (a b : MemOpType) :
    (MemTrace_NextData F v s p a b).vars.state.clocks = s.clocks := by
  unfold MemTrace_NextData
  simp only []
  split_ifs
  · rfl
  · exact MemTraceData_clocks ..
  · exact MemTraceData_clocks ..

theorem MemTrace_NextData_nextAddr (F : MemPacketFmt) (v : NextVars) (s : MemTraceState)
    (p : MemPacket) (a b : MemOpType) :
    (MemTrace_NextData F v s p a b).vars.state.nextAddr =
      if v.op.type = a then s.nextAddr else (s.nextAddr + 1) % 2 ^ 32 := by
  unfold MemTrace_NextData
  simp only []
  split_ifs
  · rfl
  · exact MemTraceData_nextAddr ..
  · exact MemTraceData_nextAddr ..

/-- The switch adds the duration of the packet to the clock, on every path. -/
theorem MemTrace_NextSwitch_clocks (F : MemPacketFmt) (v : NextVars) (p : MemPacket) :
    (MemTrace_NextSwitch F v p).vars.state.clocks =
      (v.state.clocks + F.MemPacket_GetDuration p) % 2 ^ 64 := by
  unfold MemTrace_NextSwitch
  simp only []
  split
  · split_ifs <;> rfl
  · exact MemTrace_NextData_clocks ..
  · exact MemTrace_NextData_clocks ..
  · rfl

/-- The predicted address after the switch, on every path. -/
theorem MemTrace_NextSwitch_nextAddr (F : MemPacketFmt) (v : NextVars) (p : MemPacket) :
    (MemTrace_NextSwitch F v p).vars.state.nextAddr =
      nextAddrStep F v.op.type v.state.nextAddr p := by
  unfold MemTrace_NextSwitch nextAddrStep
  simp only []
  split
  · split_ifs <;> rfl
  · exact MemTrace_NextData_nextAddr ..
  · exact MemTrace_NextData_nextAddr ..
  · rfl

/-- The packets read, the clock and the predicted address after one
iteration, however it ends: no packet read; a packet that fails a test; or a
packet that passes both and goes through the switch. -/
theorem body_account (F : MemPacketFmt) (v : NextVars) :
    ((MemTrace_NextBody F v).vars.packets = v.packets ∧
      (MemTrace_NextBody F v).vars.state.clocks = v.state.clocks ∧
      (MemTrace_NextBody F v).vars.state.nextAddr = v.state.nextAddr) ∨
    (∃ p, (MemTrace_NextBody F v).vars.packets = v.packets ++ [p] ∧ isValid F p = false ∧
      (MemTrace_NextBody F v).vars.state.clocks = v.state.clocks ∧
      (MemTrace_NextBody F v).vars.state.nextAddr = v.state.nextAddr) ∨
    (∃ p, (MemTrace_NextBody F v).vars.packets = v.packets ++ [p] ∧ isValid F p = true ∧
      (MemTrace_NextBody F v).vars.state.clocks =
        (v.state.clocks + F.MemPacket_GetDuration p) % 2 ^ 64 ∧
      (MemTrace_NextBody F v).vars.state.nextAddr =
        nextAddrStep F v.op.type v.state.nextAddr p) := by
  unfold MemTrace_NextBody
  cases hrd : MemTraceReadBuffered v.state F.sizeofPacket with
  | none => exact Or.inl ⟨rfl, rfl, rfl⟩
  | some rd =>
    obtain ⟨_, hc, hn⟩ := MemTraceReadBuffered_data _ _ _ hrd
    simp only []
    by_cases h1 : rd.1 = false
    · rw [if_pos h1]
      refine Or.inl ?_
      split_ifs <;> exact ⟨rfl, hc, hn⟩
    · rw [if_neg h1]
      by_cases h2 : F.MemPacket_IsAligned (F.MemPacket_FromBytes rd.2.2) = false
      · rw [if_pos h2]
        refine Or.inr (Or.inl ⟨F.MemPacket_FromBytes rd.2.2, ?_, by simp [isValid, h2], ?_⟩)
        · cases hrd1 : MemTraceReadBuffered rd.2.1 1 with
          | none => rfl
          | some rd1 => simp only []; split_ifs <;> rfl
        · cases hrd1 : MemTraceReadBuffered rd.2.1 1 with
          | none => exact ⟨hc, hn⟩
          | some rd1 =>
            obtain ⟨_, hc1, hn1⟩ := MemTraceReadBuffered_data _ _ _ hrd1
            simp only []
            split_ifs <;> exact ⟨hc1.trans hc, hn1.trans hn⟩
      · rw [if_neg h2]
        simp only [Bool.not_eq_false] at h2
        by_cases h3 : F.MemPacket_IsChecksumCorrect (F.MemPacket_FromBytes rd.2.2) = false
        · rw [if_pos h3]
          exact Or.inr (Or.inl ⟨F.MemPacket_FromBytes rd.2.2, rfl, by simp [isValid, h3],
            hc, hn⟩)
        · rw [if_neg h3]
          simp only [Bool.not_eq_false] at h3
          refine Or.inr (Or.inr ⟨F.MemPacket_FromBytes rd.2.2, ?_, by simp [isValid, h2, h3],
            ?_, ?_⟩)
          · rw [MemTrace_NextSwitch_packets]
          · rw [MemTrace_NextSwitch_clocks]; simp only [hc]
          · rw [MemTrace_NextSwitch_nextAddr]; simp only [hn]

/-- A property of the state and the packets read that every iteration keeps,
however it ends, holds after the call. -/
theorem call_rule (F : MemPacketFmt) (Inv : NextVars → Prop)
    (hstep : ∀ v, Inv v → Inv (MemTrace_NextBody F v).vars)
    (s : MemTraceState) (nextOp : Option MemOp) (h0 : Inv (MemTrace_NextInit s)) :
    ∃ v, Inv v ∧ (MemTrace_Next F s nextOp).state = v.state ∧
      (MemTrace_Next F s nextOp).packets = v.packets := by
  rcases loop_rule F Inv (fun v v1 hv hb => by have := hstep v hv; rw [hb] at this; exact this)
    (unreadCount s + 1) (MemTrace_NextInit s) h0 with ⟨v, hv, h⟩ | ⟨v, hv, h, _⟩
  · exact ⟨v, hv, by unfold MemTrace_Next; rw [h]; rfl, by unfold MemTrace_Next; rw [h]; rfl⟩
  · refine ⟨_, hstep v hv, ?_, ?_⟩
    · unfold MemTrace_Next; rw [h, MemTrace_NextEnd_state]
    · unfold MemTrace_Next; rw [h, MemTrace_NextEnd_packets]
theorem durationSum_append (F : MemPacketFmt) (ps : List MemPacket) (p : MemPacket) :
    durationSum F (ps ++ [p]) =
      durationSum F ps + (if isValid F p = true then F.MemPacket_GetDuration p else 0) := by
  unfold durationSum
  rw [List.filter_append, List.map_append, List.sum_append]
  cases h : isValid F p <;> simp [List.filter, h]

/-- Every iteration keeps the clock equal to its value at the start of the
call plus the durations of the valid packets read so far. -/
theorem clocks_step (F : MemPacketFmt) (c0 : Nat) (v : NextVars)
    (h : v.state.clocks = (c0 + durationSum F v.packets) % 2 ^ 64) :
    (MemTrace_NextBody F v).vars.state.clocks =
      (c0 + durationSum F (MemTrace_NextBody F v).vars.packets) % 2 ^ 64 := by
  rcases body_account F v with ⟨h1, h2, _⟩ | ⟨p, h1, hv, h2, _⟩ | ⟨p, h1, hv, h2, _⟩
  · rw [h1, h2, h]
  · rw [h1, h2, h, durationSum_append, hv]; simp
  · rw [h1, h2, h, durationSum_append, hv]; simp only [if_true]; omega

theorem nextAddrCount_append (F : MemPacketFmt) (n : Nat) (ps : List MemPacket) (p : MemPacket) :
    nextAddrCount F n (ps ++ [p]) =
      if isValid F p = true then
        match F.MemPacket_GetType p with
        | MEMPKT_ADDR => F.MemPacket_GetPayload p % 2 ^ 32
        | MEMPKT_READ => (nextAddrCount F n ps + 1) % 2 ^ 32
        | MEMPKT_WRITE => (nextAddrCount F n ps + 1) % 2 ^ 32
        | MEMPKT_OTHER => nextAddrCount F n ps
      else nextAddrCount F n ps := by
  unfold nextAddrCount
  rw [List.foldl_append]
  rfl

/-- When `op.type` is set, a READ or WRITE packet read so far set it. -/
theorem LoopInv.type_from_packet {F : MemPacketFmt} {s0 : MemTraceState} {v : NextVars}
    (hi : LoopInv F s0 v) (h : v.op.type ≠ MEMOP_INVALID) :
    ∃ q ∈ v.packets, isValid F q = true ∧ isRW F q = true ∧
      v.op.type = opTypeOf (F.MemPacket_GetType q) := by
  by_cases hall : ∀ p ∈ v.packets, isRW F p = false
  · exact absurd (hi.fresh hall).1 h
  · push_neg at hall
    obtain ⟨q, hq, hrw⟩ := hall
    simp only [ne_eq, Bool.not_eq_false] at hrw
    exact ⟨q, hq, hi.valid q hq, hrw, hi.types q hq hrw⟩

theorem mixesReadWrite_of_mem (F : MemPacketFmt) (ps : List MemPacket) (p q : MemPacket)
    (hp : p ∈ ps) (hq : q ∈ ps) (hvp : isValid F p = true) (hvq : isValid F q = true)
    (htp : F.MemPacket_GetType p = MEMPKT_READ) (htq : F.MemPacket_GetType q = MEMPKT_WRITE) :
    mixesReadWrite F ps = true := by
  unfold mixesReadWrite
  rw [Bool.and_eq_true, List.any_eq_true, List.any_eq_true]
  exact ⟨⟨p, hp, by simp [hvp, htp]⟩, ⟨q, hq, by simp [hvq, htq]⟩⟩

/-- At the start of an iteration the packets read so far do not mix READ and
WRITE. -/
theorem LoopInv.not_mixes {F : MemPacketFmt} {s0 : MemTraceState} {v : NextVars}
    (hi : LoopInv F s0 v) : mixesReadWrite F v.packets = false := by
  cases h : mixesReadWrite F v.packets
  · rfl
  · unfold mixesReadWrite at h
    rw [Bool.and_eq_true, List.any_eq_true, List.any_eq_true] at h
    obtain ⟨⟨p, hp, hp2⟩, ⟨q, hq, hq2⟩⟩ := h
    simp only [Bool.and_eq_true, beq_iff_eq] at hp2 hq2
    have h1 := hi.types p hp (by simp [isRW, hp2.2])
    have h2 := hi.types q hq (by simp [isRW, hq2.2])
    rw [hp2.2] at h1
    rw [hq2.2, h1] at h2
    exact absurd h2 (by simp [opTypeOf])

/-- One iteration keeps the predicted address equal to the account of the
packets read, unless the packets then mix READ and WRITE. -/
theorem nextAddr_step (F : MemPacketFmt) (s0 : MemTraceState) (v : NextVars)
    (hi : LoopInv F s0 v) (h : v.state.nextAddr = nextAddrCount F s0.nextAddr v.packets)
    (hmix : mixesReadWrite F (MemTrace_NextBody F v).vars.packets = false) :
    (MemTrace_NextBody F v).vars.state.nextAddr =
      nextAddrCount F s0.nextAddr (MemTrace_NextBody F v).vars.packets := by
  rcases body_account F v with ⟨h1, _, h2⟩ | ⟨p, h1, hv, _, h2⟩ | ⟨p, h1, hv, _, h2⟩
  · rw [h1, h2, h]
  · rw [h1, h2, h, nextAddrCount_append, hv]; simp
  · rw [h1] at hmix
    rw [h1, h2, h, nextAddrCount_append, hv]
    simp only [if_true]
    unfold nextAddrStep
    cases hty : F.MemPacket_GetType p <;> simp only []
    · by_cases ht : v.op.type = MEMOP_WRITE
      · obtain ⟨q, hq, hvq, hrq, htq⟩ := hi.type_from_packet (by rw [ht]; simp)
        have hq2 : F.MemPacket_GetType q = MEMPKT_WRITE := by
          rw [ht] at htq
          cases hh : F.MemPacket_GetType q <;> rw [hh] at htq <;> simp [opTypeOf] at htq ⊢
        have := mixesReadWrite_of_mem F (v.packets ++ [p]) p q (by simp)
          (List.mem_append_left _ hq) hv hvq hty hq2
        rw [this] at hmix
        exact absurd hmix (by simp)
      · rw [if_neg ht]
    · by_cases ht : v.op.type = MEMOP_READ
      · obtain ⟨q, hq, hvq, hrq, htq⟩ := hi.type_from_packet (by rw [ht]; simp)
        have hq2 : F.MemPacket_GetType q = MEMPKT_READ := by
          rw [ht] at htq
          cases hh : F.MemPacket_GetType q <;> rw [hh] at htq <;> simp [opTypeOf] at htq ⊢
        have := mixesReadWrite_of_mem F (v.packets ++ [p]) q p
          (List.mem_append_left _ hq) (by simp) hvq hv hq2 hty
        rw [this] at hmix
        exact absurd hmix (by simp)
      · rw [if_neg ht]

/-- After a call that has not read both a valid READ and a valid WRITE packet,
the predicted address is the payload of the last valid ADDRESS packet read
(its value before the call when there is none) plus the number of valid READ
and WRITE packets read after it, modulo 2^32. -/
theorem MemTrace_Next_nextAddr (F : MemPacketFmt) (s : MemTraceState) (nextOp : Option MemOp)
    (hmix : mixesReadWrite F (MemTrace_Next F s nextOp).packets = false) :
    (MemTrace_Next F s nextOp).state.nextAddr =
      nextAddrCount F s.nextAddr (MemTrace_Next F s nextOp).packets := by
  rcases loop_rule F
    (fun v => LoopInv F s v ∧ v.state.nextAddr = nextAddrCount F s.nextAddr v.packets)
    (fun v v1 hv hb => by
      have h1 := LoopInv_step F s v v1 hv.1 hb
      have h2 := nextAddr_step F s v hv.1 hv.2
      rw [hb] at h2
      exact ⟨h1, h2 h1.not_mixes⟩)
    (unreadCount s + 1) (MemTrace_NextInit s) ⟨LoopInv_init F s, rfl⟩ with
    ⟨v, hv, h⟩ | ⟨v, hv, h, _⟩
  · unfold MemTrace_Next; rw [h]; exact hv.2
  · unfold MemTrace_Next at hmix ⊢
    rw [h, MemTrace_NextEnd_packets] at hmix
    rw [h, MemTrace_NextEnd_packets, MemTrace_NextEnd_state]
    exact nextAddr_step F s v hv.1 hv.2 hmix

/-! ## Whole sessions: the reader across calls

The lemmas of this section follow the reader fields through calls of
`MemTrace_Next` in the embedding, where a store outside `memory` is recorded
at its raw index and changes no other field.  They carry over to the C code
for the calls whose byte stores fall inside `memory`. -/

/-- The reader after one iteration, however it ends: the buffer indices stay
in bounds, and either nothing was taken from the stream and no packet was
read, or one packet was read and one packet width was taken, with one byte
more after a misaligned packet. -/
theorem body_reader (F : MemPacketFmt) (hF : FmtOK F) (v : NextVars) (hb : BufOK v.state) :
    BufOK (MemTrace_NextBody F v).vars.state ∧
    ∃ k, k ≤ (unread v.state).length ∧
      unread (MemTrace_NextBody F v).vars.state = (unread v.state).drop k ∧
      ((k = 0 ∧ (MemTrace_NextBody F v).vars.state.fileOffset = v.state.fileOffset ∧
          (MemTrace_NextBody F v).vars.packets = v.packets) ∨
        (F.sizeofPacket ≤ k ∧
          (MemTrace_NextBody F v).vars.state.fileOffset = (v.state.fileOffset + k) % 2 ^ 64 ∧
          ∃ p, (MemTrace_NextBody F v).vars.packets = v.packets ++ [p])) := by
  by_cases hlt : (unread v.state).length < F.sizeofPacket
  · obtain ⟨s1, ⟨a1, a2, a3, _⟩, hbody⟩ := body_eof F v hb hF hlt
    rw [hbody]
    split_ifs
    · exact ⟨a1, 0, Nat.zero_le _, by simpa using a2, Or.inl ⟨rfl, a3, rfl⟩⟩
    · exact ⟨a1, 0, Nat.zero_le _, by simpa using a2, Or.inl ⟨rfl, a3, rfl⟩⟩
  · by_cases ha : F.MemPacket_IsAligned
        (F.MemPacket_FromBytes ((unread v.state).take F.sizeofPacket)) = true
    · obtain ⟨s1, ⟨a1, a2, a3, _⟩, hbody⟩ := body_aligned F v hb hF (by omega) ha
      rw [hbody]
      split_ifs
      · exact ⟨a1, F.sizeofPacket, by omega, a2, Or.inr ⟨le_refl _, a3, _, rfl⟩⟩
      · have hsr := MemTrace_NextSwitch_sameReader F
          { v with state := s1, packets := v.packets ++
            [F.MemPacket_FromBytes ((unread v.state).take F.sizeofPacket)] }
          (F.MemPacket_FromBytes ((unread v.state).take F.sizeofPacket))
        refine ⟨hsr.bufOK a1, F.sizeofPacket, by omega, ?_, Or.inr ⟨le_refl _, ?_, _,
          MemTrace_NextSwitch_packets _ _ _⟩⟩
        · rw [hsr.unread]; exact a2
        · rw [hsr.1]; exact a3
    · simp only [Bool.not_eq_true] at ha
      by_cases hmore : F.sizeofPacket + 1 ≤ (unread v.state).length
      · obtain ⟨s2, ⟨a1, a2, a3, _⟩, hbody⟩ := body_sync F v hb hF hmore ha
        rw [hbody]
        exact ⟨a1, F.sizeofPacket + 1, hmore, a2, Or.inr ⟨by omega, a3, _, rfl⟩⟩
      · obtain ⟨s2, ⟨a1, a2, a3, _⟩, hbody⟩ := body_sync_eof F v hb hF (by omega) ha
        rw [hbody]
        exact ⟨a1, F.sizeofPacket, by omega, a2, Or.inr ⟨le_refl _, a3, _, rfl⟩⟩

/-- The buffer indices are in bounds after every call that starts with them
in bounds. -/
theorem MemTrace_Next_bufOK (F : MemPacketFmt) (hF : FmtOK F) (s : MemTraceState) (hb : BufOK s)
    (nextOp : Option MemOp) : BufOK (MemTrace_Next F s nextOp).state := by
  obtain ⟨v, hv, hs, _⟩ := call_rule F (fun v => BufOK v.state)
    (fun v hv => (body_reader F hF v hv).1) s nextOp hb
  rw [hs]; exact hv

/-- What a call takes from the stream: the unread stream after the call is
the unread stream before it without its first `k` bytes, `fileOffset` has
grown by `k`, and `k` is at least one packet width when the call read a
packet. -/
theorem MemTrace_Next_reader (F : MemPacketFmt) (hF : FmtOK F) (s : MemTraceState) (hb : BufOK s)
    (hoff : s.fileOffset + (unread s).length < 2 ^ 64) (nextOp : Option MemOp) :
    BufOK (MemTrace_Next F s nextOp).state ∧
    ∃ k, k ≤ (unread s).length ∧
      unread (MemTrace_Next F s nextOp).state = (unread s).drop k ∧
      (MemTrace_Next F s nextOp).state.fileOffset = s.fileOffset + k ∧
      ((MemTrace_Next F s nextOp).packets ≠ [] → F.sizeofPacket ≤ k) := by
  obtain ⟨v, hv, hs, hp⟩ := call_rule F
    (fun v => BufOK v.state ∧ ∃ k, k ≤ (unread s).length ∧
      unread v.state = (unread s).drop k ∧ v.state.fileOffset = s.fileOffset + k ∧
      (v.packets ≠ [] → F.sizeofPacket ≤ k))
    (fun v hv => by
      obtain ⟨hb1, k, hk, hu, ho, hpk⟩ := hv
      obtain ⟨hb2, j, hj, hu2, hcase⟩ := body_reader F hF v hb1
      have hlen : (unread v.state).length = (unread s).length - k := by
        rw [hu, List.length_drop]
      refine ⟨hb2, k + j, by omega, ?_, ?_, ?_⟩
      · rw [hu2, hu, List.drop_drop, Nat.add_comm]
      · rcases hcase with ⟨hj0, hfo, _⟩ | ⟨_, hfo, _⟩
        · rw [hfo, ho, hj0]; rfl
        · rw [hfo, ho]; omega
      · intro hne
        rcases hcase with ⟨_, _, hpk2⟩ | ⟨hsz, _, _⟩
        · rw [hpk2] at hne
          have := hpk hne
          omega
        · omega)
    s nextOp ⟨hb, 0, Nat.zero_le _, rfl, rfl, fun h => absurd rfl h⟩
  rw [hs, hp]; exact hv

/-- A call that returns a result other than `MEMTR_EOF` has read a packet. -/
theorem MemTrace_Next_reads_packet (F : MemPacketFmt) (s : MemTraceState) (nextOp : Option MemOp)
    (r : MemTraceResult) (h : (MemTrace_Next F s nextOp).status = NextStatus.returned r)
    (hr : r ≠ MEMTR_EOF) : (MemTrace_Next F s nextOp).packets ≠ [] := by
  rcases MemTrace_Next_cases F s nextOp with ⟨v, hi, hn⟩ | ⟨v, st, hi, hx, hn⟩
  · rw [hn] at h; exact absurd h (by simp [MemTrace_NextEnd])
  · rw [hn] at h ⊢
    have hflush : v.op.length ≠ 0 → v.packets ≠ [] := by
      intro hl he
      have := hi.length
      rw [he] at this
      exact hl (by simpa using this)
    cases hx with
    | assertFirst => exact absurd h (by simp [MemTrace_NextEnd])
    | eof s1 _ _ =>
      simp only [MemTrace_NextEnd, NextStatus.returned.injEq] at h
      exact absurd h.symm hr
    | flush s1 _ hl => exact hflush hl
    | misaligned s1 p st _ _ hst =>
      rcases hst with rfl | rfl | rfl <;> simp [MemTrace_NextEnd]
    | checksum s1 p _ _ _ => simp [MemTrace_NextEnd]
    | addr s1 p _ _ _ _ => simp [MemTrace_NextEnd]
    | mismatch s1 p _ _ _ _ _ => simp [MemTrace_NextEnd]
    | byteLater s1 p _ _ _ _ _ _ => simp [MemTrace_NextEnd]
    | byteFirst s1 p addr _ _ _ _ _ => simp [MemTrace_NextEnd]
/-- The main loop of decoder.c ends within one call per packet width of
unread stream, and one more. -/
theorem mainLoop_bound (F : MemPacketFmt) (hF : FmtOK F) :
    ∀ (n : Nat) (s : MemTraceState) (op : MemOp), BufOK s →
      s.fileOffset + (unread s).length < 2 ^ 64 →
      (unread s).length / F.sizeofPacket + 1 ≤ n →
      ∃ k, mainLoop F n s op = some k ∧ k ≤ (unread s).length / F.sizeofPacket + 1 := by
  intro n
  induction n with
  | zero => intro s op _ _ h; exact absurd h (Nat.not_succ_le_zero _)
  | succ n ih =>
    intro s op hb hoff hn
    obtain ⟨r, hr⟩ := MemTrace_Next_returns F hF s hb (some op)
    by_cases he : r = MEMTR_EOF
    · refine ⟨1, ?_, Nat.le_add_left _ _⟩
      simp only [mainLoop, hr, he, if_true]
    · obtain ⟨hb1, k, hk, hu, ho, hpk⟩ := MemTrace_Next_reader F hF s hb hoff (some op)
      have hsz := hpk (MemTrace_Next_reads_packet F s (some op) r hr he)
      have hlen : (unread (MemTrace_Next F s (some op)).state).length =
          (unread s).length - k := by rw [hu, List.length_drop]
      have hdiv : (unread s).length / F.sizeofPacket =
          ((unread s).length - F.sizeofPacket) / F.sizeofPacket + 1 :=
        Nat.div_eq_sub_div hF.1 (by omega)
      have hle : ((unread s).length - k) / F.sizeofPacket ≤
          ((unread s).length - F.sizeofPacket) / F.sizeofPacket :=
        Nat.div_le_div_right (by omega)
      have hn1 : ((unread s).length - k) / F.sizeofPacket + 1 ≤ n := by
        generalize ((unread s).length - k) / F.sizeofPacket = a at *
        generalize ((unread s).length - F.sizeofPacket) / F.sizeofPacket = b at *
        generalize (unread s).length / F.sizeofPacket = c at *
        omega
      obtain ⟨j, hj, hjle⟩ := ih (MemTrace_Next F s (some op)).state
        ((MemTrace_Next F s (some op)).nextOp.getD op) hb1 (by rw [ho, hlen]; omega)
        (by rw [hlen]; exact hn1)
      refine ⟨j + 1, ?_, ?_⟩
      swap
      · rw [hlen] at hjle
        generalize ((unread s).length - k) / F.sizeofPacket = a at *
        generalize ((unread s).length - F.sizeofPacket) / F.sizeofPacket = b at *
        generalize (unread s).length / F.sizeofPacket = c at *
        omega
      simp only [mainLoop, hr, he, if_false, hj, Option.map_some']

theorem ReadInv_open (stream : List Nat) : ReadInv stream (MemTrace_Open stream) := by
  refine ⟨⟨Nat.le_refl _, Nat.zero_le _⟩, Nat.zero_le _, ?_⟩
  simp [unread, MemTrace_Open, arraySlice]

/-- One call of the reader in a session on `stream`: with `size` bytes left
it hands out the bytes at positions `fileOffset` to `fileOffset + size` and
adds `size` to `fileOffset`; with fewer left it fails, and `fileOffset` and the
unread bytes stay as they are. -/
theorem ReadInv_step (stream : List Nat) (hlen : stream.length < 2 ^ 64) (s : MemTraceState)
    (hi : ReadInv stream s) (size : Nat) (hsize : size ≤ fileBufSize) :
    (size ≤ stream.length - s.fileOffset →
      ∃ s1, MemTraceReadBuffered s size =
          some (true, s1, (stream.drop s.fileOffset).take size) ∧
        s1.fileOffset = s.fileOffset + size ∧ ReadInv stream s1) ∧
    (stream.length - s.fileOffset < size →
      ∃ s1, MemTraceReadBuffered s size = some (false, s1, []) ∧
        s1.fileOffset = s.fileOffset ∧ unread s1 = unread s ∧ ReadInv stream s1) := by
  obtain ⟨hb, hle, hu⟩ := hi
  have hl : (unread s).length = stream.length - s.fileOffset := by rw [hu, List.length_drop]
  constructor
  · intro h
    obtain ⟨s1, hrb, a1, a2, a3, _⟩ := MemTraceReadBuffered_ok s size hb hsize (by omega)
    have hfo : s1.fileOffset = s.fileOffset + size := by rw [a3]; omega
    refine ⟨s1, by rw [hrb, hu], hfo, a1, by omega, ?_⟩
    rw [a2, hu, List.drop_drop, hfo, Nat.add_comm]
  · intro h
    obtain ⟨s1, hrb, a1, a2, a3, _⟩ := MemTraceReadBuffered_eof s size hb hsize (by omega)
    exact ⟨s1, hrb, a3, a2, a1, by omega, by rw [a2, a3, hu]⟩

/-- A sequence of calls of the reader in a session on `stream`: no assert
fails, and the bytes handed out are the bytes of the stream between the
`fileOffset` before the calls and the `fileOffset` after them. -/
theorem readMany_spec (stream : List Nat) (hlen : stream.length < 2 ^ 64) :
    ∀ (sizes : List Nat) (s : MemTraceState), ReadInv stream s →
      (∀ size ∈ sizes, size ≤ fileBufSize) →
      ∃ s1 out, readMany s sizes = some (s1, out) ∧ ReadInv stream s1 ∧
        s.fileOffset ≤ s1.fileOffset ∧
        out = (stream.drop s.fileOffset).take (s1.fileOffset - s.fileOffset) := by
  intro sizes
  induction sizes with
  | nil => intro s hi _; exact ⟨s, [], rfl, hi, le_refl _, by simp⟩
  | cons size sizes ih =>
    intro s hi hs
    have hsz := hs size (by simp)
    obtain ⟨hok, hfail⟩ := ReadInv_step stream hlen s hi size hsz
    by_cases h : size ≤ stream.length - s.fileOffset
    · obtain ⟨s1, hrb, hfo, hi1⟩ := hok h
      obtain ⟨s2, out, hrm, hi2, hle, hout⟩ := ih s1 hi1 (fun k hk => hs k (by simp [hk]))
      refine ⟨s2, (stream.drop s.fileOffset).take size ++ out, ?_, hi2, by omega, ?_⟩
      · simp only [readMany, hrb, hrm]
      · have : s2.fileOffset - s.fileOffset = size + (s2.fileOffset - s1.fileOffset) := by omega
        rw [this, List.take_add, hout, List.drop_drop, hfo]
    · obtain ⟨s1, hrb, hfo, _, hi1⟩ := hfail (by omega)
      obtain ⟨s2, out, hrm, hi2, hle, hout⟩ := ih s1 hi1 (fun k hk => hs k (by simp [hk]))
      refine ⟨s2, out, ?_, hi2, by omega, ?_⟩
      · simp only [readMany, hrb, hrm, List.nil_append]
      · rw [hout, hfo]

/-! ## Bursts at the limits of the 32-bit fields -/

/-- A byte access after ADDRESS packets `pre`, when the call starts: the call
returns it as an operation of one byte at twice the predicted word address,
plus one for the upper lane.  The reader fields after the call are those of
the embedding; in C they need the byte inside `memory`. -/
theorem burst_byte_addr (F : MemPacketFmt) (hF : FmtOK F) (t : MemOpType) (s : MemTraceState)
    (nextOp : Option MemOp) (pre : List (List Nat)) (c rest : List Nat) (hb : BufOK s)
    (hpre : ∀ c ∈ pre, isAddrPacket F c = true) (hc : isBytePacket F t c = true)
    (hu : unread s = pre.flatten ++ (c ++ rest)) :
    (MemTrace_Next F s nextOp).status = NextStatus.returned MEMTR_SUCCESS ∧
    (MemTrace_Next F s nextOp).nextOp = nextOp.map (fun _ =>
      { type := t
        addr :=
          if F.MemPacket_RW_LowerByte (F.MemPacket_FromBytes c) = true then
            (addrAfter F s.nextAddr pre * 2) % 2 ^ 32
          else ((addrAfter F s.nextAddr pre * 2) % 2 ^ 32 + 1) % 2 ^ 32
        length := 1 }) ∧
    BufOK (MemTrace_Next F s nextOp).state ∧ unread (MemTrace_Next F s nextOp).state = rest := by
  obtain ⟨hd, hw⟩ := isBytePacket_spec hc
  obtain ⟨hlen, hval, hrw, ht⟩ := isDataPacket_spec hd
  have hfuel : ∃ m, unreadCount s + 1 = pre.length + (m + 1) := by
    have h1 := flatten_length_of_forall pre F.sizeofPacket
      (fun c hc => (isAddrPacket_spec (hpre c hc)).1)
    have h3 : unreadCount s = F.sizeofPacket * pre.length + (c ++ rest).length := by
      rw [unreadCount_eq, hu, List.length_append, h1]
    have h4 : pre.length ≤ F.sizeofPacket * pre.length := Nat.le_mul_of_pos_left _ hF.1
    exact ⟨unreadCount s - pre.length, by omega⟩
  obtain ⟨m, hm⟩ := hfuel
  obtain ⟨s1, a1, a2, _, a4, hloop⟩ := run_addrs F hF pre (MemTrace_NextInit s) (m + 1) _
    hb hu hpre rfl
  obtain ⟨s2, b1, b2, _, _, _, b6, hbody⟩ := body_valid F
    { state := s1
      op := (MemTrace_NextInit s).op
      result := (MemTrace_NextInit s).result
      packets := (MemTrace_NextInit s).packets ++ pre.map F.MemPacket_FromBytes }
    c rest hF a1 a2 hlen hval
  obtain ⟨other, hne, hsw⟩ := MemTrace_NextSwitch_data F
    { state := s2
      op := (MemTrace_NextInit s).op
      result := (MemTrace_NextInit s).result
      packets := (MemTrace_NextInit s).packets ++ pre.map F.MemPacket_FromBytes ++
        [F.MemPacket_FromBytes c] }
    (F.MemPacket_FromBytes c) t hrw ht (Or.inl rfl)
  rw [hsw, MemTrace_NextData_byte_first _ _ _ _ _ _ hne hw rfl] at hbody
  simp only [MemTrace_NextInit] at b6 a4
  unfold MemTrace_Next
  rw [hm, hloop, MemTrace_NextLoop_leave F _ _ _ hbody]
  refine ⟨rfl, ?_, b1, b2⟩
  simp only [MemTrace_NextEnd, b6, a4]

/-- A burst of word accesses whose `uint32_t` length wraps to 0 on its last
packet `c`, at the end of the stream: with `op.length` 0 the loop takes the
`return MEMTR_EOF` of the failed read, and the burst is not returned. -/
theorem word_burst_wraps (F : MemPacketFmt) (hF : FmtOK F) (t : MemOpType) (s : MemTraceState)
    (nextOp : Option MemOp) (cs : List (List Nat)) (c rest : List Nat) (hb : BufOK s)
    (hcs : ∀ c ∈ cs, isWordPacket F t c = true) (hc : isWordPacket F t c = true)
    (hne : cs ≠ []) (hk : 2 * cs.length + 2 = 2 ^ 32) (hrest : rest.length < F.sizeofPacket)
    (hu : unread s = cs.flatten ++ (c ++ rest)) :
    (MemTrace_Next F s nextOp).status = NextStatus.returned MEMTR_EOF ∧
    (MemTrace_Next F s nextOp).nextOp = nextOp ∧
    (MemTrace_Next F s nextOp).packets =
      cs.map F.MemPacket_FromBytes ++ [F.MemPacket_FromBytes c] := by
  obtain ⟨hd, hw⟩ := isWordPacket_spec hc
  obtain ⟨hlen, hval, hrw, ht⟩ := isDataPacket_spec hd
  have hu1 : unread s = ([] : List (List Nat)).flatten ++ cs.flatten ++ (c ++ rest) := by
    rw [hu]; simp
  have hfuel : ∃ m, unreadCount s + 1 = ([] : List (List Nat)).length + (cs.length + (m + 2)) := by
    have h2 := flatten_length_of_forall cs F.sizeofPacket
      (fun c hc => (isDataPacket_spec (isWordPacket_spec (hcs c hc)).1).1)
    have h3 : unreadCount s = F.sizeofPacket * cs.length + (F.sizeofPacket + rest.length) := by
      rw [unreadCount_eq, hu, List.length_append, List.length_append, h2, hlen]
    have h5 : cs.length ≤ F.sizeofPacket * cs.length := Nat.le_mul_of_pos_left _ hF.1
    have := hF.1
    exact ⟨unreadCount s - cs.length - 1, by simp only [List.length_nil]; omega⟩
  obtain ⟨m, hm⟩ := hfuel
  obtain ⟨s2, b1, b2, _, _, hloop⟩ := burst_run F hF t s [] cs (c ++ rest) (m + 2) hb
    (by simp) hcs hne (by omega) hu1
  obtain ⟨s3, c1, c2, _, _, _, _, hbody⟩ := body_valid F
    { state := s2
      op := { type := t, addr := (addrAfter F s.nextAddr [] * 2) % 2 ^ 32, length := 2 * cs.length }
      result := MEMTR_SUCCESS
      packets := ([] : List (List Nat)).map F.MemPacket_FromBytes ++ cs.map F.MemPacket_FromBytes }
    c rest hF b1 b2 hlen hval
  obtain ⟨other, hno, hsw⟩ := MemTrace_NextSwitch_data F
    { state := s3
      op := { type := t, addr := (addrAfter F s.nextAddr [] * 2) % 2 ^ 32, length := 2 * cs.length }
      result := MEMTR_SUCCESS
      packets := ([] : List (List Nat)).map F.MemPacket_FromBytes ++
        cs.map F.MemPacket_FromBytes ++ [F.MemPacket_FromBytes c] }
    (F.MemPacket_FromBytes c) t hrw ht (Or.inr rfl)
  rw [hsw, MemTrace_NextData_wide _ _ _ _ _ _ hno hw] at hbody
  have hzero : ((2 * cs.length + 1) % 2 ^ 32 + 1) % 2 ^ 32 = 0 := by omega
  simp only [hzero] at hbody
  obtain ⟨v3, hv3, hl3, hb3, hu3, hp3⟩ : ∃ v3, MemTrace_NextBody F
      { state := s2
        op :=
          { type := t, addr := (addrAfter F s.nextAddr [] * 2) % 2 ^ 32, length := 2 * cs.length }
        result := MEMTR_SUCCESS
        packets := ([] : List (List Nat)).map F.MemPacket_FromBytes ++
          cs.map F.MemPacket_FromBytes } = NextStep.again v3 ∧
      v3.op.length = 0 ∧ BufOK v3.state ∧ unread v3.state = rest ∧
      v3.packets = cs.map F.MemPacket_FromBytes ++ [F.MemPacket_FromBytes c] :=
    ⟨_, hbody, rfl, c1, c2, by simp⟩
  obtain ⟨s4, _, heof⟩ := body_eof F v3 hb3 hF (by rw [hu3]; exact hrest)
  rw [if_neg (by simp [hl3])] at heof
  unfold MemTrace_Next
  rw [hm, hloop, MemTrace_NextLoop_again F _ _ _ hv3, MemTrace_NextLoop_ret F _ _ _ _ heof]
  exact ⟨rfl, rfl, hp3⟩

/-! ## The claims -/

/-- C1, as amended: when the unread stream starts with an ADDRESS packet with
payload `a` (with `2 a` inside the range of the `uint32_t` byte address), then `k >= 1`
valid packets `cs` of one type `t` (READ or WRITE) with both byte lanes set,
then an ADDRESS packet, and `2 k <= MEM_SIZE_BYTES`, `MemTrace_Next` returns
`MEMTR_SUCCESS` with the operation `{type = t, addr = 2 a, length = 2 k}`, and
afterwards the shadow memory holds the low byte of word `i` at
`(2 a + 2 i) mod M` and its high byte at `(2 a + 2 i + 1) mod M`. -/
theorem C1_word_burst_after_address (F : MemPacketFmt) (s : MemTraceState)
    (nextOp : Option MemOp) (t : MemOpType) (a : Nat) (cA : List Nat) (cs : List (List Nat))
    (cE rest : List Nat) (hF : FmtOK F) (hb : BufOK s)
    (hA : isAddrPacket F cA = true)
    (ha : F.MemPacket_GetPayload (F.MemPacket_FromBytes cA) = a) (ha2 : 2 * a < 2 ^ 32)
    (hcs : ∀ c ∈ cs, isWordPacket F t c = true) (hne : cs ≠ [])
    (hk : 2 * cs.length ≤ MEM_SIZE_BYTES) (hE : isAddrPacket F cE = true)
    (hu : unread s = cA ++ cs.flatten ++ cE ++ rest) :
    (MemTrace_Next F s nextOp).status = NextStatus.returned MEMTR_SUCCESS ∧
    (MemTrace_Next F s nextOp).nextOp =
      nextOp.map (fun _ => { type := t, addr := 2 * a, length := 2 * cs.length }) ∧
    ∀ (i : Nat) (h : i < cs.length),
      (MemTrace_Next F s nextOp).state.memory ((2 * a + 2 * i) % MEM_SIZE_BYTES) =
        wordOf F cs[i] % 256 ∧
      (MemTrace_Next F s nextOp).state.memory ((2 * a + 2 * i + 1) % MEM_SIZE_BYTES) =
        wordOf F cs[i] / 256 := by
  have hu1 : unread s = [cA].flatten ++ cs.flatten ++ (cE ++ rest) := by
    rw [hu]; simp [List.append_assoc]
  have haddr : (addrAfter F s.nextAddr [cA] * 2) % 2 ^ 32 = 2 * a := by
    simp only [addrAfter, List.foldl_cons, List.foldl_nil, ha]
    omega
  obtain ⟨h1, h2, h3, _, _⟩ := burst_then_addr F hF t s nextOp [cA] cs cE rest hb
    (by simpa using hA) hcs hne (by simp only [MEM_SIZE_BYTES] at hk; omega) hE hu1
  rw [haddr] at h2 h3
  refine ⟨h1, h2, ?_⟩
  intro i hi
  rw [h3]
  have := storeWords_get (2 * a) (cs.map (wordOf F)) s.memory 0 (by simpa using hk) i
    (by simpa using hi)
  simpa using this

/-- C1 fails as stated: for the word address `a = 2^31`, after ADDRESS(2^31),
two word-wide WRITE packets and an ADDRESS packet, the operation returned has
`addr` 0 and not `2 a`, because `op->addr = state->nextAddr << 1` is 32-bit
arithmetic. -/
theorem C1_counterexample_address_wraps :
    isAddrPacket wideFmt (widePacket 0x80 2147483648) = true ∧
    wideFmt.MemPacket_GetPayload (wideFmt.MemPacket_FromBytes (widePacket 0x80 2147483648)) =
      2147483648 ∧
    (∀ c ∈ [widePacket 0xAC 0x1234, widePacket 0xAC 0x5678],
      isWordPacket wideFmt MEMOP_WRITE c = true) ∧
    isAddrPacket wideFmt (widePacket 0x80 0x102) = true ∧
    unread traceAddrWraps =
      widePacket 0x80 2147483648 ++ [widePacket 0xAC 0x1234, widePacket 0xAC 0x5678].flatten ++
        widePacket 0x80 0x102 ++ [] ∧
    (MemTrace_Next wideFmt traceAddrWraps (some sampleOp)).status =
      NextStatus.returned MEMTR_SUCCESS ∧
    (MemTrace_Next wideFmt traceAddrWraps (some sampleOp)).nextOp =
      some { type := MEMOP_WRITE, addr := 0, length := 4 } ∧
    (MemTrace_Next wideFmt traceAddrWraps (some sampleOp)).nextOp ≠
      some { type := MEMOP_WRITE, addr := 2 * 2147483648, length := 2 * 2 } := by
  decide

/-- The scenario of the spec, through C1: ADDRESS(0x100), WRITE(0x1234),
WRITE(0x5678), ADDRESS(0x102) gives one WRITE at 0x200 of length 4 and the
bytes 0x34, 0x12, 0x78, 0x56 at 0x200..0x203. -/
theorem C1_witness_write_burst :
    (MemTrace_Next sampleFmt traceWriteBurst (some sampleOp)).status =
      NextStatus.returned MEMTR_SUCCESS ∧
    (MemTrace_Next sampleFmt traceWriteBurst (some sampleOp)).nextOp =
      some { type := MEMOP_WRITE, addr := 0x200, length := 4 } ∧
    (MemTrace_Next sampleFmt traceWriteBurst (some sampleOp)).state.memory 0x200 = 0x34 ∧
    (MemTrace_Next sampleFmt traceWriteBurst (some sampleOp)).state.memory 0x201 = 0x12 ∧
    (MemTrace_Next sampleFmt traceWriteBurst (some sampleOp)).state.memory 0x202 = 0x78 ∧
    (MemTrace_Next sampleFmt traceWriteBurst (some sampleOp)).state.memory 0x203 = 0x56 := by
  have h := C1_word_burst_after_address sampleFmt traceWriteBurst (some sampleOp) MEMOP_WRITE
    0x100 (sampleAddr 0x100) [sampleWrite 0x1234, sampleWrite 0x5678] (sampleAddr 0x102) []
    (by decide) (by decide) (by decide) (by decide) (by decide) (by decide) (by decide)
    (by decide) (by decide) (by decide)
  exact ⟨h.1, h.2.1, (h.2.2 0 (by decide)).1.trans (by decide),
    (h.2.2 0 (by decide)).2.trans (by decide), (h.2.2 1 (by decide)).1.trans (by decide),
    (h.2.2 1 (by decide)).2.trans (by decide)⟩

/-- C3, as amended: for a predicted word address `n < 2^23` (so that the
byte addresses `2 n` and `2 n + 1` are inside the shadow memory) and a 16-bit
word `w`, on the first packet of a burst (`op.length = 0`): with only the
lower lane enabled `MemTraceData` stores `w & 0xFF` at byte address `2 n` and
sets `addr = 2 n`, `length = 1`; with only the upper lane enabled it stores
`w >> 8` at `2 n + 1` and sets `addr = 2 n + 1`, `length = 1`; in both cases it
returns true (the burst is finished) and leaves `*result` as it was. -/
theorem C3_byte_access_lanes (F : MemPacketFmt) (state : MemTraceState) (op : MemOp)
    (packet : MemPacket) (result : MemTraceResult) (n w : Nat)
    (hn : state.nextAddr = n) (hn23 : n < 2 ^ 23)
    (hw : F.MemPacket_RW_Word packet = w) (hw16 : w < 2 ^ 16) (hfirst : op.length = 0) :
    (F.MemPacket_RW_LowerByte packet = true → F.MemPacket_RW_UpperByte packet = false →
      (MemTraceData F state op packet result).1 = true ∧
      (MemTraceData F state op packet result).2.1.memory (2 * n) = w % 256 ∧
      (MemTraceData F state op packet result).2.2.1.addr = 2 * n ∧
      (MemTraceData F state op packet result).2.2.1.length = 1 ∧
      (MemTraceData F state op packet result).2.2.2 = result) ∧
    (F.MemPacket_RW_UpperByte packet = true → F.MemPacket_RW_LowerByte packet = false →
      (MemTraceData F state op packet result).1 = true ∧
      (MemTraceData F state op packet result).2.1.memory (2 * n + 1) = w / 256 ∧
      (MemTraceData F state op packet result).2.2.1.addr = 2 * n + 1 ∧
      (MemTraceData F state op packet result).2.2.1.length = 1 ∧
      (MemTraceData F state op packet result).2.2.2 = result) := by
  have e1 : (n * 2) % 4294967296 = 2 * n := by omega
  have e2 : (2 * n + 1) % 4294967296 = 2 * n + 1 := by omega
  have e3 : w % 65536 = w := Nat.mod_eq_of_lt hw16
  have e4 : (2 * n) % 4294967296 = 2 * n := by omega
  have e5 : (n * 2 + 1) % 4294967296 = 2 * n + 1 := by omega
  constructor
  · intro hlb hub
    unfold MemTraceData
    simp [hlb, hub, hfirst, hn, hw, e1, e3, e4, store]
  · intro hub hlb
    unfold MemTraceData
    simp [hlb, hub, hfirst, hn, hw, e1, e2, e3, e4, e5, store]

/-- C3 fails as stated: with the predicted word address `n = 2^31` and only
the lower lane enabled, `MemTraceData` sets `addr` to 0, not to `2 n`, and
the byte `w & 0xFF = 0xEF` goes to index 0, not to `2 n`.  With `n = 2^23` the
byte goes to index `2 n = MEM_SIZE_BYTES`, which is no index of the shadow
memory. -/
theorem C3_counterexample_high_address :
    stateHighAddr.nextAddr = 2147483648 ∧
    (MemTraceData sampleFmt stateHighAddr { type := MEMOP_WRITE, addr := 0, length := 0 }
      (sampleFmt.MemPacket_FromBytes (sampleWriteLower 0xBEEF)) MEMTR_SUCCESS).2.2.1.addr = 0 ∧
    (MemTraceData sampleFmt stateHighAddr { type := MEMOP_WRITE, addr := 0, length := 0 }
      (sampleFmt.MemPacket_FromBytes (sampleWriteLower 0xBEEF)) MEMTR_SUCCESS).2.2.1.addr ≠
        2 * 2147483648 ∧
    (MemTraceData sampleFmt stateHighAddr { type := MEMOP_WRITE, addr := 0, length := 0 }
      (sampleFmt.MemPacket_FromBytes (sampleWriteLower 0xBEEF)) MEMTR_SUCCESS).2.1.memory 0 =
        0xEF ∧
    (MemTraceData sampleFmt stateHighAddr { type := MEMOP_WRITE, addr := 0, length := 0 }
      (sampleFmt.MemPacket_FromBytes (sampleWriteLower 0xBEEF)) MEMTR_SUCCESS).2.1.memory
        (2 * 2147483648) ≠ 0xEF ∧
    stateTopAddr.nextAddr = 8388608 ∧
    (MemTraceData sampleFmt stateTopAddr { type := MEMOP_WRITE, addr := 0, length := 0 }
      (sampleFmt.MemPacket_FromBytes (sampleWriteLower 0xBEEF)) MEMTR_SUCCESS).2.1.memory
        MEM_SIZE_BYTES = 0xEF ∧
    ¬ (2 * 8388608 < MEM_SIZE_BYTES) := by
  decide

/-- C3, as amended, at `n = 0x100` with the word 0xBEEF: the lower lane
stores 0xEF at 0x200, the upper lane stores 0xBE at 0x201. -/
theorem C3_witness_beef :
    ((MemTraceData sampleFmt stateAddr100 sampleOp
        (sampleFmt.MemPacket_FromBytes (sampleWriteLower 0xBEEF)) MEMTR_SUCCESS).1 = true ∧
      (MemTraceData sampleFmt stateAddr100 sampleOp
        (sampleFmt.MemPacket_FromBytes (sampleWriteLower 0xBEEF)) MEMTR_SUCCESS).2.1.memory
          0x200 = 0xEF ∧
      (MemTraceData sampleFmt stateAddr100 sampleOp
        (sampleFmt.MemPacket_FromBytes (sampleWriteLower 0xBEEF)) MEMTR_SUCCESS).2.2.1.addr =
          0x200 ∧
      (MemTraceData sampleFmt stateAddr100 sampleOp
        (sampleFmt.MemPacket_FromBytes (sampleWriteLower 0xBEEF)) MEMTR_SUCCESS).2.2.1.length = 1 ∧
      (MemTraceData sampleFmt stateAddr100 sampleOp
        (sampleFmt.MemPacket_FromBytes (sampleWriteLower 0xBEEF)) MEMTR_SUCCESS).2.2.2 =
          MEMTR_SUCCESS) ∧
    ((MemTraceData sampleFmt stateAddr100 sampleOp
        (sampleFmt.MemPacket_FromBytes (sampleWriteUpper 0xBEEF)) MEMTR_SUCCESS).1 = true ∧
      (MemTraceData sampleFmt stateAddr100 sampleOp
        (sampleFmt.MemPacket_FromBytes (sampleWriteUpper 0xBEEF)) MEMTR_SUCCESS).2.1.memory
          0x201 = 0xBE ∧
      (MemTraceData sampleFmt stateAddr100 sampleOp
        (sampleFmt.MemPacket_FromBytes (sampleWriteUpper 0xBEEF)) MEMTR_SUCCESS).2.2.1.addr =
          0x201 ∧
      (MemTraceData sampleFmt stateAddr100 sampleOp
        (sampleFmt.MemPacket_FromBytes (sampleWriteUpper 0xBEEF)) MEMTR_SUCCESS).2.2.1.length = 1 ∧
      (MemTraceData sampleFmt stateAddr100 sampleOp
        (sampleFmt.MemPacket_FromBytes (sampleWriteUpper 0xBEEF)) MEMTR_SUCCESS).2.2.2 =
          MEMTR_SUCCESS) :=
  ⟨(C3_byte_access_lanes sampleFmt stateAddr100 sampleOp
      (sampleFmt.MemPacket_FromBytes (sampleWriteLower 0xBEEF)) MEMTR_SUCCESS 0x100 0xBEEF
      (by decide) (by decide) (by decide) (by decide) (by decide)).1 (by decide) (by decide),
   (C3_byte_access_lanes sampleFmt stateAddr100 sampleOp
      (sampleFmt.MemPacket_FromBytes (sampleWriteUpper 0xBEEF)) MEMTR_SUCCESS 0x100 0xBEEF
      (by decide) (by decide) (by decide) (by decide) (by decide)).2 (by decide) (by decide)⟩

/-- C4, as amended: when a call of `MemTrace_Next` reads an aligned packet
whose checksum is wrong, that packet is the last one the call reads and the
call returns `MEMTR_ERR_CHECKSUM`; the shadow memory after the call is the
memory before it when none of the packets read before the bad one in this
call is a READ or WRITE packet. -/
theorem C4_checksum_error (F : MemPacketFmt) (s : MemTraceState) (nextOp : Option MemOp)
    (p : MemPacket) (hp : p ∈ (MemTrace_Next F s nextOp).packets)
    (hal : F.MemPacket_IsAligned p = true) (hck : F.MemPacket_IsChecksumCorrect p = false) :
    (MemTrace_Next F s nextOp).status = NextStatus.returned MEMTR_ERR_CHECKSUM ∧
    ∃ pre, (MemTrace_Next F s nextOp).packets = pre ++ [p] ∧
      ((∀ q ∈ pre, isRW F q = false) → (MemTrace_Next F s nextOp).state.memory = s.memory) := by
  have hinv : isValid F p = false := isValid_false_of_checksum hck
  rcases MemTrace_Next_cases F s nextOp with ⟨v, hi, hn⟩ | ⟨v, st, hi, hex, hn⟩
  · rw [hn] at hp
    have := hi.valid p hp
    rw [hinv] at this
    exact absurd this (by simp)
  · rw [hn, MemTrace_NextEnd_packets] at hp
    rw [hn, MemTrace_NextEnd_packets, MemTrace_NextEnd_state]
    have hold : p ∉ v.packets := fun h => by
      have := hi.valid p h
      rw [hinv] at this
      exact absurd this (by simp)
    cases hex with
    | assertFirst => exact absurd hp hold
    | eof s1 _ _ => exact absurd hp hold
    | flush s1 _ _ => exact absurd hp hold
    | misaligned s1 p0 st hm hal0 hst =>
      have hpk : st.vars.packets = v.packets ++ [p0] := by
        rcases hst with h | h | h <;> rw [h] <;> rfl
      rw [hpk, List.mem_append, List.mem_singleton] at hp
      rcases hp with hp | rfl
      · exact absurd hp hold
      · rw [hal] at hal0; exact absurd hal0 (by simp)
    | checksum s1 p0 hm hal0 hck0 =>
      simp only [NextStep.vars, List.mem_append, List.mem_singleton] at hp
      rcases hp with hp | rfl
      · exact absurd hp hold
      · exact ⟨rfl, v.packets, rfl, fun hall => by
          simp only [NextStep.vars]; rw [hm]; exact (hi.fresh hall).2⟩
    | addr s1 p0 hm hval hty hl =>
      simp only [NextStep.vars, List.mem_append, List.mem_singleton] at hp
      rcases hp with hp | rfl
      · exact absurd hp hold
      · rw [hinv] at hval; exact absurd hval (by simp)
    | mismatch s1 p0 hm hval hrw h1 h2 =>
      simp only [NextStep.vars, List.mem_append, List.mem_singleton] at hp
      rcases hp with hp | rfl
      · exact absurd hp hold
      · rw [hinv] at hval; exact absurd hval (by simp)
    | byteLater s1 p0 hm hval hrw hw hl hc =>
      simp only [NextStep.vars, List.mem_append, List.mem_singleton] at hp
      rcases hp with hp | rfl
      · exact absurd hp hold
      · rw [hinv] at hval; exact absurd hval (by simp)
    | byteFirst s1 p0 addr hval hrw hw hl hc =>
      simp only [NextStep.vars, List.mem_append, List.mem_singleton] at hp
      rcases hp with hp | rfl
      · exact absurd hp hold
      · rw [hinv] at hval; exact absurd hval (by simp)

/-- C4 fails as stated: a call that merges a WRITE packet and then reads a
packet with a wrong checksum returns `MEMTR_ERR_CHECKSUM` with the shadow
memory changed by the WRITE packet. -/
theorem C4_counterexample_memory_changed :
    (MemTrace_Next sampleFmt traceWriteThenBad (some sampleOp)).status =
      NextStatus.returned MEMTR_ERR_CHECKSUM ∧
    traceWriteThenBad.memory 0 = 0 ∧
    (MemTrace_Next sampleFmt traceWriteThenBad (some sampleOp)).state.memory 0 = 0x34 ∧
    (MemTrace_Next sampleFmt traceWriteThenBad (some sampleOp)).state.memory ≠
      traceWriteThenBad.memory := by
  refine ⟨by decide, by decide, by decide, fun h => ?_⟩
  have h1 : (MemTrace_Next sampleFmt traceWriteThenBad (some sampleOp)).state.memory 0 = 0x34 := by
    decide
  rw [h] at h1
  exact absurd h1 (by decide)

/-- C4, as amended, on an ADDRESS packet followed by a packet with a wrong
checksum. -/
theorem C4_witness_addr_then_bad :
    (MemTrace_Next sampleFmt traceAddrThenBad (some sampleOp)).status =
      NextStatus.returned MEMTR_ERR_CHECKSUM ∧
    ∃ pre, (MemTrace_Next sampleFmt traceAddrThenBad (some sampleOp)).packets =
        pre ++ [sampleFmt.MemPacket_FromBytes sampleBadChecksum] ∧
      ((∀ q ∈ pre, isRW sampleFmt q = false) →
        (MemTrace_Next sampleFmt traceAddrThenBad (some sampleOp)).state.memory =
          traceAddrThenBad.memory) :=
  C4_checksum_error sampleFmt traceAddrThenBad (some sampleOp)
    (sampleFmt.MemPacket_FromBytes sampleBadChecksum) (by decide) (by decide) (by decide)

/-- C5, as amended: when the unread stream holds (after ADDRESS packets
`pre`, if any, which leave the predicted word address `n`) `k >= 1` valid READ
or WRITE packets `cs` of one type that the call merges into a burst (word
accesses, `width = 2` and `k < 2^31`; or one byte access, `width = 1`, with
`n < 2^23` so that its byte lies inside the shadow memory) and then ends with
fewer bytes than one packet, the call of `MemTrace_Next` returns
`MEMTR_SUCCESS` with the partial burst as its operation (`k * width` bytes at
the byte address `2 n` modulo 2^32, for a byte access of the upper lane one
more), and the next call returns `MEMTR_EOF`. -/
theorem C5_truncated_burst_flushed_once (F : MemPacketFmt) (s : MemTraceState)
    (nextOp nextOp2 : Option MemOp) (t : MemOpType) (width : Nat) (pre cs : List (List Nat))
    (rest : List Nat) (hF : FmtOK F) (hb : BufOK s)
    (hpre : ∀ c ∈ pre, isAddrPacket F c = true) (hne : cs ≠ [])
    (hcs :
      (width = 2 ∧ (∀ c ∈ cs, isWordPacket F t c = true) ∧ 2 * cs.length < 2 ^ 32) ∨
      (width = 1 ∧ (∀ c ∈ cs, isBytePacket F t c = true) ∧ cs.length = 1 ∧
        addrAfter F s.nextAddr pre < 8388608))
    (hrest : rest.length < F.sizeofPacket)
    (hu : unread s = pre.flatten ++ cs.flatten ++ rest) :
    (MemTrace_Next F s nextOp).status = NextStatus.returned MEMTR_SUCCESS ∧
    (∃ addr, (MemTrace_Next F s nextOp).nextOp =
        nextOp.map (fun _ => { type := t, addr := addr, length := cs.length * width }) ∧
      ((width = 2 ∧ addr = (addrAfter F s.nextAddr pre * 2) % 2 ^ 32) ∨
        (width = 1 ∧ addr < MEM_SIZE_BYTES ∧
          ∀ c ∈ cs, addr =
            if F.MemPacket_RW_LowerByte (F.MemPacket_FromBytes c) = true then
              2 * addrAfter F s.nextAddr pre
            else 2 * addrAfter F s.nextAddr pre + 1))) ∧
    (MemTrace_Next F (MemTrace_Next F s nextOp).state nextOp2).status =
      NextStatus.returned MEMTR_EOF := by
  rcases hcs with ⟨hw, hcs, hk⟩ | ⟨hw, hcs, h1, hin⟩
  · subst hw
    obtain ⟨h1, h2, _, h4, h5⟩ := burst_then_eof F hF t s nextOp pre cs rest hb hpre hcs hne hk
      hrest hu
    obtain ⟨s1, _, h6⟩ := MemTrace_Next_eof F hF _ nextOp2 h4 (by rw [h5]; exact hrest)
    exact ⟨h1, ⟨_, by rw [h2, Nat.mul_comm 2 cs.length], Or.inl ⟨rfl, rfl⟩⟩, by rw [h6]⟩
  · subst hw
    obtain ⟨c, rfl⟩ := List.length_eq_one.mp h1
    obtain ⟨h2, h3, h4, h5⟩ := burst_byte_addr F hF t s nextOp pre c rest hb hpre
      (hcs c (List.mem_singleton.mpr rfl)) (by rw [hu]; simp)
    obtain ⟨s1, _, h6⟩ := MemTrace_Next_eof F hF _ nextOp2 h4 (by rw [h5]; exact hrest)
    refine ⟨h2, ⟨_, by rw [h3]; rfl, Or.inr ⟨rfl, ?_, ?_⟩⟩, by rw [h6]⟩
    · simp only [MEM_SIZE_BYTES]
      split_ifs <;> omega
    · intro c1 hc1
      rw [List.mem_singleton.mp hc1]
      split_ifs <;> omega

/-- C5 fails as stated: on a stream of 2^31 word-wide WRITE packets and
nothing else, the call merges all of them, the `uint32_t` length of the burst
wraps to 0 on the last one, and at the end of the stream the call returns
`MEMTR_EOF` where the claim has `MEMTR_SUCCESS` with the burst; `*nextOp` is
left as it was. -/
theorem C5_counterexample_length_wraps :
    (∀ c ∈ List.replicate 2147483648 (sampleWrite 0x1234),
      isWordPacket sampleFmt MEMOP_WRITE c = true) ∧
    unread (traceLongBurst 2147483648) =
      (List.replicate 2147483648 (sampleWrite 0x1234)).flatten ∧
    (MemTrace_Next sampleFmt (traceLongBurst 2147483648) (some sampleOp)).packets =
      List.replicate 2147483648 (sampleFmt.MemPacket_FromBytes (sampleWrite 0x1234)) ∧
    (MemTrace_Next sampleFmt (traceLongBurst 2147483648) (some sampleOp)).status =
      NextStatus.returned MEMTR_EOF ∧
    (MemTrace_Next sampleFmt (traceLongBurst 2147483648) (some sampleOp)).status ≠
      NextStatus.returned MEMTR_SUCCESS ∧
    (MemTrace_Next sampleFmt (traceLongBurst 2147483648) (some sampleOp)).nextOp =
      some sampleOp := by
  have hall : ∀ (n : Nat), ∀ c ∈ List.replicate n (sampleWrite 0x1234),
      isWordPacket sampleFmt MEMOP_WRITE c = true := by
    intro n c hc
    rw [List.eq_of_mem_replicate hc]
    decide
  have hsplit : ∀ n : Nat, (List.replicate (n + 1) (sampleWrite 0x1234)).flatten =
      (List.replicate n (sampleWrite 0x1234)).flatten ++ (sampleWrite 0x1234 ++ []) := by
    intro n
    rw [List.replicate_succ', List.flatten_append]
    simp
  have hun : ∀ n : Nat, unread (traceLongBurst n) =
      (List.replicate n (sampleWrite 0x1234)).flatten := by
    intro n
    simp [traceLongBurst, unread, MemTrace_Open, arraySlice]
  have hmap : ∀ n : Nat,
      (List.replicate n (sampleWrite 0x1234)).map sampleFmt.MemPacket_FromBytes ++
        [sampleFmt.MemPacket_FromBytes (sampleWrite 0x1234)] =
      List.replicate (n + 1) (sampleFmt.MemPacket_FromBytes (sampleWrite 0x1234)) := by
    intro n
    rw [List.map_replicate, List.replicate_succ']
  obtain ⟨h1, h2, h3⟩ := word_burst_wraps sampleFmt (by decide) MEMOP_WRITE
    (traceLongBurst (2147483647 + 1)) (some sampleOp)
    (List.replicate 2147483647 (sampleWrite 0x1234)) (sampleWrite 0x1234) []
    ⟨Nat.le_refl _, Nat.zero_le _⟩ (hall 2147483647) (by decide)
    (fun h => absurd (congrArg List.length h) (by rw [List.length_replicate]; decide))
    (by rw [List.length_replicate]; norm_num) (by decide)
    (by rw [hun, hsplit])
  rw [hmap] at h3
  exact ⟨hall _, hun _, h3, h1, by rw [h1]; decide, h2⟩

/-- C5, as amended, on a burst of two WRITE packets after ADDRESS(0x100), cut
off inside the third packet: one `MEMTR_SUCCESS` with the four bytes at 0x200,
then `MEMTR_EOF`. -/
theorem C5_witness_truncated :
    (MemTrace_Next sampleFmt traceTruncated (some sampleOp)).status =
      NextStatus.returned MEMTR_SUCCESS ∧
    (MemTrace_Next sampleFmt traceTruncated (some sampleOp)).nextOp =
      some { type := MEMOP_WRITE, addr := 0x200, length := 4 } ∧
    (MemTrace_Next sampleFmt
      (MemTrace_Next sampleFmt traceTruncated (some sampleOp)).state (some sampleOp)).status =
      NextStatus.returned MEMTR_EOF := by
  obtain ⟨h1, ⟨addr, h2, h3⟩, h4⟩ := C5_truncated_burst_flushed_once sampleFmt traceTruncated
    (some sampleOp) (some sampleOp) MEMOP_WRITE 2 [sampleAddr 0x100]
    [sampleWrite 0x1234, sampleWrite 0x5678] [0xAC, 0x12]
    (by decide) (by decide) (by decide) (by decide)
    (Or.inl ⟨rfl, by decide, by decide⟩) (by decide) (by decide)
  rcases h3 with ⟨_, h3⟩ | ⟨h3, _⟩
  · subst h3
    exact ⟨h1, h2.trans (by decide), h4⟩
  · exact absurd h3 (by decide)

/-- C6: when fewer bytes than one packet are unread at the start of the call
(as on a freshly opened session over an empty stream), `MemTrace_Next` returns
`MEMTR_EOF` without reading a packet, and the clock, `fileOffset`, the
predicted next address, the shadow memory and `*nextOp` are unchanged. -/
theorem C6_eof_when_no_packet_left (F : MemPacketFmt) (s : MemTraceState)
    (nextOp : Option MemOp) (hF : FmtOK F) (hb : BufOK s)
    (h : unreadCount s < F.sizeofPacket) :
    (MemTrace_Next F s nextOp).status = NextStatus.returned MEMTR_EOF ∧
    (MemTrace_Next F s nextOp).state.clocks = s.clocks ∧
    (MemTrace_Next F s nextOp).state.fileOffset = s.fileOffset ∧
    (MemTrace_Next F s nextOp).state.nextAddr = s.nextAddr ∧
    (MemTrace_Next F s nextOp).state.memory = s.memory ∧
    (MemTrace_Next F s nextOp).nextOp = nextOp ∧
    (MemTrace_Next F s nextOp).packets = [] := by
  obtain ⟨s1, ⟨_, _, a3, a4, a5, a6⟩, hn⟩ := MemTrace_Next_eof F hF s nextOp hb
    (by rw [← unreadCount_eq]; exact h)
  rw [hn]
  exact ⟨rfl, a4, a3, a6, a5, rfl, rfl⟩

/-- C6 on a freshly opened session over an empty stream. -/
theorem C6_witness_empty_stream :
    (MemTrace_Next sampleFmt (MemTrace_Open []) (some sampleOp)).status =
      NextStatus.returned MEMTR_EOF ∧
    (MemTrace_Next sampleFmt (MemTrace_Open []) (some sampleOp)).state.clocks =
      (MemTrace_Open []).clocks ∧
    (MemTrace_Next sampleFmt (MemTrace_Open []) (some sampleOp)).state.fileOffset =
      (MemTrace_Open []).fileOffset ∧
    (MemTrace_Next sampleFmt (MemTrace_Open []) (some sampleOp)).state.nextAddr =
      (MemTrace_Open []).nextAddr ∧
    (MemTrace_Next sampleFmt (MemTrace_Open []) (some sampleOp)).state.memory =
      (MemTrace_Open []).memory ∧
    (MemTrace_Next sampleFmt (MemTrace_Open []) (some sampleOp)).nextOp = some sampleOp ∧
    (MemTrace_Next sampleFmt (MemTrace_Open []) (some sampleOp)).packets = [] :=
  C6_eof_when_no_packet_left sampleFmt (MemTrace_Open []) (some sampleOp) (by decide) (by decide)
    (by decide)

/-- C7, as amended: when a call of `MemTrace_Next` (buffer indices in bounds)
reads a packet `p` that is not aligned, `p` is the last packet the call reads
and all packets before it were aligned.  When at least one byte follows `p`
in the stream, the call takes exactly one more byte and returns
`MEMTR_ERR_SYNC`, with `fileOffset` one byte past the end of `p`; when `p`
ends the stream, the call takes nothing more and returns `MEMTR_EOF`. -/
theorem C7_misaligned_packet (F : MemPacketFmt) (s : MemTraceState) (nextOp : Option MemOp)
    (p : MemPacket) (hF : FmtOK F) (hb : BufOK s)
    (hp : p ∈ (MemTrace_Next F s nextOp).packets) (hal : F.MemPacket_IsAligned p = false) :
    ∃ pre, (MemTrace_Next F s nextOp).packets = pre ++ [p] ∧
      (∀ q ∈ pre, F.MemPacket_IsAligned q = true) ∧
      F.sizeofPacket * (pre.length + 1) ≤ (unread s).length ∧
      (F.sizeofPacket * (pre.length + 1) < (unread s).length →
        (MemTrace_Next F s nextOp).status = NextStatus.returned MEMTR_ERR_SYNC ∧
        unread (MemTrace_Next F s nextOp).state =
          (unread s).drop (F.sizeofPacket * (pre.length + 1) + 1) ∧
        (MemTrace_Next F s nextOp).state.fileOffset =
          (s.fileOffset + F.sizeofPacket * (pre.length + 1) + 1) % 2 ^ 64) ∧
      (F.sizeofPacket * (pre.length + 1) = (unread s).length →
        (MemTrace_Next F s nextOp).status = NextStatus.returned MEMTR_EOF ∧
        unread (MemTrace_Next F s nextOp).state = [] ∧
        (MemTrace_Next F s nextOp).state.fileOffset =
          (s.fileOffset + F.sizeofPacket * (pre.length + 1)) % 2 ^ 64) := by
  have hinv : isValid F p = false := isValid_false_of_misaligned hal
  rcases MemTrace_Next_cases_stream F hF s hb nextOp with ⟨v, hi, _, hn⟩ | ⟨v, hi, hs, hne, hn⟩
  · rw [hn] at hp
    have := hi.valid p hp
    rw [hinv] at this
    exact absurd this (by simp)
  · rw [hn, MemTrace_NextEnd_packets] at hp
    rw [hn, MemTrace_NextEnd_packets, MemTrace_NextEnd_state]
    have hold : p ∉ v.packets := fun h => by
      have := hi.valid p h
      rw [hinv] at this
      exact absurd this (by simp)
    have hpre : ∀ q ∈ v.packets, F.MemPacket_IsAligned q = true := fun q hq => by
      have := hi.valid q hq
      simp only [isValid, Bool.and_eq_true] at this
      exact this.1
    have hlen : (unread v.state).length =
        (unread s).length - F.sizeofPacket * v.packets.length := by
      rw [hs.unread, List.length_drop]
    have htaken := hs.taken
    have hoff := hs.offset
    have hmul : F.sizeofPacket * (v.packets.length + 1) =
        F.sizeofPacket * v.packets.length + F.sizeofPacket := Nat.mul_succ _ _
    by_cases hlt : (unread v.state).length < F.sizeofPacket
    · obtain ⟨s1, _, hbody⟩ := body_eof F v hs.bufOK hF hlt
      rw [hbody] at hp
      split_ifs at hp <;> exact absurd hp hold
    · by_cases ha : F.MemPacket_IsAligned
          (F.MemPacket_FromBytes ((unread v.state).take F.sizeofPacket)) = true
      · obtain ⟨s1, _, hbody⟩ := body_aligned F v hs.bufOK hF (by omega) ha
        rw [hbody] at hp
        split_ifs at hp
        · simp only [NextStep.vars, List.mem_append, List.mem_singleton] at hp
          rcases hp with hp | rfl
          · exact absurd hp hold
          · rw [hal] at ha; exact absurd ha (by simp)
        · rw [MemTrace_NextSwitch_packets] at hp
          simp only [List.mem_append, List.mem_singleton] at hp
          rcases hp with hp | rfl
          · exact absurd hp hold
          · rw [hal] at ha; exact absurd ha (by simp)
      · simp only [Bool.not_eq_true] at ha
        by_cases hmore : F.sizeofPacket + 1 ≤ (unread v.state).length
        · obtain ⟨s2, ⟨_, a2, a3, _⟩, hbody⟩ := body_sync F v hs.bufOK hF hmore ha
          rw [hbody] at hp ⊢
          simp only [NextStep.vars, List.mem_append, List.mem_singleton] at hp
          rcases hp with hp | rfl
          · exact absurd hp hold
          · refine ⟨v.packets, rfl, hpre, by omega, fun _ => ⟨rfl, ?_, ?_⟩, fun h => by omega⟩
            · simp only [NextStep.vars]
              rw [a2, hs.unread, List.drop_drop, hmul]
              congr 1
            · simp only [NextStep.vars]
              rw [a3, hmul]; omega
        · obtain ⟨s2, ⟨_, a2, a3, _⟩, hbody⟩ := body_sync_eof F v hs.bufOK hF (by omega) ha
          rw [hbody] at hp ⊢
          simp only [NextStep.vars, List.mem_append, List.mem_singleton] at hp
          rcases hp with hp | rfl
          · exact absurd hp hold
          · refine ⟨v.packets, rfl, hpre, by omega, fun h => by omega, fun _ => ⟨rfl, ?_, ?_⟩⟩
            · simp only [NextStep.vars]
              rw [a2, hs.unread, List.drop_drop]
              apply List.drop_eq_nil_of_le
              omega
            · simp only [NextStep.vars]
              rw [a3, hmul]; omega

/-- C7 fails as stated: when the misaligned packet ends the stream, the call
returns `MEMTR_EOF`, not `MEMTR_ERR_SYNC`, and `fileOffset` is at the end of
the packet (4), not one byte past it. -/
theorem C7_counterexample_misaligned_at_end :
    (MemTrace_Next sampleFmt traceMisalignedOnly (some sampleOp)).packets =
      [sampleFmt.MemPacket_FromBytes sampleMisaligned] ∧
    sampleFmt.MemPacket_IsAligned (sampleFmt.MemPacket_FromBytes sampleMisaligned) = false ∧
    (MemTrace_Next sampleFmt traceMisalignedOnly (some sampleOp)).status =
      NextStatus.returned MEMTR_EOF ∧
    (MemTrace_Next sampleFmt traceMisalignedOnly (some sampleOp)).status ≠
      NextStatus.returned MEMTR_ERR_SYNC ∧
    (MemTrace_Next sampleFmt traceMisalignedOnly (some sampleOp)).state.fileOffset = 4 := by
  decide

/-- C7, as amended, on a misaligned packet followed by more bytes: the call
returns `MEMTR_ERR_SYNC` and `fileOffset` is 5, one byte past the packet. -/
theorem C7_witness_misaligned_then_more :
    (MemTrace_Next sampleFmt traceMisalignedThenAddr (some sampleOp)).status =
      NextStatus.returned MEMTR_ERR_SYNC ∧
    (MemTrace_Next sampleFmt traceMisalignedThenAddr (some sampleOp)).state.fileOffset = 5 := by
  obtain ⟨pre, hpk, _, _, hsync, _⟩ := C7_misaligned_packet sampleFmt traceMisalignedThenAddr
    (some sampleOp) (sampleFmt.MemPacket_FromBytes sampleMisaligned) (by decide) (by decide)
    (by decide) (by decide)
  have hpk2 : (MemTrace_Next sampleFmt traceMisalignedThenAddr (some sampleOp)).packets =
      [] ++ [sampleFmt.MemPacket_FromBytes sampleMisaligned] := by decide
  have hpre : pre = [] := List.append_inj_left' (hpk.symm.trans hpk2) rfl
  subst hpre
  obtain ⟨h1, _, h3⟩ := hsync (by decide)
  exact ⟨h1, h3.trans (by decide)⟩

/-- C8, on the input where the code breaks it: on a word-wide WRITE packet followed by a byte-wide
WRITE packet the call returns `MEMTR_ERR_BADBURST` and has overwritten
`*nextOp` with the partial burst. -/
theorem C8_badburst_overwrites_nextOp :
    (MemTrace_Next sampleFmt traceWordThenByte (some sampleOp)).status =
      NextStatus.returned MEMTR_ERR_BADBURST ∧
    (MemTrace_Next sampleFmt traceWordThenByte (some sampleOp)).nextOp =
      some { type := MEMOP_WRITE, addr := 0, length := 2 } ∧
    (MemTrace_Next sampleFmt traceWordThenByte (some sampleOp)).nextOp ≠ some sampleOp := by
  decide

/-- C9: within one call of `MemTrace_Next`, when the packets read include a
READ packet and a WRITE packet that both passed the alignment and checksum
tests (a READ read while a WRITE burst is accumulated, or a WRITE while a READ
burst is), the call returns `MEMTR_ERR_BADBURST`; and when the call returns
`MEMTR_SUCCESS`, every READ or WRITE packet it read has the type of the
`MemOp` written to `*nextOp`. -/
theorem C9_burst_never_mixes_read_and_write (F : MemPacketFmt) (s : MemTraceState)
    (nextOp : Option MemOp) :
    ((∃ p ∈ (MemTrace_Next F s nextOp).packets,
        isValid F p = true ∧ F.MemPacket_GetType p = MEMPKT_READ) →
      (∃ q ∈ (MemTrace_Next F s nextOp).packets,
        isValid F q = true ∧ F.MemPacket_GetType q = MEMPKT_WRITE) →
      (MemTrace_Next F s nextOp).status = NextStatus.returned MEMTR_ERR_BADBURST) ∧
    ((MemTrace_Next F s nextOp).status = NextStatus.returned MEMTR_SUCCESS →
      ∀ op, (MemTrace_Next F s nextOp).nextOp = some op → nextOp ≠ none →
        ∀ p ∈ (MemTrace_Next F s nextOp).packets, isRW F p = true →
          opTypeOf (F.MemPacket_GetType p) = op.type) := by
  rcases MemTrace_Next_cases F s nextOp with ⟨v, hi, hn⟩ | ⟨v, st, hi, hex, hn⟩
  · rw [hn]
    refine ⟨?_, fun h => absurd h (by simp [MemTrace_NextEnd])⟩
    rintro ⟨p, hp, -, hpr⟩ ⟨q, hq, -, hqw⟩
    exact (hi.no_mix hp hq hpr hqw).elim
  · rw [hn]
    constructor
    · rintro ⟨p, hp, hpv, hpr⟩ ⟨q, hq, hqv, hqw⟩
      rw [MemTrace_NextEnd_packets] at hp hq
      cases hex with
      | assertFirst => exact (hi.no_mix hp hq hpr hqw).elim
      | eof s1 _ _ => exact (hi.no_mix hp hq hpr hqw).elim
      | flush s1 _ _ => exact (hi.no_mix hp hq hpr hqw).elim
      | misaligned s1 p0 st hm hal hst =>
        have hinv := isValid_false_of_misaligned hal
        have hpk : st.vars.packets = v.packets ++ [p0] := by
          rcases hst with h | h | h <;> rw [h] <;> rfl
        rw [hpk, List.mem_append, List.mem_singleton] at hp hq
        rcases hp with hp | rfl
        · rcases hq with hq | rfl
          · exact (hi.no_mix hp hq hpr hqw).elim
          · rw [hinv] at hqv; exact absurd hqv (by simp)
        · rw [hinv] at hpv; exact absurd hpv (by simp)
      | checksum s1 p0 hm hal hck =>
        have hinv := isValid_false_of_checksum hck
        simp only [NextStep.vars, List.mem_append, List.mem_singleton] at hp hq
        rcases hp with hp | rfl
        · rcases hq with hq | rfl
          · exact (hi.no_mix hp hq hpr hqw).elim
          · rw [hinv] at hqv; exact absurd hqv (by simp)
        · rw [hinv] at hpv; exact absurd hpv (by simp)
      | addr s1 p0 hm hval hty hl =>
        simp only [NextStep.vars, List.mem_append, List.mem_singleton] at hp hq
        rcases hp with hp | rfl
        · rcases hq with hq | rfl
          · exact (hi.no_mix hp hq hpr hqw).elim
          · rw [hty] at hqw; exact absurd hqw (by simp)
        · rw [hty] at hpr; exact absurd hpr (by simp)
      | mismatch s1 p0 hm hval hrw h1 h2 => rfl
      | byteLater s1 p0 hm hval hrw hw hl hc => rfl
      | byteFirst s1 p0 addr hval hrw hw hl hc =>
        simp only [NextStep.vars, List.mem_append, List.mem_singleton] at hp hq
        rcases hp with hp | rfl
        · rcases hq with hq | rfl
          · exact (hi.no_mix hp hq hpr hqw).elim
          · have := hi.types_of_compatible hc hp (by simp [isRW, hpr])
            rw [hpr, hqw] at this
            exact absurd this (by simp [opTypeOf])
        · rcases hq with hq | hq
          · have := hi.types_of_compatible hc hq (by simp [isRW, hqw])
            rw [hpr, hqw] at this
            exact absurd this (by simp [opTypeOf])
          · rw [hq] at hqw; rw [hqw] at hpr; exact absurd hpr (by simp)
    · intro hst op hop hsome p hp hprw
      rw [MemTrace_NextEnd_packets] at hp
      obtain ⟨prev, rfl⟩ := Option.ne_none_iff_exists'.mp hsome
      cases hex with
      | assertFirst => exact absurd hst (by simp [MemTrace_NextEnd])
      | eof s1 _ _ => exact absurd hst (by simp [MemTrace_NextEnd])
      | flush s1 _ _ =>
        simp only [MemTrace_NextEnd, Option.map_some', Option.some.injEq] at hop
        rw [← hop]
        exact (hi.types p hp hprw).symm
      | misaligned s1 p0 st hm hal h =>
        rcases h with h | h | h <;> rw [h] at hst <;>
          exact absurd hst (by simp [MemTrace_NextEnd])
      | checksum s1 p0 hm hal hck => exact absurd hst (by simp [MemTrace_NextEnd])
      | addr s1 p0 hm hval hty hl =>
        simp only [MemTrace_NextEnd, Option.map_some', Option.some.injEq] at hop
        simp only [NextStep.vars, List.mem_append, List.mem_singleton] at hp
        rw [← hop]
        rcases hp with hp | rfl
        · exact (hi.types p hp hprw).symm
        · rw [isRW_false_of_addr hty] at hprw; exact absurd hprw (by simp)
      | mismatch s1 p0 hm hval hrw h1 h2 => exact absurd hst (by simp [MemTrace_NextEnd])
      | byteLater s1 p0 hm hval hrw hw hl hc => exact absurd hst (by simp [MemTrace_NextEnd])
      | byteFirst s1 p0 addr hval hrw hw hl hc =>
        simp only [MemTrace_NextEnd, Option.map_some', Option.some.injEq] at hop
        simp only [NextStep.vars, List.mem_append, List.mem_singleton] at hp
        rw [← hop]
        rcases hp with hp | rfl
        · exact hi.types_of_compatible hc hp hprw
        · rfl

/-- C9 on a word-wide WRITE packet followed by a READ packet (the call
returns `MEMTR_ERR_BADBURST`) and on the WRITE burst of the spec scenario
(every READ or WRITE packet of the call is a WRITE packet). -/
theorem C9_witness_write_then_read :
    (MemTrace_Next sampleFmt traceWriteThenRead (some sampleOp)).status =
      NextStatus.returned MEMTR_ERR_BADBURST ∧
    ∀ p ∈ (MemTrace_Next sampleFmt traceWriteBurst (some sampleOp)).packets,
      isRW sampleFmt p = true → opTypeOf (sampleFmt.MemPacket_GetType p) = MEMOP_WRITE :=
  ⟨(C9_burst_never_mixes_read_and_write sampleFmt traceWriteThenRead (some sampleOp)).1
      ⟨sampleFmt.MemPacket_FromBytes (sampleRead 0x5678), by decide, by decide, by decide⟩
      ⟨sampleFmt.MemPacket_FromBytes (sampleWrite 0x1234), by decide, by decide, by decide⟩,
    (C9_burst_never_mixes_read_and_write sampleFmt traceWriteBurst (some sampleOp)).2
      (by decide) { type := MEMOP_WRITE, addr := 0x200, length := 4 } (by decide) (by decide)⟩

/-- The word path of `MemTraceData` reduces both store indices modulo
`MEM_SIZE_BYTES`: a packet with both lanes changes no element of `memory` at
an index from `MEM_SIZE_BYTES` on. -/
theorem MemTraceData_word_in_bounds (F : MemPacketFmt) (s : MemTraceState) (op : MemOp)
    (p : MemPacket) (r : MemTraceResult) (i : Nat) (hw : isWordWide F p = true)
    (hi : MEM_SIZE_BYTES ≤ i) : (MemTraceData F s op p r).2.1.memory i = s.memory i := by
  unfold isWordWide at hw
  unfold MemTraceData
  simp only [hw, Bool.not_true, Bool.false_and, Bool.false_eq_true, if_false, store]
  have h1 : ∀ x : Nat, i ≠ x % MEM_SIZE_BYTES := fun x => by
    have := Nat.mod_lt x (show 0 < MEM_SIZE_BYTES by decide)
    omega
  rw [if_neg (h1 _), if_neg (h1 _)]

/-- C11, on the input where the code breaks it: with the predicted word
address 2^23 (reached by auto-increment after an access to the last word of
the shadow memory) a WRITE packet with only the lower lane, the first of its
burst, makes `MemTraceData` store the byte `0xEF` at index 16777216, which is
`MEM_SIZE_BYTES`: the index `op->addr + op->length` of the byte path is not
reduced, and the store is outside the array.  The `MemOp` gets the same
address. -/
theorem C11_byte_store_index_not_reduced :
    stateTopAddr.nextAddr = 8388608 ∧
    stateTopAddr.memory MEM_SIZE_BYTES = 0 ∧
    (MemTraceData sampleFmt stateTopAddr { type := MEMOP_WRITE, addr := 0, length := 0 }
      (sampleFmt.MemPacket_FromBytes (sampleWriteLower 0x00EF)) MEMTR_SUCCESS).2.1.memory
        MEM_SIZE_BYTES = 0xEF ∧
    (MemTraceData sampleFmt stateTopAddr { type := MEMOP_WRITE, addr := 0, length := 0 }
      (sampleFmt.MemPacket_FromBytes (sampleWriteLower 0x00EF)) MEMTR_SUCCESS).2.2.1 =
        { type := MEMOP_WRITE, addr := MEM_SIZE_BYTES, length := 1 } ∧
    ¬ MEM_SIZE_BYTES < MEM_SIZE_BYTES := by
  decide

/-- C12, on the input where the code breaks it: on a word-wide WRITE packet
followed by a word-wide READ packet, both aligned and with a correct checksum,
the call reads both packets and returns `MEMTR_ERR_BADBURST` from inside the
switch, before `MemTraceData` is called for the READ packet: the predicted
address has grown from 0 to 1, not to 2 as the account of the packets read
gives.  On a word-wide WRITE packet followed by a byte-wide WRITE packet,
where `MEMTR_ERR_BADBURST` comes from `MemTraceData`, it has grown to 2. -/
theorem C12_mismatch_return_skips_increment :
    traceWriteThenRead.nextAddr = 0 ∧
    (MemTrace_Next sampleFmt traceWriteThenRead (some sampleOp)).status =
      NextStatus.returned MEMTR_ERR_BADBURST ∧
    (MemTrace_Next sampleFmt traceWriteThenRead (some sampleOp)).packets =
      [sampleFmt.MemPacket_FromBytes (sampleWrite 0x1234),
       sampleFmt.MemPacket_FromBytes (sampleRead 0x5678)] ∧
    (∀ p ∈ (MemTrace_Next sampleFmt traceWriteThenRead (some sampleOp)).packets,
      isValid sampleFmt p = true ∧ isRW sampleFmt p = true) ∧
    (MemTrace_Next sampleFmt traceWriteThenRead (some sampleOp)).state.nextAddr = 1 ∧
    nextAddrCount sampleFmt traceWriteThenRead.nextAddr
      (MemTrace_Next sampleFmt traceWriteThenRead (some sampleOp)).packets = 2 ∧
    (MemTrace_Next sampleFmt traceWordThenByte (some sampleOp)).status =
      NextStatus.returned MEMTR_ERR_BADBURST ∧
    (MemTrace_Next sampleFmt traceWordThenByte (some sampleOp)).state.nextAddr = 2 := by
  decide

/-- C13: for every call of `MemTrace_Next` on a state whose clock is a 64-bit
value, the clock after the call is the clock before it plus the durations of
the packets read in the call that passed both the alignment and the checksum
test, modulo 2^64 (a packet that fails a test adds nothing); when that sum
stays below 2^64 the clock does not decrease. -/
theorem C13_clock_adds_valid_durations (F : MemPacketFmt) (s : MemTraceState)
    (nextOp : Option MemOp) (hc : s.clocks < 2 ^ 64) :
    (MemTrace_Next F s nextOp).state.clocks =
      (s.clocks + durationSum F (MemTrace_Next F s nextOp).packets) % 2 ^ 64 ∧
    (s.clocks + durationSum F (MemTrace_Next F s nextOp).packets < 2 ^ 64 →
      s.clocks ≤ (MemTrace_Next F s nextOp).state.clocks) := by
  obtain ⟨v, hv, hs, hp⟩ := call_rule F
    (fun v => v.state.clocks = (s.clocks + durationSum F v.packets) % 2 ^ 64)
    (fun v hv => clocks_step F s.clocks v hv) s nextOp
    (by simp only [MemTrace_NextInit, durationSum]; simp; omega)
  rw [hs, hp]
  refine ⟨hv, fun h => ?_⟩
  rw [hv]
  omega

/-- C13 on an ADDRESS packet of duration 1, a WRITE packet of duration 2 and
a packet of duration 3 with a wrong checksum: the clock goes from 0 to 3. -/
theorem C13_witness_durations :
    traceDurations.clocks = 0 ∧
    (MemTrace_Next sampleFmt traceDurations (some sampleOp)).packets.map
      sampleFmt.MemPacket_GetDuration = [1, 2, 3] ∧
    (MemTrace_Next sampleFmt traceDurations (some sampleOp)).state.clocks = 3 ∧
    traceDurations.clocks ≤ (MemTrace_Next sampleFmt traceDurations (some sampleOp)).state.clocks :=
  ⟨by decide, by decide,
    (C13_clock_adds_valid_durations sampleFmt traceDurations (some sampleOp) (by decide)).1.trans
      (by decide),
    (C13_clock_adds_valid_durations sampleFmt traceDurations (some sampleOp) (by decide)).2
      (by decide)⟩

/-- The guard of `MemTrace_ErrorString` catches every negative code and every
code above 5. -/
theorem MemTrace_ErrorString_unknown (c : Int) (h : c < 0 ∨ 5 < c) :
    MemTrace_ErrorString c = some "(Unknown error)" := by
  unfold MemTrace_ErrorString
  rw [if_pos]
  simpa [MemTrace_ErrorString_strings] using h

/-- C14, on the input where the code breaks it: the result code 5 passes the
guard `result > sizeof strings / sizeof strings[0]` (5 > 5 is false), and
`strings[5]` indexes the table of five strings out of range.  The codes 0 to 4
give their table strings, and the codes -1 and 6 give "(Unknown error)". -/
theorem C14_code_five_indexes_past_table :
    MemTrace_ErrorString_strings.length = 5 ∧
    MemTrace_ErrorString 5 = none ∧
    MemTrace_ErrorString (MemTraceResult.code MEMTR_SUCCESS) = some "Success" ∧
    MemTrace_ErrorString (MemTraceResult.code MEMTR_EOF) = some "End of file" ∧
    MemTrace_ErrorString (MemTraceResult.code MEMTR_ERR_SYNC) =
      some "Packet synchronization error" ∧
    MemTrace_ErrorString (MemTraceResult.code MEMTR_ERR_CHECKSUM) =
      some "Packet checksum error" ∧
    MemTrace_ErrorString (MemTraceResult.code MEMTR_ERR_BADBURST) =
      some "Malformed read/write burst" ∧
    MemTrace_ErrorString (-1) = some "(Unknown error)" ∧
    MemTrace_ErrorString 6 = some "(Unknown error)" := by
  decide
/-- C15: in a session opened on a stream shorter than 2^64 bytes, after every
sequence of calls of `MemTraceReadBuffered` with sizes of at most 65536, no
assert has failed, the bytes handed out by the successful calls, concatenated,
are the first `fileOffset` bytes of the stream, and the unread bytes are the
rest of the stream; a further call with `size` bytes left hands out the bytes
at positions `fileOffset` to `fileOffset + size` and adds `size` to
`fileOffset`, and with fewer bytes left it fails and leaves `fileOffset` and
the unread bytes as they are. -/
theorem C15_reader_hands_out_stream_in_order (stream : List Nat) (sizes : List Nat) (size : Nat)
    (hlen : stream.length < 2 ^ 64) (hsizes : ∀ n ∈ sizes, n ≤ fileBufSize)
    (hsize : size ≤ fileBufSize) :
    ∃ s1 out, readMany (MemTrace_Open stream) sizes = some (s1, out) ∧
      s1.fileOffset ≤ stream.length ∧
      out = stream.take s1.fileOffset ∧
      unread s1 = stream.drop s1.fileOffset ∧
      (size ≤ stream.length - s1.fileOffset →
        ∃ s2, MemTraceReadBuffered s1 size =
            some (true, s2, (stream.drop s1.fileOffset).take size) ∧
          s2.fileOffset = s1.fileOffset + size ∧
          unread s2 = stream.drop (s1.fileOffset + size)) ∧
      (stream.length - s1.fileOffset < size →
        ∃ s2, MemTraceReadBuffered s1 size = some (false, s2, []) ∧
          s2.fileOffset = s1.fileOffset ∧ unread s2 = unread s1) := by
  obtain ⟨s1, out, hrm, hi1, _, hout⟩ :=
    readMany_spec stream hlen sizes (MemTrace_Open stream) (ReadInv_open stream) hsizes
  obtain ⟨hok, hfail⟩ := ReadInv_step stream hlen s1 hi1 size hsize
  refine ⟨s1, out, hrm, hi1.2.1, ?_, hi1.2.2, ?_, ?_⟩
  · rw [hout]
    simp [MemTrace_Open]
  · intro h
    obtain ⟨s2, h1, h2, h3⟩ := hok h
    exact ⟨s2, h1, h2, by rw [h3.2.2, h2]⟩
  · intro h
    obtain ⟨s2, h1, h2, h3, _⟩ := hfail h
    exact ⟨s2, h1, h2, h3⟩

/-- C15 on the stream 1, 2, 3, 4, 5 and the calls of sizes 2, 4 (which fails:
three bytes are left) and 3: the bytes handed out are 1, 2 then 3, 4, 5, and
`fileOffset` ends at 5; one more call of size 1 fails. -/
theorem C15_witness_five_bytes :
    (readMany (MemTrace_Open [1, 2, 3, 4, 5]) [2, 4, 3]).map (fun r => (r.1.fileOffset, r.2)) =
      some (5, [1, 2, 3, 4, 5]) ∧
    ∃ s1 out, readMany (MemTrace_Open [1, 2, 3, 4, 5]) [2, 4, 3] = some (s1, out) ∧
      s1.fileOffset ≤ [1, 2, 3, 4, 5].length ∧
      out = [1, 2, 3, 4, 5].take s1.fileOffset ∧
      unread s1 = [1, 2, 3, 4, 5].drop s1.fileOffset ∧
      (1 ≤ [1, 2, 3, 4, 5].length - s1.fileOffset →
        ∃ s2, MemTraceReadBuffered s1 1 =
            some (true, s2, ([1, 2, 3, 4, 5].drop s1.fileOffset).take 1) ∧
          s2.fileOffset = s1.fileOffset + 1 ∧
          unread s2 = [1, 2, 3, 4, 5].drop (s1.fileOffset + 1)) ∧
      ([1, 2, 3, 4, 5].length - s1.fileOffset < 1 →
        ∃ s2, MemTraceReadBuffered s1 1 = some (false, s2, []) ∧
          s2.fileOffset = s1.fileOffset ∧ unread s2 = unread s1) :=
  ⟨by decide,
    C15_reader_hands_out_stream_in_order [1, 2, 3, 4, 5] [2, 4, 3] 1 (by decide) (by decide)
      (by decide)⟩

/-- C16, on the input where the code breaks it: with the predicted word
address 0x7FFFFF, the last word of the shadow memory, two word-wide WRITE
packets (words 0x1234 and 0x5678) are returned with `MEMTR_SUCCESS` as one
`MemOp` with `addr` 16777214 and `length` 4, so `addr + length` is
`MEM_SIZE_BYTES + 2`.  The bytes of the second word were stored at the reduced
indices 0 and 1, and the indices `addr + 2` and `addr + 3`, at which the
caller reads them, are outside the array. -/
theorem C16_burst_runs_past_memory_end :
    traceLastWord.nextAddr = 0x7FFFFF ∧
    (MemTrace_Next sampleFmt traceLastWord (some sampleOp)).status =
      NextStatus.returned MEMTR_SUCCESS ∧
    (MemTrace_Next sampleFmt traceLastWord (some sampleOp)).nextOp =
      some { type := MEMOP_WRITE, addr := 16777214, length := 4 } ∧
    ¬ (16777214 + 4 ≤ MEM_SIZE_BYTES) ∧
    (MemTrace_Next sampleFmt traceLastWord (some sampleOp)).state.memory 16777214 = 0x34 ∧
    (MemTrace_Next sampleFmt traceLastWord (some sampleOp)).state.memory 16777215 = 0x12 ∧
    (MemTrace_Next sampleFmt traceLastWord (some sampleOp)).state.memory 0 = 0x78 ∧
    (MemTrace_Next sampleFmt traceLastWord (some sampleOp)).state.memory 1 = 0x56 ∧
    ¬ (16777214 + 2 < MEM_SIZE_BYTES) ∧
    ¬ (16777214 + 3 < MEM_SIZE_BYTES) := by
  decide

/-- When `op.length` is not 0, a READ or WRITE packet was read. -/
theorem LoopInv.packet_of_length {F : MemPacketFmt} {s0 : MemTraceState} {v : NextVars}
    (hi : LoopInv F s0 v) (h : v.op.length ≠ 0) : ∃ q ∈ v.packets, isRW F q = true := by
  by_contra hno
  push_neg at hno
  have hnil : v.packets.filter (isRW F) = [] := by
    rw [List.filter_eq_nil_iff]
    intro q hq
    exact hno q hq
  have := hi.length
  rw [hnil] at this
  exact h (by simpa using this)

theorem opTypeOf_read_or_write (F : MemPacketFmt) (p : MemPacket) (h : isRW F p = true) :
    opTypeOf (F.MemPacket_GetType p) = MEMOP_READ ∨
      opTypeOf (F.MemPacket_GetType p) = MEMOP_WRITE := by
  unfold isRW at h
  cases hty : F.MemPacket_GetType p <;> rw [hty] at h <;> simp [opTypeOf] at h ⊢

/-- The operation that a burst of word accesses leaves in `op` when the loop
is left with `op.length` not 0. -/
theorem LoopInv.word_burst {F : MemPacketFmt} {s0 : MemTraceState} {v : NextVars}
    (hi : LoopInv F s0 v) (h : v.op.length ≠ 0) :
    (v.op.type = MEMOP_READ ∨ v.op.type = MEMOP_WRITE) ∧ 1 ≤ v.op.length ∧
      v.op.length % 2 = 0 := by
  obtain ⟨q, hq, hrw⟩ := hi.packet_of_length h
  refine ⟨?_, by omega, ?_⟩
  · rw [hi.types q hq hrw]
    exact opTypeOf_read_or_write F q hrw
  · rw [hi.length]
    omega

/-- C17: whenever a call `MemTrace_Next(state, &op)` returns `MEMTR_SUCCESS`,
the `MemOp` it has written to `op` has type `MEMOP_READ` or `MEMOP_WRITE` and
a length of at least 1; the length is 1 when the call read a READ or WRITE
packet with fewer than two lanes (a byte-wide operation), and it is even when
every READ or WRITE packet the call read has both lanes (a word-wide one). -/
theorem C17_success_op_is_read_or_write (F : MemPacketFmt) (s : MemTraceState) (op0 : MemOp)
    (hs : (MemTrace_Next F s (some op0)).status = NextStatus.returned MEMTR_SUCCESS) :
    ∃ op, (MemTrace_Next F s (some op0)).nextOp = some op ∧
      (op.type = MEMOP_READ ∨ op.type = MEMOP_WRITE) ∧ 1 ≤ op.length ∧
      ((∃ p ∈ (MemTrace_Next F s (some op0)).packets,
          isRW F p = true ∧ isWordWide F p = false) → op.length = 1) ∧
      ((∀ p ∈ (MemTrace_Next F s (some op0)).packets,
          isRW F p = true → isWordWide F p = true) → 0 < op.length ∧ op.length % 2 = 0) := by
  rcases MemTrace_Next_cases F s (some op0) with ⟨v, hi, hn⟩ | ⟨v, st, hi, hx, hn⟩
  · rw [hn] at hs; exact absurd hs (by simp [MemTrace_NextEnd])
  · rw [hn] at hs ⊢
    cases hx with
    | assertFirst => exact absurd hs (by simp [MemTrace_NextEnd])
    | eof s1 _ _ => exact absurd hs (by simp [MemTrace_NextEnd])
    | flush s1 _ hl =>
      obtain ⟨h1, h2, h3⟩ := hi.word_burst hl
      refine ⟨v.op, rfl, h1, h2, ?_, fun _ => ⟨by omega, h3⟩⟩
      rintro ⟨p, hp, hrw, hw⟩
      have := hi.wide p hp hrw
      rw [hw] at this
      exact absurd this (by simp)
    | misaligned s1 p st _ _ hst =>
      rcases hst with rfl | rfl | rfl <;> exact absurd hs (by simp [MemTrace_NextEnd])
    | checksum s1 p _ _ _ => exact absurd hs (by simp [MemTrace_NextEnd])
    | addr s1 p _ hv hty hl =>
      obtain ⟨h1, h2, h3⟩ := hi.word_burst hl
      refine ⟨v.op, rfl, h1, h2, ?_, fun _ => ⟨by omega, h3⟩⟩
      rintro ⟨q, hq, hrw, hw⟩
      simp only [MemTrace_NextEnd, List.mem_append, List.mem_singleton] at hq
      rcases hq with hq | rfl
      · have := hi.wide q hq hrw
        rw [hw] at this
        exact absurd this (by simp)
      · rw [isRW_false_of_addr hty] at hrw
        exact absurd hrw (by simp)
    | mismatch s1 p _ _ _ _ _ => exact absurd hs (by simp [MemTrace_NextEnd])
    | byteLater s1 p _ _ _ _ _ _ => exact absurd hs (by simp [MemTrace_NextEnd])
    | byteFirst s1 p addr hv hrw hw hl ht =>
      refine ⟨{ type := opTypeOf (F.MemPacket_GetType p), addr := addr, length := 1 }, rfl,
        opTypeOf_read_or_write F p hrw, le_refl _, fun _ => rfl, fun hall => ?_⟩
      have := hall p (by simp [MemTrace_NextEnd]) hrw
      rw [hw] at this
      exact absurd this (by simp)

/-- C17 on the WRITE burst of the spec scenario (type WRITE, length 4) and on
a byte-wide READ packet (type READ, length 1). -/
theorem C17_witness_burst_and_byte :
    (∃ op, (MemTrace_Next sampleFmt traceWriteBurst (some sampleOp)).nextOp = some op ∧
      (op.type = MEMOP_READ ∨ op.type = MEMOP_WRITE) ∧ 1 ≤ op.length ∧
      ((∃ p ∈ (MemTrace_Next sampleFmt traceWriteBurst (some sampleOp)).packets,
          isRW sampleFmt p = true ∧ isWordWide sampleFmt p = false) → op.length = 1) ∧
      ((∀ p ∈ (MemTrace_Next sampleFmt traceWriteBurst (some sampleOp)).packets,
          isRW sampleFmt p = true → isWordWide sampleFmt p = true) →
        0 < op.length ∧ op.length % 2 = 0)) ∧
    (MemTrace_Next sampleFmt traceWriteBurst (some sampleOp)).nextOp =
      some { type := MEMOP_WRITE, addr := 0x200, length := 4 } ∧
    (MemTrace_Next sampleFmt traceTwoByteReads (some sampleOp)).nextOp =
      some { type := MEMOP_READ, addr := 0, length := 1 } :=
  ⟨C17_success_op_is_read_or_write sampleFmt traceWriteBurst sampleOp (by decide),
    by decide, by decide⟩
/-- With the buffer indices in bounds and a size of at most 65536, no assert
of `MemTraceReadBuffered` fails, and the indices are in bounds after the call,
whether it succeeds or fails. -/
theorem MemTraceReadBuffered_bufOK (s : MemTraceState) (size : Nat) (hb : BufOK s)
    (hsize : size ≤ fileBufSize) :
    ∃ rd, MemTraceReadBuffered s size = some rd ∧ BufOK rd.2.1 := by
  by_cases h : size ≤ (unread s).length
  · obtain ⟨s1, hrb, hadv⟩ := MemTraceReadBuffered_ok s size hb hsize h
    exact ⟨_, hrb, hadv.1⟩
  · obtain ⟨s1, hrb, hsame⟩ := MemTraceReadBuffered_eof s size hb hsize (by omega)
    exact ⟨_, hrb, hsame.1⟩

/-- In the embedding the buffer indices stay in bounds over any number of
calls; this carries over to the C code for the calls whose byte stores fall
inside `memory` (a store outside it lands on the fields after `memory`, which
the embedding keeps apart). -/
theorem MemTrace_NextTimes_bufOK (F : MemPacketFmt) (hF : FmtOK F) :
    ∀ (n : Nat) (s : MemTraceState), BufOK s → BufOK (MemTrace_NextTimes F n s) := by
  intro n
  induction n with
  | zero => intro s hb; exact hb
  | succ n ih => intro s hb; exact ih _ (MemTrace_Next_bufOK F hF s hb none)

/-- C18, on the input where the code breaks it: on the stream ADDRESS(0x800004),
a WRITE packet with only the lower lane and data 0x00FF, ADDRESS(0), in packets
of 8 bytes, the reads of the first two packets leave `fileBufHead` 16 and
`fileBufTail` 24, and the call then stores the byte 0xFF at index
`MEM_SIZE_BYTES + 8`, outside `memory`, before it returns `MEMTR_SUCCESS`: the
index of the byte path of `MemTraceData` is not reduced. -/
theorem C18_byte_store_past_memory_end :
    (readMany (MemTrace_Open streamByteAtHead) [8, 8]).map
      (fun r => (r.1.fileBufHead, r.1.fileBufTail)) = some (16, 24) ∧
    (MemTrace_Next wideFmt (MemTrace_Open streamByteAtHead) (some sampleOp)).packets =
      [wideFmt.MemPacket_FromBytes (widePacket 0x80 0x800004),
       wideFmt.MemPacket_FromBytes (widePacket 0xA4 0x00FF)] ∧
    (MemTrace_Next wideFmt (MemTrace_Open streamByteAtHead) (some sampleOp)).status =
      NextStatus.returned MEMTR_SUCCESS ∧
    (MemTrace_Next wideFmt (MemTrace_Open streamByteAtHead) (some sampleOp)).nextOp =
      some { type := MEMOP_WRITE, addr := MEM_SIZE_BYTES + 8, length := 1 } ∧
    (MemTrace_Next wideFmt (MemTrace_Open streamByteAtHead) (some sampleOp)).state.memory
      (MEM_SIZE_BYTES + 8) = 0xFF ∧
    ¬ (MEM_SIZE_BYTES + 8 < MEM_SIZE_BYTES) := by
  decide

/-- C19, on the input where the code breaks it: on the stream
ADDRESS(0x800000), a WRITE packet with only the lower lane and data 0x00FF, in
packets of 8 bytes, the reads of the two packets leave nothing in the buffer
and nothing in the file (`fileBufHead` and `fileBufTail` 16), so the next call
has to go to `fread`; and the call stores the byte 0xFF at index
`MEM_SIZE_BYTES`, the first index outside `memory`, before it returns
`MEMTR_SUCCESS`: the index of the byte path of `MemTraceData` is not
reduced. -/
theorem C19_byte_store_at_memory_end :
    (readMany (MemTrace_Open streamByteAtFile) [8, 8]).map
      (fun r => (r.1.fileBufHead, r.1.fileBufTail, r.1.file)) = some (16, 16, []) ∧
    (MemTrace_Next wideFmt (MemTrace_Open streamByteAtFile) (some sampleOp)).packets =
      [wideFmt.MemPacket_FromBytes (widePacket 0x80 0x800000),
       wideFmt.MemPacket_FromBytes (widePacket 0xA4 0x00FF)] ∧
    (MemTrace_Next wideFmt (MemTrace_Open streamByteAtFile) (some sampleOp)).status =
      NextStatus.returned MEMTR_SUCCESS ∧
    (MemTrace_Next wideFmt (MemTrace_Open streamByteAtFile) (some sampleOp)).nextOp =
      some { type := MEMOP_WRITE, addr := MEM_SIZE_BYTES, length := 1 } ∧
    (MemTrace_Next wideFmt (MemTrace_Open streamByteAtFile) (some sampleOp)).state.memory
      MEM_SIZE_BYTES = 0xFF ∧
    ¬ (MEM_SIZE_BYTES < MEM_SIZE_BYTES) := by
  decide

end MemTrace
